import Mathlib

/-!
# so3g flat-sky projection engine (`src/Projection.cxx`)

A shallow embedding of the pointing, pixelization and accumulation kernels of
`Projection.cxx` and of the four `ProjectionEngine` operations built from them.

Conventions of the embedding.

* `double` values are elements of an ordered field `F` with a floor function (no NaN,
  no infinities).  Every arithmetic operation of the C code on `double` operands is
  the exact operation of `F` followed by the rounding `Rounding.rnd`; the compiler is
  taken not to contract `a * b + c` into a fused operation.  The arithmetic is exact
  (`exactArithmetic`, no rounding) unless a statement names another one; `binary64`
  is the rounding of IEEE 754 double precision, to nearest, ties to even, with an
  unbounded exponent range.
  Instantiating `F` with `ℚ` gives executable definitions; instantiating it with `ℝ`
  gives access to the real `cos` and `sin`.
* `cos` and `sin` of `<math.h>` are not part of the repository; they are the two
  fields of the parameter `Libm F`.
* `Py_ssize_t` values (shapes, strides, byte addresses) are mathematical integers
  (`Int`).  The byte offset that `GetPixel` computes in `Py_ssize_t` and returns as an
  `int` is reduced to 32 bits (`wrapInt32`).  The counters `idet`, `it` and the grid
  sizes, which the C code holds in `int`, are taken below `2^31`.
* `/` is division in `F`.  For a pixelizor with a zero `cdelt` the C code computes an
  infinity or a NaN, which `F` does not have; the statements describe the code for
  nonzero `cdelt`.  A NaN coordinate is outside the embedding as well: on it the four
  comparisons of `GetPixel` are all false and the conversion `int(NaN)` that follows
  has no defined result.
* Memory is a map from byte addresses to the `double` stored there (`Mem F`); the
  expression `*(double*)((char*)buf + off)` reads or writes the cell `buf + off`.
  The `int` cells written by `pixels` live in a memory of their own (`IMem`).
* An engine operation either returns an object or throws; in both cases the result
  carries the memory at that moment, so that a store made before a `throw` would show.
-/

namespace So3g

/-! ## Buffers, Python objects, exceptions -/

/-- The fields of the CPython structure `Py_buffer` that the engine uses: base address, shape
and byte strides (`ndim` is the length of `shape`). -/
structure Py_buffer where
  buf : Int
  shape : List Int
  strides : List Int
deriving DecidableEq, Repr

/-- The `view.ndim` field. -/
def Py_buffer.ndim (v : Py_buffer) : Int := v.shape.length

/-- The array element `view.shape[k]`. -/
def Py_buffer.shapeAt (v : Py_buffer) (k : Nat) : Int := v.shape.getD k 0

/-- The array element `view.strides[k]`. -/
def Py_buffer.stride (v : Py_buffer) (k : Nat) : Int := v.strides.getD k 0

instance : Inhabited Py_buffer := ⟨⟨0, [], []⟩⟩

/-- Modelled from the spec: the declaration of `BufferWrapper` (`so3g_numpy.h`) is
not among the sources; it is the "strided buffer view" of the spec, a holder of one
`Py_buffer` named `view`. -/
structure BufferWrapper where
  view : Py_buffer
deriving DecidableEq, Repr

instance : Inhabited BufferWrapper := ⟨⟨default⟩⟩

/-- A `bp::object` as the engine sees it: `None`, an object exporting a buffer, or
an object from which no buffer can be obtained. -/
inductive PyObject where
  | none
  | array (v : Py_buffer)
  | other
deriving DecidableEq, Repr

/-- The predicate `isNone` of `Projection.cxx`: `pyo.ptr() == Py_None`. -/
def isNone (pyo : PyObject) : Bool :=
  match pyo with
  | .none => true
  | _ => false

/-- The call `PyObject_GetBuffer(o, &view, PyBUF_RECORDS)`: `some view` on success,
`none` where the C function returns `-1`. -/
def PyObject_GetBuffer (o : PyObject) : Option Py_buffer :=
  match o with
  | .array v => some v
  | _ => Option.none

/-- Modelled from the spec: `exceptions.h` is not among the sources; the two
exception classes thrown by the engine are the spec's `BadBuffer(name)` and
`BadShape(name, expected)`. -/
inductive Exn where
  | buffer_exception (name : String)
  | shape_exception (name : String) (msg : String)
deriving DecidableEq, Repr

/-- Memory of `double` cells, addressed by byte address. -/
abbrev Mem (F : Type) := Int → F

/-- Memory of `int` cells, addressed by byte address. -/
abbrev IMem := Int → Int

/-- The two `<math.h>` functions used by the pointing model. -/
structure Libm (F : Type) where
  cos : F → F
  sin : F → F

/-- Rounding of the exact result of one arithmetic operation on `double` operands to
the `double` that the machine stores. -/
class Rounding (F : Type) where
  rnd : F → F

/-- Exact arithmetic: no result is rounded.  It is the arithmetic of every statement that
does not name another one. -/
instance (priority := low) exactArithmetic {F : Type} : Rounding F := ⟨fun x => x⟩

open Rounding (rnd)

/-- The conversion of a `Py_ssize_t` value to a 32-bit `int`: reduction modulo `2^32`
into `[-2^31, 2^31)`. -/
def wrapInt32 (x : Int) : Int := (x + 2147483648) % 4294967296 - 2147483648

section Kernels

variable {F : Type} [LinearOrderedField F] [FloorRing F]

/-- The C++ conversion `int(x)` of a `double`: truncation toward zero. -/
def truncInt (x : F) : Int :=
  if 0 ≤ x then Int.floor x else Int.ceil x

/-! ## PointerFlat -/

/-- State of a `PointerFlat`: the two borrowed buffer descriptors and the
per-detector values set by `InitPerDet`. -/
structure PointerFlat (F : Type) where
  _qborebuf : BufferWrapper
  _qofsbuf : BufferWrapper
  _dx : F
  _dy : F
  _cos_phi : F
  _sin_phi : F

/-- The default-constructed pointer `P()`; its fields are all overwritten by `Init`
and `InitPerDet` before they are read. -/
def PointerFlat.new : PointerFlat F := ⟨default, default, 0, 0, 0, 0⟩

/-- `PointerFlat::Init`. -/
def PointerFlat.Init (p : PointerFlat F) (qborebuf qofsbuf : BufferWrapper) :
    PointerFlat F :=
  { p with _qborebuf := qborebuf, _qofsbuf := qofsbuf }

/-- `PointerFlat::InitPerDet`. -/
def PointerFlat.InitPerDet (libm : Libm F) (mem : Mem F) (p : PointerFlat F)
    (idet : Int) : PointerFlat F :=
  let dx := mem (p._qofsbuf.view.buf + p._qofsbuf.view.stride 0 * idet)
  let dy := mem (p._qofsbuf.view.buf + p._qofsbuf.view.stride 0 * idet +
                 p._qofsbuf.view.stride 1)
  let phi := mem (p._qofsbuf.view.buf + p._qofsbuf.view.stride 0 * idet +
                  p._qofsbuf.view.stride 1 * 2)
  { p with _dx := dx, _dy := dy, _cos_phi := libm.cos phi, _sin_phi := libm.sin phi }

/-- `PointerFlat::GetCoords`: the four values stored to `coords[0..3]`. -/
def PointerFlat.GetCoords [Rounding F] (mem : Mem F) (p : PointerFlat F) (_idet : Int)
    (it : Int) : Fin 4 → F :=
  let x := mem (p._qborebuf.view.buf + p._qborebuf.view.stride 0 * it)
  let y := mem (p._qborebuf.view.buf + p._qborebuf.view.stride 0 * it +
                p._qborebuf.view.stride 1)
  let c := mem (p._qborebuf.view.buf + p._qborebuf.view.stride 0 * it +
                p._qborebuf.view.stride 1 * 2)
  let s := mem (p._qborebuf.view.buf + p._qborebuf.view.stride 0 * it +
                p._qborebuf.view.stride 1 * 3)
  ![rnd (p._dx + x), rnd (p._dy + y),
    rnd (rnd (p._cos_phi * c) - rnd (p._sin_phi * s)),
    rnd (rnd (p._cos_phi * s) + rnd (p._sin_phi * c))]

/-! ## Pixelizor -/

/-- Modelled from the spec: the class declaration of `Pixelizor` is not among the
sources (`Projection.h` declares an older `Pixelizor2_Flat`); the members are
those assigned by the constructor and read by `GetPixel`, each two-element
array stored y-first: index `0` is the y axis and index `1` the x axis. -/
structure Pixelizor (F : Type) where
  naxis : Fin 2 → Int
  cdelt : Fin 2 → F
  crval : Fin 2 → F
  crpix : Fin 2 → F
  _mapbuf : BufferWrapper

/-- The constructor `Pixelizor::Pixelizor(nx, ny, dx, dy, x0, y0, ix0, iy0)`. -/
def Pixelizor.new (nx ny : Int) (dx dy x0 y0 ix0 iy0 : F) : Pixelizor F :=
  { naxis := ![ny, nx]
    cdelt := ![dy, dx]
    crval := ![y0, x0]
    crpix := ![iy0, ix0]
    _mapbuf := default }

/-- `Pixelizor::Init`. -/
def Pixelizor.Init (z : Pixelizor F) (mapbuf : BufferWrapper) : Pixelizor F :=
  { z with _mapbuf := mapbuf }

/-- `Pixelizor::GetPixel`: the offset is computed in `Py_ssize_t` from the strides and
stored to the local `int pixel_offset`, which is returned. -/
def Pixelizor.GetPixel [Rounding F] (z : Pixelizor F) (_i_det _i_t : Int)
    (coords : Fin 4 → F) : Int :=
  let ix := rnd (rnd (rnd (rnd (coords 0 - z.crval 1) / z.cdelt 1) + z.crpix 1) + 1 / 2)
  if ix < 0 ∨ ix ≥ (z.naxis 1 : F) then -1
  else
    let iy := rnd (rnd (rnd (rnd (coords 1 - z.crval 0) / z.cdelt 0) + z.crpix 0) + 1 / 2)
    if iy < 0 ∨ iy ≥ (z.naxis 0 : F) then -1
    else
      wrapInt32
        (z._mapbuf.view.stride 1 * truncInt iy + z._mapbuf.view.stride 2 * truncInt ix)

/-! ## Accumulators -/

/-- State of an `AccumulatorSpin0`: the map and signal buffer descriptors. -/
structure AccumulatorSpin0 where
  _mapbuf : BufferWrapper
  _signalbuf : BufferWrapper
deriving DecidableEq, Repr

/-- State of an `AccumulatorSpin2`: the map and signal buffer descriptors. -/
structure AccumulatorSpin2 where
  _mapbuf : BufferWrapper
  _signalbuf : BufferWrapper
deriving DecidableEq, Repr

/-- `AccumulatorSpin0::TestInputs`: returns `true` or throws. -/
def AccumulatorSpin0.TestInputs (map _signal weight : PyObject) : Except Exn Bool :=
  match PyObject_GetBuffer map with
  | Option.none => .error (.buffer_exception "map")
  | some view =>
    if view.ndim ≠ 3 then
      .error (.shape_exception "map" "must have shape (n_y,n_x,n_map)")
    else if view.shapeAt 0 ≠ 1 then
      .error (.shape_exception "map" "must have shape (1,n_y,n_x)")
    else if !isNone weight then
      .error (.shape_exception "weight" "must be None")
    else .ok true

/-- `AccumulatorSpin0::Init`: both buffers are fetched without a check of the
return code (a failed fetch leaves the descriptor as it was). -/
def AccumulatorSpin0.Init (a : AccumulatorSpin0) (map signal : PyObject) :
    AccumulatorSpin0 :=
  { _mapbuf := ⟨(PyObject_GetBuffer map).getD a._mapbuf.view⟩
    _signalbuf := ⟨(PyObject_GetBuffer signal).getD a._signalbuf.view⟩ }

/-- `AccumulatorSpin0::Forward`: `map[pixel_offset] += signal[idet, it]`. -/
def AccumulatorSpin0.Forward [Rounding F] (a : AccumulatorSpin0) (mem : Mem F)
    (idet it pixel_offset : Int) (_coords _weights : Fin 4 → F) : Mem F :=
  let sig := mem (a._signalbuf.view.buf + a._signalbuf.view.stride 1 * idet +
                  a._signalbuf.view.stride 2 * it)
  Function.update mem (a._mapbuf.view.buf + pixel_offset)
    (rnd (mem (a._mapbuf.view.buf + pixel_offset) + sig))

/-- `AccumulatorSpin0::Reverse`: `signal[idet, it] += map[pixel_offset]`. -/
def AccumulatorSpin0.Reverse [Rounding F] (a : AccumulatorSpin0) (mem : Mem F)
    (idet it pixel_offset : Int) (_coords _weights : Fin 4 → F) : Mem F :=
  let sig := a._signalbuf.view.buf + a._signalbuf.view.stride 1 * idet +
             a._signalbuf.view.stride 2 * it
  Function.update mem sig (rnd (mem sig + mem (a._mapbuf.view.buf + pixel_offset)))

/-- `AccumulatorSpin2::TestInputs`: returns `true` or throws. -/
def AccumulatorSpin2.TestInputs (map _signal weight : PyObject) : Except Exn Bool :=
  match PyObject_GetBuffer map with
  | Option.none => .error (.buffer_exception "map")
  | some view =>
    if view.ndim ≠ 3 then
      .error (.shape_exception "map" "must have shape (n_y,n_x,n_map)")
    else if view.shapeAt 0 ≠ 3 then
      .error (.shape_exception "map" "must have shape (3,n_y,n_x)")
    else if !isNone weight then
      .error (.shape_exception "weight" "must be None")
    else .ok true

/-- `AccumulatorSpin2::Init`. -/
def AccumulatorSpin2.Init (a : AccumulatorSpin2) (map signal : PyObject) :
    AccumulatorSpin2 :=
  { _mapbuf := ⟨(PyObject_GetBuffer map).getD a._mapbuf.view⟩
    _signalbuf := ⟨(PyObject_GetBuffer signal).getD a._signalbuf.view⟩ }

/-- The local array `wt` of the spin-2 kernels: `{1, c*c - s*s, 2*c*s}`. -/
def spin2Weights [Rounding F] (coords : Fin 4 → F) : Fin 3 → F :=
  let c := coords 2
  let s := coords 3
  ![1, rnd (rnd (c * c) - rnd (s * s)), rnd (rnd (2 * c) * s)]

/-- `AccumulatorSpin2::Forward`: the loop over `imap = 0, 1, 2` adds `sig * wt[imap]`
to the cell at `strides[0] * imap + pixel_offset`. -/
def AccumulatorSpin2.Forward [Rounding F] (a : AccumulatorSpin2) (mem : Mem F)
    (idet it pixel_offset : Int) (coords _weights : Fin 4 → F) : Mem F :=
  let sig := mem (a._signalbuf.view.buf + a._signalbuf.view.stride 1 * idet +
                  a._signalbuf.view.stride 2 * it)
  let wt := spin2Weights coords
  (List.finRange 3).foldl (fun (mem : Mem F) (imap : Fin 3) =>
      let cell := a._mapbuf.view.buf + a._mapbuf.view.stride 0 * (imap : Nat) + pixel_offset
      Function.update mem cell (rnd (mem cell + rnd (sig * wt imap)))) mem

/-- `AccumulatorSpin2::Reverse`: the loop sums `map[imap] * wt[imap]` into the local
`_sig`, which is then added to the signal sample. -/
def AccumulatorSpin2.Reverse [Rounding F] (a : AccumulatorSpin2) (mem : Mem F)
    (idet it pixel_offset : Int) (coords _weights : Fin 4 → F) : Mem F :=
  let wt := spin2Weights coords
  let _sig := (List.finRange 3).foldl (fun (acc : F) (imap : Fin 3) =>
      rnd (acc + rnd (mem (a._mapbuf.view.buf + a._mapbuf.view.stride 0 * (imap : Nat)
              + pixel_offset) * wt imap))) 0
  let sig := a._signalbuf.view.buf + a._signalbuf.view.stride 1 * idet +
             a._signalbuf.view.stride 2 * it
  Function.update mem sig (rnd (mem sig + _sig))

/-- The template parameter `A` of `ProjectionEngine<P,Z,A>`: the members of an
accumulator class that the engine calls. -/
structure Accumulator (F : Type) where
  State : Type
  new : State
  TestInputs : PyObject → PyObject → PyObject → Except Exn Bool
  Init : State → PyObject → PyObject → State
  Forward : State → Mem F → Int → Int → Int → (Fin 4 → F) → (Fin 4 → F) → Mem F
  Reverse : State → Mem F → Int → Int → Int → (Fin 4 → F) → (Fin 4 → F) → Mem F

/-- The accumulator of `ProjectionEngine0`. -/
def spin0 [Rounding F] : Accumulator F where
  State := AccumulatorSpin0
  new := ⟨default, default⟩
  TestInputs := AccumulatorSpin0.TestInputs
  Init := AccumulatorSpin0.Init
  Forward := AccumulatorSpin0.Forward
  Reverse := AccumulatorSpin0.Reverse

/-- The accumulator of `ProjectionEngine2`. -/
def spin2 [Rounding F] : Accumulator F where
  State := AccumulatorSpin2
  new := ⟨default, default⟩
  TestInputs := AccumulatorSpin2.TestInputs
  Init := AccumulatorSpin2.Init
  Forward := AccumulatorSpin2.Forward
  Reverse := AccumulatorSpin2.Reverse

/-! ## Pixelizor::zeros -/

/-- A freshly created C-contiguous `NPY_FLOAT64` array: its dimensions and its
elements in storage order. -/
structure NdArray (F : Type) where
  dims : List Int
  data : List F

/-- `Pixelizor::zeros`: the dimension list is `count` (when `count >= 0`), then
`naxis[1]`, then `naxis[0]`; the `size` elements are cleared by `memset`.
`PyArray_SimpleNew` fails on a negative dimension, in which case there is no
array (`none`). -/
def Pixelizor.zeros (z : Pixelizor F) (count : Int) : Option (NdArray F) :=
  let size : Int := 1
  let dims : List Int := []
  let (dims, size) := if count ≥ 0 then (dims ++ [count], size * count) else (dims, size)
  let dims := dims ++ [z.naxis 1]
  let dims := dims ++ [z.naxis 0]
  let size := size * (z.naxis 0 * z.naxis 1)
  if dims.any (fun d => decide (d < 0)) then Option.none
  else some { dims := dims, data := List.replicate size.toNat 0 }

/-! ## ProjectionEngine -/

/-- The uninitialised local array `double weights[4]` handed to the kernels, which
never read it. -/
def weights0 : Fin 4 → F := fun _ => 0

/-- The double loop of `ProjectionEngine::to_map` over `idet < ndet`, `it < nt`. -/
def ProjectionEngine.to_map_loop [Rounding F] (libm : Libm F) (A : Accumulator F) (accumulator : A.State)
    (_pixelizor : Pixelizor F) (pointer : PointerFlat F) (ndet nt : Int) (mem : Mem F) :
    Mem F :=
  ((List.range ndet.toNat).foldl (fun (st : PointerFlat F × Mem F) (idet : Nat) =>
      let pointer := st.1.InitPerDet libm st.2 idet
      (pointer, (List.range nt.toNat).foldl (fun (mem : Mem F) (it : Nat) =>
          let coords := pointer.GetCoords mem idet it
          let pixel_offset := _pixelizor.GetPixel idet it coords
          if pixel_offset < 0 then mem
          else A.Forward accumulator mem idet it pixel_offset coords weights0) st.2))
    (pointer, mem)).2

/-- `ProjectionEngine::to_map`: the returned object is `map`; the second component
is the memory after the call, also when the call throws. -/
def ProjectionEngine.to_map [Rounding F] (libm : Libm F) (A : Accumulator F) (_pixelizor : Pixelizor F)
    (mem : Mem F) (map qbore qofs signal weight : PyObject) :
    Except (Exn × Mem F) (PyObject × Mem F) :=
  match PyObject_GetBuffer map with
  | Option.none => .error (.buffer_exception "map", mem)
  | some mapview =>
  if mapview.ndim ≠ 3 then
    .error (.shape_exception "map" "must have shape (n_y,n_x,n_map)", mem)
  else
  match PyObject_GetBuffer qbore with
  | Option.none => .error (.buffer_exception "qbore", mem)
  | some qboreview =>
  if qboreview.ndim ≠ 2 then
    .error (.shape_exception "qbore" "must have shape (n_t,n_coord)", mem)
  else
  match PyObject_GetBuffer qofs with
  | Option.none => .error (.buffer_exception "qofs", mem)
  | some qofsview =>
  if qofsview.ndim ≠ 2 then
    .error (.shape_exception "qofs" "must have shape (n_det,n_coord)", mem)
  else
  match PyObject_GetBuffer signal with
  | Option.none => .error (.buffer_exception "map", mem)
  | some signalview =>
  if signalview.ndim ≠ 3 then
    .error (.shape_exception "signalbuf" "must have shape (n_sig,n_det,n_t)", mem)
  else
  let nt := qboreview.shapeAt 0
  let ndet := qofsview.shapeAt 0
  match A.TestInputs map signal weight with
  | .error e => .error (e, mem)
  | .ok _ =>
    let pointer := (PointerFlat.new : PointerFlat F).Init ⟨qboreview⟩ ⟨qofsview⟩
    let _pixelizor := _pixelizor.Init ⟨mapview⟩
    let accumulator := A.Init A.new map signal
    .ok (map, ProjectionEngine.to_map_loop libm A accumulator _pixelizor pointer ndet nt mem)

/-- The double loop of `ProjectionEngine::from_map`. -/
def ProjectionEngine.from_map_loop [Rounding F] (libm : Libm F) (A : Accumulator F)
    (accumulator : A.State) (_pixelizor : Pixelizor F) (pointer : PointerFlat F)
    (ndet nt : Int) (mem : Mem F) : Mem F :=
  ((List.range ndet.toNat).foldl (fun (st : PointerFlat F × Mem F) (idet : Nat) =>
      let pointer := st.1.InitPerDet libm st.2 idet
      (pointer, (List.range nt.toNat).foldl (fun (mem : Mem F) (it : Nat) =>
          let coords := pointer.GetCoords mem idet it
          let pixel_offset := _pixelizor.GetPixel idet it coords
          if pixel_offset < 0 then mem
          else A.Reverse accumulator mem idet it pixel_offset coords weights0) st.2))
    (pointer, mem)).2

/-- `ProjectionEngine::from_map`: the returned object is `map`; the second
component is the memory after the call, also when the call throws. -/
def ProjectionEngine.from_map [Rounding F] (libm : Libm F) (A : Accumulator F) (_pixelizor : Pixelizor F)
    (mem : Mem F) (map qbore qofs signal weight : PyObject) :
    Except (Exn × Mem F) (PyObject × Mem F) :=
  match PyObject_GetBuffer map with
  | Option.none => .error (.buffer_exception "map", mem)
  | some mapview =>
  if mapview.ndim ≠ 3 then
    .error (.shape_exception "map" "must have shape (n_y,n_x,n_map)", mem)
  else
  match PyObject_GetBuffer qbore with
  | Option.none => .error (.buffer_exception "qbore", mem)
  | some qboreview =>
  if qboreview.ndim ≠ 2 then
    .error (.shape_exception "qbore" "must have shape (n_t,n_coord)", mem)
  else
  match PyObject_GetBuffer qofs with
  | Option.none => .error (.buffer_exception "qofs", mem)
  | some qofsview =>
  if qofsview.ndim ≠ 2 then
    .error (.shape_exception "qofs" "must have shape (n_det,n_coord)", mem)
  else
  match PyObject_GetBuffer signal with
  | Option.none => .error (.buffer_exception "map", mem)
  | some signalview =>
  if signalview.ndim ≠ 3 then
    .error (.shape_exception "signalbuf" "must have shape (n_sig,n_det,n_t)", mem)
  else
  let nt := qboreview.shapeAt 0
  let ndet := qofsview.shapeAt 0
  match A.TestInputs map signal weight with
  | .error e => .error (e, mem)
  | .ok _ =>
    let pointer := (PointerFlat.new : PointerFlat F).Init ⟨qboreview⟩ ⟨qofsview⟩
    let _pixelizor := _pixelizor.Init ⟨mapview⟩
    let accumulator := A.Init A.new map signal
    .ok (map, ProjectionEngine.from_map_loop libm A accumulator _pixelizor pointer ndet nt mem)

/-- The triple loop of `ProjectionEngine::coords`: the four coordinates of each
sample are stored to `coord[idet, it, 0..3]`. -/
def ProjectionEngine.coords_loop [Rounding F] (libm : Libm F) (coordbuf : BufferWrapper)
    (pointer : PointerFlat F) (ndet nt : Int) (mem : Mem F) : Mem F :=
  ((List.range ndet.toNat).foldl (fun (st : PointerFlat F × Mem F) (idet : Nat) =>
      let pointer := st.1.InitPerDet libm st.2 idet
      (pointer, (List.range nt.toNat).foldl (fun (mem : Mem F) (it : Nat) =>
          let coords := pointer.GetCoords mem idet it
          (List.finRange 4).foldl (fun (mem : Mem F) (ic : Fin 4) =>
              Function.update mem
                (coordbuf.view.buf + coordbuf.view.stride 0 * idet
                  + coordbuf.view.stride 1 * it + coordbuf.view.stride 2 * (ic : Nat))
                (coords ic)) mem) st.2))
    (pointer, mem)).2

/-- `ProjectionEngine::coords`: the returned object is `coord`. -/
def ProjectionEngine.coords [Rounding F] (libm : Libm F) (mem : Mem F) (qbore qofs coord : PyObject) :
    Except (Exn × Mem F) (PyObject × Mem F) :=
  match PyObject_GetBuffer qbore with
  | Option.none => .error (.buffer_exception "qbore", mem)
  | some qboreview =>
  if qboreview.ndim ≠ 2 then
    .error (.shape_exception "qbore" "must have shape (n_t,n_coord)", mem)
  else
  match PyObject_GetBuffer qofs with
  | Option.none => .error (.buffer_exception "qofs", mem)
  | some qofsview =>
  if qofsview.ndim ≠ 2 then
    .error (.shape_exception "qofs" "must have shape (n_det,n_coord)", mem)
  else
  match PyObject_GetBuffer coord with
  | Option.none => .error (.buffer_exception "coord", mem)
  | some coordview =>
  if coordview.ndim ≠ 3 then
    .error (.shape_exception "qofs" "must have shape (n_det,n_t,n_coord)", mem)
  else
  let nt := qboreview.shapeAt 0
  let ndet := qofsview.shapeAt 0
  let pointer := (PointerFlat.new : PointerFlat F).Init ⟨qboreview⟩ ⟨qofsview⟩
  .ok (coord, ProjectionEngine.coords_loop libm ⟨coordview⟩ pointer ndet nt mem)

/-- The double loop of `ProjectionEngine::pixels`: the pixel offset of each sample
is stored to the `int` cell `pixel[idet, it]`. -/
def ProjectionEngine.pixels_loop [Rounding F] (libm : Libm F) (_pixelizor : Pixelizor F)
    (pixelbuf : BufferWrapper) (pointer : PointerFlat F) (ndet nt : Int) (mem : Mem F)
    (imem : IMem) : IMem :=
  ((List.range ndet.toNat).foldl (fun (st : PointerFlat F × IMem) (idet : Nat) =>
      let pointer := st.1.InitPerDet libm mem idet
      (pointer, (List.range nt.toNat).foldl (fun (imem : IMem) (it : Nat) =>
          let coords := pointer.GetCoords mem idet it
          let pixel_offset := _pixelizor.GetPixel idet it coords
          Function.update imem
            (pixelbuf.view.buf + pixelbuf.view.stride 0 * idet + pixelbuf.view.stride 1 * it)
            pixel_offset) st.2))
    (pointer, imem)).2

/-- `ProjectionEngine::pixels`: the returned object is `pixel`; the second component
is the `int` memory after the call. -/
def ProjectionEngine.pixels [Rounding F] (libm : Libm F) (_pixelizor : Pixelizor F) (mem : Mem F)
    (imem : IMem) (map qbore qofs pixel : PyObject) :
    Except (Exn × IMem) (PyObject × IMem) :=
  match PyObject_GetBuffer map with
  | Option.none => .error (.buffer_exception "map", imem)
  | some mapview =>
  if mapview.ndim ≠ 3 then
    .error (.shape_exception "map" "must have shape (n_y,n_x,n_map)", imem)
  else
  match PyObject_GetBuffer qbore with
  | Option.none => .error (.buffer_exception "qbore", imem)
  | some qboreview =>
  if qboreview.ndim ≠ 2 then
    .error (.shape_exception "qbore" "must have shape (n_t,n_coord)", imem)
  else
  match PyObject_GetBuffer qofs with
  | Option.none => .error (.buffer_exception "qofs", imem)
  | some qofsview =>
  if qofsview.ndim ≠ 2 then
    .error (.shape_exception "qofs" "must have shape (n_det,n_coord)", imem)
  else
  match PyObject_GetBuffer pixel with
  | Option.none => .error (.buffer_exception "pixel", imem)
  | some pixelview =>
  if pixelview.ndim ≠ 2 then
    .error (.shape_exception "pixel" "must have shape (n_det,n_t)", imem)
  else
  let nt := qboreview.shapeAt 0
  let ndet := qofsview.shapeAt 0
  let pointer := (PointerFlat.new : PointerFlat F).Init ⟨qboreview⟩ ⟨qofsview⟩
  let _pixelizor := _pixelizor.Init ⟨mapview⟩
  .ok (pixel, ProjectionEngine.pixels_loop libm _pixelizor ⟨pixelview⟩ pointer ndet nt mem imem)

/-! ## Vocabulary of the statements

The quantities below are assembled from the kernels above; they name what the
statements talk about (the pointing of a sample, the cells of an array, the layout
of a contiguous array) and are not part of the engine. -/

/-- The pointing 4-tuple of sample `(idet, it)`: `GetCoords` after `InitPerDet(idet)`,
both reading the memory `mem`. -/
def sampleCoords [Rounding F] (libm : Libm F) (mem : Mem F) (qbore qofs : Py_buffer) (idet it : Nat) :
    Fin 4 → F :=
  (((PointerFlat.new : PointerFlat F).Init ⟨qbore⟩ ⟨qofs⟩).InitPerDet libm mem idet).GetCoords
    mem idet it

/-- The value `GetPixel` returns for the pointing 4-tuple of sample `(idet, it)`, the
pixelizor being bound to the map view `mapv`. -/
def samplePixel [Rounding F] (libm : Libm F) (z : Pixelizor F) (mem : Mem F) (mapv qbore qofs : Py_buffer)
    (idet it : Nat) : Int :=
  (z.Init ⟨mapv⟩).GetPixel idet it (sampleCoords libm mem qbore qofs idet it)

/-- The floating pixel coordinate `ix` of the spec, as `GetPixel` computes it. -/
def Pixelizor.ix [Rounding F] (z : Pixelizor F) (coords : Fin 4 → F) : F :=
  rnd (rnd (rnd (rnd (coords 0 - z.crval 1) / z.cdelt 1) + z.crpix 1) + 1 / 2)

/-- The floating pixel coordinate `iy` of the spec, as `GetPixel` computes it. -/
def Pixelizor.iy [Rounding F] (z : Pixelizor F) (coords : Fin 4 → F) : F :=
  rnd (rnd (rnd (rnd (coords 1 - z.crval 0) / z.cdelt 0) + z.crpix 0) + 1 / 2)

/-- The point `(ix, iy)` lies in `[0, n_x) x [0, n_y)`. -/
def Pixelizor.InRange [Rounding F] (z : Pixelizor F) (coords : Fin 4 → F) : Prop :=
  0 ≤ z.ix coords ∧ z.ix coords < (z.naxis 1 : F) ∧
  0 ≤ z.iy coords ∧ z.iy coords < (z.naxis 0 : F)

instance [Rounding F] (z : Pixelizor F) (coords : Fin 4 → F) :
    Decidable (z.InRange coords) := by
  unfold Pixelizor.InRange; infer_instance

/-- Address of the element `[i, j]` of a two-dimensional view. -/
def Py_buffer.at2 (v : Py_buffer) (i j : Int) : Int :=
  v.buf + v.stride 0 * i + v.stride 1 * j

/-- Address of the element `[i, j, k]` of a three-dimensional view. -/
def Py_buffer.at3 (v : Py_buffer) (i j k : Int) : Int :=
  v.buf + v.stride 0 * i + v.stride 1 * j + v.stride 2 * k

/-- Address of the signal sample `signal[0, idet, it]`, as the accumulators compute it. -/
def signalAddr (signal : Py_buffer) (idet it : Nat) : Int :=
  signal.buf + signal.stride 1 * idet + signal.stride 2 * it

/-- The addresses the pointing model reads: columns `0..3` of the boresight rows
`it < n_t` and columns `0..2` of the offset rows `idet < n_det`. -/
def PointingCell (qbore qofs : Py_buffer) (a : Int) : Prop :=
  (∃ it : Nat, (it : Int) < qbore.shapeAt 0 ∧
    (a = qbore.buf + qbore.stride 0 * it ∨
     a = qbore.buf + qbore.stride 0 * it + qbore.stride 1 ∨
     a = qbore.buf + qbore.stride 0 * it + qbore.stride 1 * 2 ∨
     a = qbore.buf + qbore.stride 0 * it + qbore.stride 1 * 3)) ∨
  (∃ idet : Nat, (idet : Int) < qofs.shapeAt 0 ∧
    (a = qofs.buf + qofs.stride 0 * idet ∨
     a = qofs.buf + qofs.stride 0 * idet + qofs.stride 1 ∨
     a = qofs.buf + qofs.stride 0 * idet + qofs.stride 1 * 2))

/-- The addresses of the signal samples `signal[0, idet, it]`, `idet < n_det`,
`it < n_t`. -/
def SignalCell (signal qbore qofs : Py_buffer) (a : Int) : Prop :=
  ∃ idet it : Nat, (idet : Int) < qofs.shapeAt 0 ∧ (it : Int) < qbore.shapeAt 0 ∧
    a = signalAddr signal idet it

/-- The addresses of the elements of a three-dimensional view. -/
def ArrayCell3 (v : Py_buffer) (a : Int) : Prop :=
  ∃ i j k : Nat, (i : Int) < v.shapeAt 0 ∧ (j : Int) < v.shapeAt 1 ∧ (k : Int) < v.shapeAt 2 ∧
    a = v.at3 i j k

/-- The addresses a forward kernel writes for the samples the pixelizor accepts:
component `k < ncomp` of the pixel of each sample with a non-negative offset. -/
def ForwardCell [Rounding F] (libm : Libm F) (z : Pixelizor F) (mem : Mem F) (ncomp : Nat)
    (mapv qbore qofs : Py_buffer) (a : Int) : Prop :=
  ∃ idet it k : Nat, (idet : Int) < qofs.shapeAt 0 ∧ (it : Int) < qbore.shapeAt 0 ∧ k < ncomp ∧
    0 ≤ samplePixel libm z mem mapv qbore qofs idet it ∧
    a = mapv.buf + mapv.stride 0 * k + samplePixel libm z mem mapv qbore qofs idet it

/-- Byte strides of a C-contiguous array of `double` of the given shape. -/
def cStrides : List Int → List Int
  | [] => []
  | _ :: ds => (8 * ds.prod) :: cStrides ds

/-- The view is laid out as a C-contiguous array of `double`. -/
def Py_buffer.CContiguous (v : Py_buffer) : Prop := v.strides = cStrides v.shape

instance (v : Py_buffer) : Decidable v.CContiguous := by
  unfold Py_buffer.CContiguous; infer_instance

/-- What the spin-0 forward loop adds to the memory: each accepted sample adds its
signal value at the cell of its pixel. -/
def forwardSum0 [Rounding F] (libm : Libm F) (z : Pixelizor F) (mem : Mem F) (mapv qbore qofs signal : Py_buffer) :
    Mem F :=
  ∑ idet in Finset.range (qofs.shapeAt 0).toNat, ∑ it in Finset.range (qbore.shapeAt 0).toNat,
    if samplePixel libm z mem mapv qbore qofs idet it < 0 then 0
    else Pi.single (mapv.buf + samplePixel libm z mem mapv qbore qofs idet it)
      (mem (signalAddr signal idet it))

/-- What the spin-2 forward loop adds to the memory: each accepted sample adds its
signal value times the weight `wt[k]` at component `k` of its pixel. -/
def forwardSum2 [Rounding F] (libm : Libm F) (z : Pixelizor F) (mem : Mem F) (mapv qbore qofs signal : Py_buffer) :
    Mem F :=
  ∑ idet in Finset.range (qofs.shapeAt 0).toNat, ∑ it in Finset.range (qbore.shapeAt 0).toNat,
    if samplePixel libm z mem mapv qbore qofs idet it < 0 then 0
    else ∑ k : Fin 3, Pi.single
      (mapv.buf + mapv.stride 0 * ((k : Nat) : Int)
        + samplePixel libm z mem mapv qbore qofs idet it)
      (mem (signalAddr signal idet it) * spin2Weights (sampleCoords libm mem qbore qofs idet it) k)

/-- What the spin-0 reverse loop adds to the memory: each accepted sample receives the
value of the map cell of its pixel. -/
def reverseSum0 [Rounding F] (libm : Libm F) (z : Pixelizor F) (mem : Mem F) (mapv qbore qofs signal : Py_buffer) :
    Mem F :=
  ∑ idet in Finset.range (qofs.shapeAt 0).toNat, ∑ it in Finset.range (qbore.shapeAt 0).toNat,
    if samplePixel libm z mem mapv qbore qofs idet it < 0 then 0
    else Pi.single (signalAddr signal idet it)
      (mem (mapv.buf + samplePixel libm z mem mapv qbore qofs idet it))

/-- What the spin-2 reverse loop adds to the memory: each accepted sample receives the
sum over the components `k` of the map cell of its pixel times the weight `wt[k]`. -/
def reverseSum2 [Rounding F] (libm : Libm F) (z : Pixelizor F) (mem : Mem F) (mapv qbore qofs signal : Py_buffer) :
    Mem F :=
  ∑ idet in Finset.range (qofs.shapeAt 0).toNat, ∑ it in Finset.range (qbore.shapeAt 0).toNat,
    if samplePixel libm z mem mapv qbore qofs idet it < 0 then 0
    else Pi.single (signalAddr signal idet it)
      (∑ k : Fin 3, mem (mapv.buf + mapv.stride 0 * ((k : Nat) : Int)
          + samplePixel libm z mem mapv qbore qofs idet it)
        * spin2Weights (sampleCoords libm mem qbore qofs idet it) k)

/-- The pairing of a memory with the map `M` over the elements of a three-dimensional
grid, as an additive map. -/
def gridPairing (mv : Py_buffer) (n0 n1 n2 : Nat) (M : Mem F) : Mem F →+ F where
  toFun f := ∑ i in Finset.range n0, ∑ j in Finset.range n1, ∑ k in Finset.range n2,
    f (mv.at3 i j k) * M (mv.at3 i j k)
  map_zero' := by simp
  map_add' f g := by simp [add_mul, Finset.sum_add_distrib]

/-- Two memories hold the same values on the addresses of `R`. -/
def AgreeOn {V : Type} (R : Int → Prop) (m m0 : Int → V) : Prop := ∀ a, R a → m a = m0 a

/-- The map view of S1: shape `(1, 4, 4)`, contiguous, at address `0`. -/
def S1.mapv : Py_buffer := ⟨0, [1, 4, 4], [128, 32, 8]⟩

/-- The boresight view of S1: shape `(1, 4)`, at address `1000`. -/
def S1.qbore : Py_buffer := ⟨1000, [1, 4], [32, 8]⟩

/-- The offsets view of S1: shape `(1, 3)`, at address `2000`. -/
def S1.qofs : Py_buffer := ⟨2000, [1, 3], [24, 8]⟩

/-- The signal view of S1: shape `(1, 1, 1)`, at address `3000`. -/
def S1.signalv : Py_buffer := ⟨3000, [1, 1, 1], [8, 8, 8]⟩

/-- The pixelizor of S1: `(n_x=4, n_y=4, dx=dy=1, x0=y0=0, ix0=iy0=0)`. -/
def S1.pixelizor : Pixelizor F := Pixelizor.new 4 4 1 1 0 0 0 0

/-- The memory of S1: boresight `[[0, 0, 1, 0]]`, offsets `[[0.5, 0.5, 0]]`, signal
`[[[7]]]`, and zero everywhere else, in particular in the map. -/
def S1.mem : Mem F := fun a =>
  if a = 1016 then 1
  else if a = 2000 then 1 / 2
  else if a = 2008 then 1 / 2
  else if a = 3000 then 7
  else 0

/-- The memory of S2: as S1, with offsets `[[5, 5, 0]]`. -/
def S2.mem : Mem F := fun a =>
  if a = 1016 then 1
  else if a = 2000 then 5
  else if a = 2008 then 5
  else if a = 3000 then 7
  else 0

/-- A three-component map view for the pointing of S1: shape `(3, 4, 4)`, contiguous,
at address `0`. -/
def S1.mapv3 : Py_buffer := ⟨0, [3, 4, 4], [128, 32, 8]⟩

/-- The memory of S1 with the value `3` stored in `map[0, 1, 1]`. -/
def S1.memM : Mem F := fun a =>
  if a = 40 then 3
  else if a = 1016 then 1
  else if a = 2000 then 1 / 2
  else if a = 2008 then 1 / 2
  else if a = 3000 then 7
  else 0

/-- A pixel output view for the pointing of S1: one `int` at address `5000`. -/
def S1.pixelv : Py_buffer := ⟨5000, [1, 1], [4, 4]⟩

/-- The memory of S1 with the value `3` stored in `map[0, 1, 1]` and a zero signal. -/
def S1.memM0 : Mem F := fun a =>
  if a = 40 then 3
  else if a = 1016 then 1
  else if a = 2000 then 1 / 2
  else if a = 2008 then 1 / 2
  else 0

/-! ## The end-to-end scenario S3

The pointing and signal views are those of S1; the map has three components of one
pixel each. -/

/-- The map view of S3: shape `(3, 1, 1)`, contiguous, at address `0`. -/
def S3.mapv : Py_buffer := ⟨0, [3, 1, 1], [8, 8, 8]⟩

/-- The pixelizor of S3: `(1, 1, 1, 1, 0, 0, 0, 0)`. -/
def S3.pixelizor : Pixelizor F := Pixelizor.new 1 1 1 1 0 0 0 0

/-- The memory of S3: boresight `[[0, 0, c, s]]`, offsets `[[0, 0, 0]]`, signal `[[[1]]]`
and a zero map; the scenario takes `c = cos(pi/4)` and `s = sin(pi/4)`. -/
def S3.mem (c s : F) : Mem F := fun a =>
  if a = 1016 then c
  else if a = 1024 then s
  else if a = 3000 then 1
  else 0

/-! ## Views and vocabulary for the validation statements -/

/-- A signal view with two signals: shape `(2, 1, 1)`, at the address of the S1 signal. -/
def S1.signalv2 : Py_buffer := ⟨3000, [2, 1, 1], [8, 8, 8]⟩

/-- A boresight view with two coordinates per row: shape `(1, 2)`, at address `1000`. -/
def S1.qbore2 : Py_buffer := ⟨1000, [1, 2], [16, 8]⟩

/-- A map view with two components: shape `(2, 4, 4)`, contiguous, at address `0`. -/
def S1.mapv2 : Py_buffer := ⟨0, [2, 4, 4], [128, 32, 8]⟩

/-- The `(1, 4, 4)` map of S1 seen with its rows in reverse order: the view starts at the
last row (address `96`) and has y-stride `-32`. -/
def S1.mapvFlip : Py_buffer := ⟨96, [1, 4, 4], [128, -32, 8]⟩

/-! ## The arithmetic of binary64 -/

/-- Rounding to the nearest multiple of `u`, a tie going to the even multiple. -/
def roundToGrid (u x : F) : F :=
  let m := x / u
  let f := Int.floor m
  if m - f < 1 / 2 then (f : F) * u
  else if 1 / 2 < m - f then ((f : F) + 1) * u
  else if f % 2 = 0 then (f : F) * u
  else ((f : F) + 1) * u

/-- Rounding to IEEE 754 binary64, to nearest, ties to even: for `2^e <= |x| < 2^(e+1)`
the 53-bit significands are the multiples of `2^(e-52)`.  The exponent range is not
bounded (no overflow, no subnormal numbers). -/
def roundDouble (x : F) : F :=
  if x = 0 then 0 else roundToGrid ((2 : F) ^ (Int.log 2 |x| - 52)) x

/-- The arithmetic of IEEE 754 binary64. -/
def binary64 : Rounding F := ⟨roundDouble⟩

/-! ## The end-to-end scenario S3 with the boresight pair in binary64 -/

/-- The double nearest to `cos(pi/4)`, `0x3FE6A09E667F3BCD`; it is also what `cos` returns
at the double nearest to `pi/4`. -/
def S3.cosDouble : F := 6369051672525773 / 9007199254740992

/-- The double just below `S3.cosDouble`, `0x3FE6A09E667F3BCC`: what `sin` returns at the
double nearest to `pi/4`. -/
def S3.sinDouble : F := 6369051672525772 / 9007199254740992

/-! ## Scenario S4: a map plane of more than 4 GiB

The pointing and signal views are those of S1, below address `10000`; the map starts at
`10000`. -/

/-- The pixelizor of S4: a grid of `43200 x 21600` pixels with unit steps. -/
def S4.pixelizor : Pixelizor F := Pixelizor.new 43200 21600 1 1 0 0 0 0

/-- The map view of S4: shape `(1, 21600, 43200)`, contiguous, at address `10000`; a row
takes `345600` bytes and the plane `7464960000` bytes. -/
def S4.mapv : Py_buffer := ⟨10000, [1, 21600, 43200], [7464960000, 345600, 8]⟩

/-- The memory of S4: boresight `[[0, y, 1, 0]]`, offsets `[[0.5, 0.5, 0]]`, signal
`[[[7]]]`, and zero everywhere else, in particular in the map. -/
def S4.mem (y : F) : Mem F := fun a =>
  if a = 1008 then y
  else if a = 1016 then 1
  else if a = 2000 then 1 / 2
  else if a = 2008 then 1 / 2
  else if a = 3000 then 7
  else 0

/-- The memory of S4 for `y = 7000`, with the value `3` stored in `map[0, 7001, 1]`. -/
def S4.memM : Mem F := fun a =>
  if a = 2419555608 then 3 else S4.mem 7000 a

/-! ## Scenario S5: two samples on one pixel

The map, the offsets and the pixelizor are those of S1; there are two time samples. -/

/-- The boresight view of S5: shape `(2, 4)`, at address `1000`. -/
def S5.qbore : Py_buffer := ⟨1000, [2, 4], [32, 8]⟩

/-- The signal view of S5: shape `(1, 1, 2)`, at address `3000`. -/
def S5.signalv : Py_buffer := ⟨3000, [1, 1, 2], [16, 16, 8]⟩

/-- The memory of S5: boresight `[[0, 0, 1, 0], [0, 0, 1, 0]]`, offsets `[[0.5, 0.5, 0]]`,
signal `[[[1, 2^-52]]]`, and zero everywhere else, in particular in the map. -/
def S5.mem : Mem F := fun a =>
  if a = 1016 then 1
  else if a = 1048 then 1
  else if a = 2000 then 1 / 2
  else if a = 2008 then 1 / 2
  else if a = 3000 then 1
  else if a = 3008 then 1 / 4503599627370496
  else 0

end Kernels

/-! # Theorems -/

set_option linter.unusedSectionVars false

/-! ## Loop lemmas -/

section LoopLemmas

variable {F : Type} [LinearOrderedField F] [FloorRing F]

theorem AgreeOn.refl {V : Type} (R : Int → Prop) (m : Int → V) : AgreeOn R m m := fun _ _ => rfl

/-- In exact arithmetic the rounding is the identity. -/
@[simp] theorem rnd_exact (x : F) : (rnd x : F) = x := rfl

theorem wrapInt32_of_fits (x : Int) (h0 : -2147483648 ≤ x) (h1 : x < 2147483648) :
    wrapInt32 x = x := by
  unfold wrapInt32; omega

theorem wrapInt32_bounds (x : Int) : -2147483648 ≤ wrapInt32 x ∧ wrapInt32 x < 2147483648 := by
  unfold wrapInt32; omega

/-- A non-negative reduced offset of a non-negative multiple of `8` is a multiple of `8`
not above it. -/
theorem wrapInt32_nonneg_le (x : Int) (hx : 0 ≤ x) (h8 : x % 8 = 0) (hw : 0 ≤ wrapInt32 x) :
    wrapInt32 x ≤ x ∧ wrapInt32 x % 8 = 0 := by
  unfold wrapInt32 at hw ⊢; omega

theorem InitPerDet_InitPerDet (libm : Libm F) (m m' : Mem F) (p : PointerFlat F) (i j : Int) :
    (p.InitPerDet libm m' j).InitPerDet libm m i = p.InitPerDet libm m i := rfl

theorem foldl_pointer_snd {σ : Type} (libm : Libm F) (rd : σ → Mem F)
    (g : PointerFlat F → Nat → σ → σ) (l : List Nat) (p : PointerFlat F) (s : σ) :
    (l.foldl (fun (st : PointerFlat F × σ) (idet : Nat) =>
        (st.1.InitPerDet libm (rd st.2) idet, g (st.1.InitPerDet libm (rd st.2) idet) idet st.2))
      (p, s)).2
    = l.foldl (fun (s : σ) (idet : Nat) => g (p.InitPerDet libm (rd s) idet) idet s) s := by
  induction l generalizing p s with
  | nil => rfl
  | cons i l ih =>
    simp only [List.foldl_cons]
    rw [ih]
    simp only [InitPerDet_InitPerDet]

theorem update_add_eq (m : Mem F) (a : Int) (v : F) :
    Function.update m a (m a + v) = m + Pi.single a v := by
  funext x
  by_cases h : x = a
  · subst h; simp
  · simp [Function.update_noteq h, Pi.single_eq_of_ne h]

theorem foldl_range_additive (R : Int → Prop) (m0 : Mem F) (body : Mem F → Nat → Mem F)
    (D : Nat → Mem F) (n : Nat)
    (hbody : ∀ i, i < n → ∀ m, AgreeOn R m m0 → body m i = m + D i)
    (hD : ∀ i, i < n → ∀ a, R a → D i a = 0)
    (m : Mem F) (hm : AgreeOn R m m0) :
    (List.range n).foldl body m = m + ∑ i in Finset.range n, D i ∧
      AgreeOn R ((List.range n).foldl body m) m0 := by
  induction n with
  | zero => simpa using hm
  | succ n ih =>
    obtain ⟨h1, h2⟩ := ih (fun i hi => hbody i (Nat.lt_succ_of_lt hi))
      (fun i hi => hD i (Nat.lt_succ_of_lt hi))
    rw [List.range_succ, List.foldl_append, List.foldl_cons, List.foldl_nil,
      hbody n (Nat.lt_succ_self n) _ h2, h1, Finset.sum_range_succ, add_assoc]
    refine ⟨rfl, ?_⟩
    intro a ha
    have := h2 a ha
    rw [h1] at this
    simp only [Pi.add_apply] at this ⊢
    rw [← add_assoc, this, hD n (Nat.lt_succ_self n) a ha, add_zero]

theorem GetCoords_congr (libm : Libm F) (qb qo : Py_buffer) (m m' m0 : Mem F)
    (h : AgreeOn (PointingCell qb qo) m m0) (h' : AgreeOn (PointingCell qb qo) m' m0)
    (idet it : Nat)
    (hd : idet < (qo.shapeAt 0).toNat) (ht : it < (qb.shapeAt 0).toNat) :
    (((PointerFlat.new : PointerFlat F).Init ⟨qb⟩ ⟨qo⟩).InitPerDet libm m idet).GetCoords
      m' idet it = sampleCoords libm m0 qb qo idet it := by
  have hd' : (idet : Int) < qo.shapeAt 0 := Int.lt_toNat.mp hd
  have ht' : (it : Int) < qb.shapeAt 0 := Int.lt_toNat.mp ht
  simp only [rnd_exact, sampleCoords, PointerFlat.GetCoords, PointerFlat.InitPerDet, PointerFlat.Init]
  rw [h _ (Or.inr ⟨idet, hd', Or.inl rfl⟩), h _ (Or.inr ⟨idet, hd', Or.inr (Or.inl rfl)⟩),
    h _ (Or.inr ⟨idet, hd', Or.inr (Or.inr rfl)⟩),
    h' _ (Or.inl ⟨it, ht', Or.inl rfl⟩), h' _ (Or.inl ⟨it, ht', Or.inr (Or.inl rfl)⟩),
    h' _ (Or.inl ⟨it, ht', Or.inr (Or.inr (Or.inl rfl))⟩),
    h' _ (Or.inl ⟨it, ht', Or.inr (Or.inr (Or.inr rfl))⟩)]

theorem AgreeOn.mono {V : Type} {R R' : Int → Prop} {m m0 : Int → V} (h : AgreeOn R m m0)
    (hR : ∀ a, R' a → R a) : AgreeOn R' m m0 := fun a ha => h a (hR a ha)

/-- The double loop of an engine operation whose kernel adds `inc idet it` to the memory:
the result is the initial memory plus the increments of the accepted samples. -/
theorem sample_loop_additive (libm : Libm F) (z : Pixelizor F) (mv qb qo : Py_buffer)
    (kernel : Mem F → Int → Int → Int → (Fin 4 → F) → (Fin 4 → F) → Mem F)
    (R : Int → Prop) (inc : Nat → Nat → Mem F) (m0 : Mem F)
    (hR : ∀ a, PointingCell qb qo a → R a)
    (hk : ∀ idet it, idet < (qo.shapeAt 0).toNat → it < (qb.shapeAt 0).toNat →
      ¬ samplePixel libm z m0 mv qb qo idet it < 0 →
      ∀ m, AgreeOn R m m0 →
        kernel m idet it (samplePixel libm z m0 mv qb qo idet it)
          (sampleCoords libm m0 qb qo idet it) weights0 = m + inc idet it)
    (hinc : ∀ idet it, idet < (qo.shapeAt 0).toNat → it < (qb.shapeAt 0).toNat →
      ¬ samplePixel libm z m0 mv qb qo idet it < 0 → ∀ a, R a → inc idet it a = 0) :
    ((List.range (qo.shapeAt 0).toNat).foldl (fun (st : PointerFlat F × Mem F) (idet : Nat) =>
      let pointer := st.1.InitPerDet libm st.2 idet
      (pointer, (List.range (qb.shapeAt 0).toNat).foldl (fun (mem : Mem F) (it : Nat) =>
          let coords := pointer.GetCoords mem idet it
          let pixel_offset := (z.Init ⟨mv⟩).GetPixel idet it coords
          if pixel_offset < 0 then mem
          else kernel mem idet it pixel_offset coords weights0) st.2))
      ((PointerFlat.new : PointerFlat F).Init ⟨qb⟩ ⟨qo⟩, m0)).2
    = m0 + ∑ idet in Finset.range (qo.shapeAt 0).toNat,
        ∑ it in Finset.range (qb.shapeAt 0).toNat,
          (if samplePixel libm z m0 mv qb qo idet it < 0 then 0 else inc idet it) ∧
    AgreeOn R (((List.range (qo.shapeAt 0).toNat).foldl
      (fun (st : PointerFlat F × Mem F) (idet : Nat) =>
      let pointer := st.1.InitPerDet libm st.2 idet
      (pointer, (List.range (qb.shapeAt 0).toNat).foldl (fun (mem : Mem F) (it : Nat) =>
          let coords := pointer.GetCoords mem idet it
          let pixel_offset := (z.Init ⟨mv⟩).GetPixel idet it coords
          if pixel_offset < 0 then mem
          else kernel mem idet it pixel_offset coords weights0) st.2))
      ((PointerFlat.new : PointerFlat F).Init ⟨qb⟩ ⟨qo⟩, m0)).2) m0 := by
  have key := foldl_pointer_snd libm (fun (m : Mem F) => m)
    (fun (pointer : PointerFlat F) (idet : Nat) (m : Mem F) =>
      (List.range (qb.shapeAt 0).toNat).foldl (fun (mem : Mem F) (it : Nat) =>
          let coords := pointer.GetCoords mem idet it
          let pixel_offset := (z.Init ⟨mv⟩).GetPixel idet it coords
          if pixel_offset < 0 then mem
          else kernel mem idet it pixel_offset coords weights0) m)
    (List.range (qo.shapeAt 0).toNat) ((PointerFlat.new : PointerFlat F).Init ⟨qb⟩ ⟨qo⟩) m0
  simp only at key ⊢
  rw [key]
  refine foldl_range_additive R m0 _ _ _ ?_ ?_ m0 (AgreeOn.refl R m0)
  · intro idet hd m hm
    refine (foldl_range_additive R m0 _ _ _ ?_ ?_ m hm).1
    · intro it ht m' hm'
      dsimp only
      rw [GetCoords_congr libm qb qo m m' m0 (hm.mono hR) (hm'.mono hR) idet it hd ht]
      change (if samplePixel libm z m0 mv qb qo idet it < 0 then m' else _) = _
      split_ifs with hp
      · simp
      · exact hk idet it hd ht hp m' hm'
    · intro it ht a ha
      split_ifs with hp
      · rfl
      · exact hinc idet it hd ht hp a ha
  · intro idet hd a ha
    rw [Finset.sum_apply]
    refine Finset.sum_eq_zero ?_
    intro it ht
    rw [Finset.mem_range] at ht
    split_ifs with hp
    · rfl
    · exact hinc idet it hd ht hp a ha

theorem to_map_spin0_ok (libm : Libm F) (z : Pixelizor F) (mem : Mem F)
    (mv qb qo sv : Py_buffer) (hm : mv.ndim = 3) (hm0 : mv.shapeAt 0 = 1) (hqb : qb.ndim = 2)
    (hqo : qo.ndim = 2) (hs : sv.ndim = 3) :
    ProjectionEngine.to_map libm spin0 z mem (.array mv) (.array qb) (.array qo) (.array sv)
      PyObject.none =
    .ok (.array mv, ProjectionEngine.to_map_loop libm spin0 (⟨⟨mv⟩, ⟨sv⟩⟩ : AccumulatorSpin0)
      (z.Init ⟨mv⟩) ((PointerFlat.new : PointerFlat F).Init ⟨qb⟩ ⟨qo⟩)
      (qo.shapeAt 0) (qb.shapeAt 0) mem) := by
  simp [ProjectionEngine.to_map, PyObject_GetBuffer, hm, hm0, hqb, hqo, hs, spin0,
    AccumulatorSpin0.TestInputs, isNone, AccumulatorSpin0.Init]

theorem to_map_spin2_ok (libm : Libm F) (z : Pixelizor F) (mem : Mem F)
    (mv qb qo sv : Py_buffer) (hm : mv.ndim = 3) (hm0 : mv.shapeAt 0 = 3) (hqb : qb.ndim = 2)
    (hqo : qo.ndim = 2) (hs : sv.ndim = 3) :
    ProjectionEngine.to_map libm spin2 z mem (.array mv) (.array qb) (.array qo) (.array sv)
      PyObject.none =
    .ok (.array mv, ProjectionEngine.to_map_loop libm spin2 (⟨⟨mv⟩, ⟨sv⟩⟩ : AccumulatorSpin2)
      (z.Init ⟨mv⟩) ((PointerFlat.new : PointerFlat F).Init ⟨qb⟩ ⟨qo⟩)
      (qo.shapeAt 0) (qb.shapeAt 0) mem) := by
  simp [ProjectionEngine.to_map, PyObject_GetBuffer, hm, hm0, hqb, hqo, hs, spin2,
    AccumulatorSpin2.TestInputs, isNone, AccumulatorSpin2.Init]

theorem from_map_spin0_ok (libm : Libm F) (z : Pixelizor F) (mem : Mem F)
    (mv qb qo sv : Py_buffer) (hm : mv.ndim = 3) (hm0 : mv.shapeAt 0 = 1) (hqb : qb.ndim = 2)
    (hqo : qo.ndim = 2) (hs : sv.ndim = 3) :
    ProjectionEngine.from_map libm spin0 z mem (.array mv) (.array qb) (.array qo) (.array sv)
      PyObject.none =
    .ok (.array mv, ProjectionEngine.from_map_loop libm spin0 (⟨⟨mv⟩, ⟨sv⟩⟩ : AccumulatorSpin0)
      (z.Init ⟨mv⟩) ((PointerFlat.new : PointerFlat F).Init ⟨qb⟩ ⟨qo⟩)
      (qo.shapeAt 0) (qb.shapeAt 0) mem) := by
  simp [ProjectionEngine.from_map, PyObject_GetBuffer, hm, hm0, hqb, hqo, hs, spin0,
    AccumulatorSpin0.TestInputs, isNone, AccumulatorSpin0.Init]

/-- The pointing 4-tuple of a sample, written out on the rows of the two arrays. -/
theorem sampleCoords_eq (libm : Libm F) (mem : Mem F) (qb qo : Py_buffer) (d t : Nat) :
    sampleCoords libm mem qb qo d t =
      ![mem (qo.at2 d 0) + mem (qb.at2 t 0), mem (qo.at2 d 1) + mem (qb.at2 t 1),
        libm.cos (mem (qo.at2 d 2)) * mem (qb.at2 t 2)
          - libm.sin (mem (qo.at2 d 2)) * mem (qb.at2 t 3),
        libm.cos (mem (qo.at2 d 2)) * mem (qb.at2 t 3)
          + libm.sin (mem (qo.at2 d 2)) * mem (qb.at2 t 2)] := by
  simp [sampleCoords, PointerFlat.GetCoords, PointerFlat.InitPerDet, PointerFlat.Init,
    Py_buffer.at2]

/-! ## Pixel offsets and the forward loop -/

theorem GetPixel_of_not_InRange (z : Pixelizor F) (mv : Py_buffer) (i_det i_t : Int)
    (coords : Fin 4 → F) (h : ¬ z.InRange coords) :
    (z.Init ⟨mv⟩).GetPixel i_det i_t coords = -1 := by
  simp only [rnd_exact, Pixelizor.GetPixel, Pixelizor.Init]
  split_ifs with h1 h2
  · rfl
  · rfl
  · exfalso
    push_neg at h1 h2
    exact h ⟨h1.1, h1.2, h2.1, h2.2⟩

theorem GetPixel_of_InRange (z : Pixelizor F) (mv : Py_buffer) (i_det i_t : Int)
    (coords : Fin 4 → F) (h : z.InRange coords) :
    (z.Init ⟨mv⟩).GetPixel i_det i_t coords = wrapInt32
      (mv.stride 1 * truncInt (z.iy coords) + mv.stride 2 * truncInt (z.ix coords)) := by
  obtain ⟨h1, h2, h3, h4⟩ := h
  simp only [rnd_exact, Pixelizor.ix, Pixelizor.iy] at h1 h2 h3 h4
  simp only [rnd_exact, Pixelizor.GetPixel, Pixelizor.Init, Pixelizor.ix, Pixelizor.iy]
  rw [if_neg (by push_neg; exact ⟨h1, h2⟩), if_neg (by push_neg; exact ⟨h3, h4⟩)]

theorem to_map_loop_out_of_range (libm : Libm F) (A : Accumulator F) (acc : A.State)
    (z : Pixelizor F) (mem : Mem F) (mv qb qo : Py_buffer)
    (hout : ∀ d t : Nat, (d : Int) < qo.shapeAt 0 → (t : Int) < qb.shapeAt 0 →
      ¬ z.InRange (sampleCoords libm mem qb qo d t)) :
    ProjectionEngine.to_map_loop libm A acc (z.Init ⟨mv⟩)
      ((PointerFlat.new : PointerFlat F).Init ⟨qb⟩ ⟨qo⟩) (qo.shapeAt 0) (qb.shapeAt 0) mem
      = mem := by
  have hneg : ∀ d t : Nat, d < (qo.shapeAt 0).toNat → t < (qb.shapeAt 0).toNat →
      samplePixel libm z mem mv qb qo d t < 0 := by
    intro d t hd ht
    rw [samplePixel, GetPixel_of_not_InRange z mv _ _ _
      (hout d t (Int.lt_toNat.mp hd) (Int.lt_toNat.mp ht))]
    norm_num
  have h := (sample_loop_additive libm z mv qb qo (A.Forward acc) (fun _ => True)
    (fun _ _ => 0) mem (fun _ _ => trivial)
    (fun d t hd ht hp => absurd (hneg d t hd ht) hp)
    (fun d t hd ht hp => absurd (hneg d t hd ht) hp)).1
  unfold ProjectionEngine.to_map_loop
  rw [h]
  simp

/-! ## The kernels as increments -/

theorem Spin0_Forward_eq (a : AccumulatorSpin0) (m : Mem F) (idet it : Nat) (off : Int)
    (c w : Fin 4 → F) :
    a.Forward m idet it off c w =
      m + Pi.single (a._mapbuf.view.buf + off) (m (signalAddr a._signalbuf.view idet it)) := by
  simp only [rnd_exact, AccumulatorSpin0.Forward, signalAddr]
  exact update_add_eq m _ _

theorem Spin0_Reverse_eq (a : AccumulatorSpin0) (m : Mem F) (idet it : Nat) (off : Int)
    (c w : Fin 4 → F) :
    a.Reverse m idet it off c w =
      m + Pi.single (signalAddr a._signalbuf.view idet it) (m (a._mapbuf.view.buf + off)) := by
  simp only [rnd_exact, AccumulatorSpin0.Reverse, signalAddr]
  exact update_add_eq m _ _

theorem Spin2_Forward_eq (a : AccumulatorSpin2) (m : Mem F) (idet it : Nat) (off : Int)
    (c w : Fin 4 → F) :
    a.Forward m idet it off c w =
      m + ∑ k : Fin 3, Pi.single
        (a._mapbuf.view.buf + a._mapbuf.view.stride 0 * ((k : Nat) : Int) + off)
        (m (signalAddr a._signalbuf.view idet it) * spin2Weights c k) := by
  have h3 : List.finRange 3 = [0, 1, 2] := rfl
  simp only [rnd_exact, AccumulatorSpin2.Forward, signalAddr, h3, List.foldl_cons, List.foldl_nil,
    update_add_eq, Fin.sum_univ_three, add_assoc]

/-! ## The forward loops as sums -/

theorem sampleCoords_congr (libm : Libm F) (qb qo : Py_buffer) (m m0 : Mem F)
    (h : AgreeOn (PointingCell qb qo) m m0) (d t : Nat)
    (hd : d < (qo.shapeAt 0).toNat) (ht : t < (qb.shapeAt 0).toNat) :
    sampleCoords libm m qb qo d t = sampleCoords libm m0 qb qo d t :=
  GetCoords_congr libm qb qo m m m0 h h d t hd ht

theorem samplePixel_congr (libm : Libm F) (z : Pixelizor F) (mv qb qo : Py_buffer) (m m0 : Mem F)
    (h : AgreeOn (PointingCell qb qo) m m0) (d t : Nat)
    (hd : d < (qo.shapeAt 0).toNat) (ht : t < (qb.shapeAt 0).toNat) :
    samplePixel libm z m mv qb qo d t = samplePixel libm z m0 mv qb qo d t := by
  rw [samplePixel, samplePixel, sampleCoords_congr libm qb qo m m0 h d t hd ht]

theorem SignalCell_signalAddr (sv qb qo : Py_buffer) (d t : Nat)
    (hd : d < (qo.shapeAt 0).toNat) (ht : t < (qb.shapeAt 0).toNat) :
    SignalCell sv qb qo (signalAddr sv d t) :=
  ⟨d, t, Int.lt_toNat.mp hd, Int.lt_toNat.mp ht, rfl⟩

/-- The spin-0 forward loop adds `forwardSum0` and leaves the pointing and signal cells
as they were, when no written cell is a pointing or signal cell. -/
theorem to_map_loop_spin0_eq (libm : Libm F) (z : Pixelizor F) (mem : Mem F)
    (mv qb qo sv : Py_buffer)
    (hna : ∀ a, ForwardCell libm z mem 1 mv qb qo a →
      ¬ PointingCell qb qo a ∧ ¬ SignalCell sv qb qo a) :
    ProjectionEngine.to_map_loop libm spin0 (⟨⟨mv⟩, ⟨sv⟩⟩ : AccumulatorSpin0) (z.Init ⟨mv⟩)
      ((PointerFlat.new : PointerFlat F).Init ⟨qb⟩ ⟨qo⟩) (qo.shapeAt 0) (qb.shapeAt 0) mem
      = mem + forwardSum0 libm z mem mv qb qo sv ∧
    AgreeOn (fun a => PointingCell qb qo a ∨ SignalCell sv qb qo a)
      (ProjectionEngine.to_map_loop libm spin0 (⟨⟨mv⟩, ⟨sv⟩⟩ : AccumulatorSpin0) (z.Init ⟨mv⟩)
      ((PointerFlat.new : PointerFlat F).Init ⟨qb⟩ ⟨qo⟩) (qo.shapeAt 0) (qb.shapeAt 0) mem)
      mem := by
  unfold ProjectionEngine.to_map_loop forwardSum0
  refine sample_loop_additive libm z mv qb qo
    (AccumulatorSpin0.Forward (⟨⟨mv⟩, ⟨sv⟩⟩ : AccumulatorSpin0))
    (fun a => PointingCell qb qo a ∨ SignalCell sv qb qo a)
    (fun d t => Pi.single (mv.buf + samplePixel libm z mem mv qb qo d t)
      (mem (signalAddr sv d t))) mem (fun a ha => Or.inl ha) ?_ ?_
  · intro d t hd ht _ m hm
    rw [Spin0_Forward_eq, hm _ (Or.inr (SignalCell_signalAddr sv qb qo d t hd ht))]
  · intro d t hd ht hp a ha
    refine Pi.single_eq_of_ne ?_ _
    rintro rfl
    have hcell : ForwardCell libm z mem 1 mv qb qo
        (mv.buf + samplePixel libm z mem mv qb qo d t) :=
      ⟨d, t, 0, Int.lt_toNat.mp hd, Int.lt_toNat.mp ht, Nat.one_pos, not_lt.mp hp, by simp⟩
    rcases ha with ha | ha
    · exact (hna _ hcell).1 ha
    · exact (hna _ hcell).2 ha

/-- The spin-2 forward loop adds `forwardSum2` and leaves the pointing and signal cells
as they were, when no written cell is a pointing or signal cell. -/
theorem to_map_loop_spin2_eq (libm : Libm F) (z : Pixelizor F) (mem : Mem F)
    (mv qb qo sv : Py_buffer)
    (hna : ∀ a, ForwardCell libm z mem 3 mv qb qo a →
      ¬ PointingCell qb qo a ∧ ¬ SignalCell sv qb qo a) :
    ProjectionEngine.to_map_loop libm spin2 (⟨⟨mv⟩, ⟨sv⟩⟩ : AccumulatorSpin2) (z.Init ⟨mv⟩)
      ((PointerFlat.new : PointerFlat F).Init ⟨qb⟩ ⟨qo⟩) (qo.shapeAt 0) (qb.shapeAt 0) mem
      = mem + forwardSum2 libm z mem mv qb qo sv ∧
    AgreeOn (fun a => PointingCell qb qo a ∨ SignalCell sv qb qo a)
      (ProjectionEngine.to_map_loop libm spin2 (⟨⟨mv⟩, ⟨sv⟩⟩ : AccumulatorSpin2) (z.Init ⟨mv⟩)
      ((PointerFlat.new : PointerFlat F).Init ⟨qb⟩ ⟨qo⟩) (qo.shapeAt 0) (qb.shapeAt 0) mem)
      mem := by
  unfold ProjectionEngine.to_map_loop forwardSum2
  refine sample_loop_additive libm z mv qb qo
    (AccumulatorSpin2.Forward (⟨⟨mv⟩, ⟨sv⟩⟩ : AccumulatorSpin2))
    (fun a => PointingCell qb qo a ∨ SignalCell sv qb qo a)
    (fun d t => ∑ k : Fin 3, Pi.single
      (mv.buf + mv.stride 0 * ((k : Nat) : Int) + samplePixel libm z mem mv qb qo d t)
      (mem (signalAddr sv d t) * spin2Weights (sampleCoords libm mem qb qo d t) k))
    mem (fun a ha => Or.inl ha) ?_ ?_
  · intro d t hd ht _ m hm
    rw [Spin2_Forward_eq, hm _ (Or.inr (SignalCell_signalAddr sv qb qo d t hd ht))]
  · intro d t hd ht hp a ha
    dsimp only
    rw [Finset.sum_apply]
    refine Finset.sum_eq_zero (fun k _ => Pi.single_eq_of_ne ?_ _)
    rintro rfl
    have hcell : ForwardCell libm z mem 3 mv qb qo
        (mv.buf + mv.stride 0 * ((k : Nat) : Int) + samplePixel libm z mem mv qb qo d t) :=
      ⟨d, t, k, Int.lt_toNat.mp hd, Int.lt_toNat.mp ht, k.isLt, not_lt.mp hp, rfl⟩
    rcases ha with ha | ha
    · exact (hna _ hcell).1 ha
    · exact (hna _ hcell).2 ha

theorem ForwardCell_congr (libm : Libm F) (z : Pixelizor F) (m m0 : Mem F) (n : Nat)
    (mv qb qo : Py_buffer) (h : AgreeOn (PointingCell qb qo) m m0) (a : Int)
    (ha : ForwardCell libm z m n mv qb qo a) : ForwardCell libm z m0 n mv qb qo a := by
  obtain ⟨d, t, k, hd, ht, hk, hp, e⟩ := ha
  have hpc := samplePixel_congr libm z mv qb qo m m0 h d t (Int.lt_toNat.mpr hd)
    (Int.lt_toNat.mpr ht)
  rw [hpc] at hp e
  exact ⟨d, t, k, hd, ht, hk, hp, e⟩

theorem forwardSum0_congr (libm : Libm F) (z : Pixelizor F) (m m0 : Mem F)
    (mv qb qo sv : Py_buffer)
    (h : AgreeOn (fun a => PointingCell qb qo a ∨ SignalCell sv qb qo a) m m0) :
    forwardSum0 libm z m mv qb qo sv = forwardSum0 libm z m0 mv qb qo sv := by
  unfold forwardSum0
  refine Finset.sum_congr rfl (fun d hd => Finset.sum_congr rfl (fun t ht => ?_))
  rw [Finset.mem_range] at hd ht
  rw [samplePixel_congr libm z mv qb qo m m0 (h.mono (fun a ha => Or.inl ha)) d t hd ht,
    h _ (Or.inr (SignalCell_signalAddr sv qb qo d t hd ht))]

theorem forwardSum2_congr (libm : Libm F) (z : Pixelizor F) (m m0 : Mem F)
    (mv qb qo sv : Py_buffer)
    (h : AgreeOn (fun a => PointingCell qb qo a ∨ SignalCell sv qb qo a) m m0) :
    forwardSum2 libm z m mv qb qo sv = forwardSum2 libm z m0 mv qb qo sv := by
  unfold forwardSum2
  refine Finset.sum_congr rfl (fun d hd => Finset.sum_congr rfl (fun t ht => ?_))
  rw [Finset.mem_range] at hd ht
  rw [samplePixel_congr libm z mv qb qo m m0 (h.mono (fun a ha => Or.inl ha)) d t hd ht,
    sampleCoords_congr libm qb qo m m0 (h.mono (fun a ha => Or.inl ha)) d t hd ht,
    h _ (Or.inr (SignalCell_signalAddr sv qb qo d t hd ht))]

/-! ## Truncation and contiguous layouts -/

theorem truncInt_of_nonneg (x : F) (h : 0 ≤ x) : truncInt x = Int.floor x := by
  simp [truncInt, h]

theorem truncInt_bounds (x : F) (n : Int) (h0 : 0 ≤ x) (hn : x < (n : F)) :
    0 ≤ truncInt x ∧ truncInt x < n := by
  rw [truncInt_of_nonneg x h0]
  exact ⟨Int.floor_nonneg.mpr h0, Int.floor_lt.mpr hn⟩

theorem contiguous3_strides (v : Py_buffer) (a b c : Int) (hs : v.shape = [a, b, c])
    (hc : v.CContiguous) :
    v.stride 0 = 8 * (b * c) ∧ v.stride 1 = 8 * c ∧ v.stride 2 = 8 := by
  unfold Py_buffer.CContiguous at hc
  rw [hs] at hc
  simp [Py_buffer.stride, hc, cStrides]

theorem row_major_inj (n : Int) (i j i' j' : Nat) (hj : (j : Int) < n) (hj' : (j' : Int) < n)
    (h : 8 * n * i + 8 * j = 8 * n * i' + 8 * j') : i = i' ∧ j = j' := by
  have h1 : (j : Int) + n * i = j' + n * i' := by linarith
  have hj0 : (0 : Int) ≤ j := Int.natCast_nonneg j
  have hj0' : (0 : Int) ≤ j' := Int.natCast_nonneg j'
  have e : (j : Int) = j' := by
    have := congrArg (fun x => x % n) h1
    simp only [Int.add_mul_emod_self_left] at this
    rwa [Int.emod_eq_of_lt hj0 hj, Int.emod_eq_of_lt hj0' hj'] at this
  have hn : n ≠ 0 := by omega
  have e2 : (i : Int) = i' := by
    have : n * i = n * i' := by linarith
    exact mul_left_cancel₀ hn this
  exact ⟨by exact_mod_cast e2, by exact_mod_cast e⟩

/-! ## The spin-0 reverse loop -/

/-- The spin-0 reverse loop adds `reverseSum0` and leaves the pointing cells and the map
cells it reads as they were, when no signal cell is one of them. -/
theorem from_map_loop_spin0_eq (libm : Libm F) (z : Pixelizor F) (mem : Mem F)
    (mv qb qo sv : Py_buffer)
    (hna : ∀ a, SignalCell sv qb qo a →
      ¬ PointingCell qb qo a ∧ ¬ ForwardCell libm z mem 1 mv qb qo a) :
    ProjectionEngine.from_map_loop libm spin0 (⟨⟨mv⟩, ⟨sv⟩⟩ : AccumulatorSpin0) (z.Init ⟨mv⟩)
      ((PointerFlat.new : PointerFlat F).Init ⟨qb⟩ ⟨qo⟩) (qo.shapeAt 0) (qb.shapeAt 0) mem
      = mem + reverseSum0 libm z mem mv qb qo sv := by
  unfold ProjectionEngine.from_map_loop reverseSum0
  refine (sample_loop_additive libm z mv qb qo
    (AccumulatorSpin0.Reverse (⟨⟨mv⟩, ⟨sv⟩⟩ : AccumulatorSpin0))
    (fun a => PointingCell qb qo a ∨ ForwardCell libm z mem 1 mv qb qo a)
    (fun d t => Pi.single (signalAddr sv d t)
      (mem (mv.buf + samplePixel libm z mem mv qb qo d t))) mem (fun a ha => Or.inl ha) ?_ ?_).1
  · intro d t hd ht hp m hm
    have hcell : ForwardCell libm z mem 1 mv qb qo
        (mv.buf + samplePixel libm z mem mv qb qo d t) :=
      ⟨d, t, 0, Int.lt_toNat.mp hd, Int.lt_toNat.mp ht, Nat.one_pos, not_lt.mp hp, by simp⟩
    rw [Spin0_Reverse_eq, hm _ (Or.inr hcell)]
  · intro d t hd ht _ a ha
    refine Pi.single_eq_of_ne ?_ _
    rintro rfl
    have hs := hna _ (SignalCell_signalAddr sv qb qo d t hd ht)
    rcases ha with ha | ha
    · exact hs.1 ha
    · exact hs.2 ha

/-- Value of `reverseSum0` at the cell of one signal sample, the signal cells being
pairwise distinct. -/
theorem reverseSum0_at (libm : Libm F) (z : Pixelizor F) (mem : Mem F)
    (mv qb qo sv : Py_buffer)
    (hinj : ∀ d t d' t' : Nat, (d : Int) < qo.shapeAt 0 → (t : Int) < qb.shapeAt 0 →
      (d' : Int) < qo.shapeAt 0 → (t' : Int) < qb.shapeAt 0 →
      signalAddr sv d t = signalAddr sv d' t' → d = d' ∧ t = t')
    (d t : Nat) (hd : (d : Int) < qo.shapeAt 0) (ht : (t : Int) < qb.shapeAt 0) :
    reverseSum0 libm z mem mv qb qo sv (signalAddr sv d t) =
      if samplePixel libm z mem mv qb qo d t < 0 then 0
      else mem (mv.buf + samplePixel libm z mem mv qb qo d t) := by
  unfold reverseSum0
  rw [Finset.sum_apply, Finset.sum_eq_single d]
  · rw [Finset.sum_apply, Finset.sum_eq_single t]
    · split_ifs
      · rfl
      · simp
    · intro t' ht' hne
      rw [Finset.mem_range] at ht'
      split_ifs
      · rfl
      · refine Pi.single_eq_of_ne ?_ _
        intro e
        exact hne ((hinj d t d t' hd ht hd (Int.lt_toNat.mp ht') e).2).symm
    · intro h
      exact absurd (Finset.mem_range.mpr (Int.lt_toNat.mpr ht)) h
  · intro d' hd' hne
    rw [Finset.mem_range] at hd'
    rw [Finset.sum_apply]
    refine Finset.sum_eq_zero (fun t' ht' => ?_)
    rw [Finset.mem_range] at ht'
    split_ifs
    · rfl
    · refine Pi.single_eq_of_ne ?_ _
      intro e
      exact hne ((hinj d t d' t' hd ht (Int.lt_toNat.mp hd') (Int.lt_toNat.mp ht') e).1).symm
  · intro h
    exact absurd (Finset.mem_range.mpr (Int.lt_toNat.mpr hd)) h

theorem signalAddr_eq_at3 (sv : Py_buffer) (d t : Nat) : signalAddr sv d t = sv.at3 0 d t := by
  simp [signalAddr, Py_buffer.at3]

/-- The signal cells of a contiguous `(1, n_det, n_t)` signal are pairwise distinct. -/
theorem signal_contiguous_inj (sv qb qo : Py_buffer)
    (hs : sv.shape = [1, qo.shapeAt 0, qb.shapeAt 0]) (hc : sv.CContiguous)
    (d t d' t' : Nat) (_hd : (d : Int) < qo.shapeAt 0) (ht : (t : Int) < qb.shapeAt 0)
    (_hd' : (d' : Int) < qo.shapeAt 0) (ht' : (t' : Int) < qb.shapeAt 0)
    (e : signalAddr sv d t = signalAddr sv d' t') : d = d' ∧ t = t' := by
  obtain ⟨-, h1, h2⟩ := contiguous3_strides sv _ _ _ hs hc
  simp only [signalAddr, h1, h2] at e
  exact row_major_inj (qb.shapeAt 0) d t d' t' ht ht' (by linarith)

/-- For an accepted sample the pixel offset is that of the element
`[trunc(iy), trunc(ix)]` reduced to 32 bits, both indices within the grid; for a rejected
one it is `-1`. -/
theorem samplePixel_cases (libm : Libm F) (z : Pixelizor F) (mem : Mem F)
    (mv qb qo : Py_buffer) (d t : Nat) :
    (z.InRange (sampleCoords libm mem qb qo d t) ∧
      samplePixel libm z mem mv qb qo d t = wrapInt32
        (mv.stride 1 * truncInt (z.iy (sampleCoords libm mem qb qo d t)) +
        mv.stride 2 * truncInt (z.ix (sampleCoords libm mem qb qo d t))) ∧
      0 ≤ truncInt (z.iy (sampleCoords libm mem qb qo d t)) ∧
      truncInt (z.iy (sampleCoords libm mem qb qo d t)) < z.naxis 0 ∧
      0 ≤ truncInt (z.ix (sampleCoords libm mem qb qo d t)) ∧
      truncInt (z.ix (sampleCoords libm mem qb qo d t)) < z.naxis 1) ∨
    (¬ z.InRange (sampleCoords libm mem qb qo d t) ∧ samplePixel libm z mem mv qb qo d t = -1) := by
  by_cases h : z.InRange (sampleCoords libm mem qb qo d t)
  · left
    have hy := truncInt_bounds _ _ h.2.2.1 h.2.2.2
    have hx := truncInt_bounds _ _ h.1 h.2.1
    exact ⟨h, GetPixel_of_InRange z mv _ _ _ h, hy.1, hy.2, hx.1, hx.2⟩
  · right
    exact ⟨h, GetPixel_of_not_InRange z mv _ _ _ h⟩

theorem shape3_ndim (v : Py_buffer) (a b c : Int) (hs : v.shape = [a, b, c]) :
    v.ndim = 3 ∧ v.shapeAt 0 = a ∧ v.shapeAt 1 = b ∧ v.shapeAt 2 = c := by
  simp [Py_buffer.ndim, Py_buffer.shapeAt, hs]

/-- On a contiguous `(n0, n_y, n_x)` map of the shape of the grid, a non-negative pixel
offset is the offset of an element `[0, ty, tx]` of the grid: of the pixel of the sample
when the offset fits 32 bits, and of another one when its reduction is not negative. -/
theorem contiguous_map_offset (libm : Libm F) (z : Pixelizor F) (mem : Mem F)
    (mv qb qo : Py_buffer) (n0 : Int) (hs : mv.shape = [n0, z.naxis 0, z.naxis 1])
    (hc : mv.CContiguous) (d t : Nat) (hp : 0 ≤ samplePixel libm z mem mv qb qo d t) :
    ∃ ty tx : Nat, (ty : Int) < z.naxis 0 ∧ (tx : Int) < z.naxis 1 ∧
      samplePixel libm z mem mv qb qo d t = mv.stride 1 * ty + mv.stride 2 * tx := by
  obtain ⟨-, h1, h2⟩ := contiguous3_strides mv _ _ _ hs hc
  rcases samplePixel_cases libm z mem mv qb qo d t with ⟨-, e, hy0, hy1, hx0, hx1⟩ | ⟨-, e⟩
  · generalize truncInt (z.iy (sampleCoords libm mem qb qo d t)) = ty0 at e hy0 hy1
    generalize truncInt (z.ix (sampleCoords libm mem qb qo d t)) = tx0 at e hx0 hx1
    rw [h1, h2] at e ⊢
    have hnx : 0 < z.naxis 1 := by omega
    have hP0 : 0 ≤ z.naxis 1 * ty0 := mul_nonneg hnx.le hy0
    have hPle : z.naxis 1 * ty0 ≤ z.naxis 1 * (z.naxis 0 - 1) :=
      mul_le_mul_of_nonneg_left (by omega) hnx.le
    have hexp : z.naxis 1 * (z.naxis 0 - 1) = z.naxis 1 * z.naxis 0 - z.naxis 1 := by ring
    have eoff : 8 * z.naxis 1 * ty0 + 8 * tx0 = 8 * (z.naxis 1 * ty0 + tx0) := by ring
    rw [eoff] at e
    rw [e] at hp ⊢
    obtain ⟨hle, h8⟩ := wrapInt32_nonneg_le (8 * (z.naxis 1 * ty0 + tx0)) (by omega)
      (by omega) hp
    generalize wrapInt32 (8 * (z.naxis 1 * ty0 + tx0)) = w at hp hle h8 ⊢
    have hq0 : 0 ≤ w / 8 := by omega
    have hqlt : w / 8 < z.naxis 0 * z.naxis 1 := by
      rw [mul_comm]; omega
    have hw : w = 8 * (w / 8) := by omega
    refine ⟨(w / 8 / z.naxis 1).toNat, (w / 8 % z.naxis 1).toNat, ?_, ?_, ?_⟩
    · rw [Int.toNat_of_nonneg (Int.ediv_nonneg hq0 hnx.le)]
      exact Int.ediv_lt_of_lt_mul hnx hqlt
    · rw [Int.toNat_of_nonneg (Int.emod_nonneg _ hnx.ne')]
      exact Int.emod_lt_of_pos _ hnx
    · rw [Int.toNat_of_nonneg (Int.ediv_nonneg hq0 hnx.le),
        Int.toNat_of_nonneg (Int.emod_nonneg _ hnx.ne')]
      have hdm := Int.ediv_add_emod (w / 8) (z.naxis 1)
      linear_combination hw - 8 * hdm
  · rw [e] at hp; omega

/-- On a contiguous `(n0, n_y, n_x)` map of the shape of the grid, component `k < n0` of
the pixel at a non-negative offset is an element `[k, ty, tx]` of the map. -/
theorem contiguous_map_cell (libm : Libm F) (z : Pixelizor F) (mem : Mem F)
    (mv qb qo : Py_buffer) (n0 : Int) (hs : mv.shape = [n0, z.naxis 0, z.naxis 1])
    (hc : mv.CContiguous) (d t : Nat) (hp : 0 ≤ samplePixel libm z mem mv qb qo d t) :
    ∃ ty tx : Nat, (ty : Int) < z.naxis 0 ∧ (tx : Int) < z.naxis 1 ∧ ∀ k : Nat,
      mv.buf + mv.stride 0 * (k : Int) + samplePixel libm z mem mv qb qo d t
        = mv.at3 k ty tx := by
  obtain ⟨ty, tx, hy, hx, e⟩ := contiguous_map_offset libm z mem mv qb qo n0 hs hc d t hp
  refine ⟨ty, tx, hy, hx, fun k => ?_⟩
  rw [e]; simp only [Py_buffer.at3]; ring

theorem ForwardCell_one_subset (libm : Libm F) (z : Pixelizor F) (mem : Mem F)
    (mv qb qo : Py_buffer) (hs : mv.shape = [1, z.naxis 0, z.naxis 1]) (hc : mv.CContiguous)
    (a : Int) (ha : ForwardCell libm z mem 1 mv qb qo a) : ArrayCell3 mv a := by
  obtain ⟨d, t, k, -, -, hk, hp, rfl⟩ := ha
  obtain ⟨-, hs0, hs1, hs2⟩ := shape3_ndim mv _ _ _ hs
  obtain ⟨ty, tx, hy, hx, e⟩ := contiguous_map_cell libm z mem mv qb qo 1 hs hc d t hp
  exact ⟨k, ty, tx, by rw [hs0]; exact_mod_cast hk, by rw [hs1]; exact hy,
    by rw [hs2]; exact hx, e k⟩

/-! ## Pairing a forward increment with a map -/

/-- The elements `[0, iy, ix]` of a contiguous `(1, n_y, n_x)` map are pairwise distinct. -/
theorem map_contiguous_inj (mv : Py_buffer) (ny nx : Int) (hs : mv.shape = [1, ny, nx])
    (hc : mv.CContiguous) (i j i' j' : Nat) (hj : (j : Int) < nx) (hj' : (j' : Int) < nx)
    (e : mv.at3 0 i j = mv.at3 0 i' j') : i = i' ∧ j = j' := by
  obtain ⟨-, h1, h2⟩ := contiguous3_strides mv _ _ _ hs hc
  simp only [Py_buffer.at3, h1, h2] at e
  exact row_major_inj nx i j i' j' hj hj' (by linarith)

/-- Pairing one forward increment with a map: the sum over the grid picks the value of
the map at the pixel of the sample. -/
theorem forward_increment_pairing (libm : Libm F) (z : Pixelizor F) (mem M : Mem F)
    (mv qb qo : Py_buffer) (hs : mv.shape = [1, z.naxis 0, z.naxis 1]) (hc : mv.CContiguous)
    (d t : Nat) (v : F) :
    ∑ iy in Finset.range (z.naxis 0).toNat, ∑ ix in Finset.range (z.naxis 1).toNat,
      (if samplePixel libm z mem mv qb qo d t < 0 then (0 : Mem F)
        else Pi.single (mv.buf + samplePixel libm z mem mv qb qo d t) v) (mv.at3 0 iy ix)
        * M (mv.at3 0 iy ix)
    = v * (if samplePixel libm z mem mv qb qo d t < 0 then 0
        else M (mv.buf + samplePixel libm z mem mv qb qo d t)) := by
  by_cases hp : samplePixel libm z mem mv qb qo d t < 0
  · simp [hp]
  · simp only [if_neg hp]
    obtain ⟨ty, tx, hy1, hx1, e⟩ :=
      contiguous_map_cell libm z mem mv qb qo 1 hs hc d t (not_lt.mp hp)
    have e0 : mv.buf + samplePixel libm z mem mv qb qo d t = mv.at3 0 ty tx := by
      have := e 0
      simpa using this
    rw [e0]
    rw [Finset.sum_eq_single ty]
    · rw [Finset.sum_eq_single tx]
      · rw [Pi.single_eq_same]
      · intro ix hix hne
        rw [Finset.mem_range] at hix
        rw [Pi.single_eq_of_ne, zero_mul]
        intro e'
        exact hne (map_contiguous_inj mv _ _ hs hc _ _ _ _ (Int.lt_toNat.mp hix) hx1 e').2
      · intro h
        exact absurd (Finset.mem_range.mpr (Int.lt_toNat.mpr hx1)) h
    · intro iy _ hne
      refine Finset.sum_eq_zero (fun ix hix => ?_)
      rw [Finset.mem_range] at hix
      rw [Pi.single_eq_of_ne, zero_mul]
      intro e'
      exact hne (map_contiguous_inj mv _ _ hs hc _ _ _ _ (Int.lt_toNat.mp hix) hx1 e').1
    · intro h
      exact absurd (Finset.mem_range.mpr (Int.lt_toNat.mpr hy1)) h

theorem sum_comm4 (f : Nat → Nat → Nat → Nat → F) (A B C D : Finset Nat) :
    ∑ a in A, ∑ b in B, ∑ c in C, ∑ d in D, f a b c d
      = ∑ c in C, ∑ d in D, ∑ a in A, ∑ b in B, f a b c d := by
  calc ∑ a in A, ∑ b in B, ∑ c in C, ∑ d in D, f a b c d
      = ∑ a in A, ∑ c in C, ∑ b in B, ∑ d in D, f a b c d :=
        Finset.sum_congr rfl (fun a _ => Finset.sum_comm)
    _ = ∑ c in C, ∑ a in A, ∑ b in B, ∑ d in D, f a b c d := Finset.sum_comm
    _ = ∑ c in C, ∑ a in A, ∑ d in D, ∑ b in B, f a b c d :=
        Finset.sum_congr rfl (fun c _ => Finset.sum_congr rfl (fun a _ => Finset.sum_comm))
    _ = ∑ c in C, ∑ d in D, ∑ a in A, ∑ b in B, f a b c d :=
        Finset.sum_congr rfl (fun c _ => Finset.sum_comm)

/-! ## The loop of `pixels` -/

theorem pixels_ok (libm : Libm F) (z : Pixelizor F) (mem : Mem F) (imem : IMem)
    (mv qb qo pv : Py_buffer) (hmv : mv.ndim = 3) (hqb : qb.ndim = 2) (hqo : qo.ndim = 2)
    (hpv : pv.ndim = 2) :
    ProjectionEngine.pixels libm z mem imem (.array mv) (.array qb) (.array qo) (.array pv) =
    .ok (.array pv, ProjectionEngine.pixels_loop libm (z.Init ⟨mv⟩) ⟨pv⟩
      ((PointerFlat.new : PointerFlat F).Init ⟨qb⟩ ⟨qo⟩) (qo.shapeAt 0) (qb.shapeAt 0) mem
      imem) := by
  simp [ProjectionEngine.pixels, PyObject_GetBuffer, hmv, hqb, hqo, hpv]

/-- The sample of S1 has `ix = iy = 1`, whatever the rest of the memory holds. -/
theorem S1_ix_iy (libm : Libm F) (mem : Mem F)
    (hx : mem 1000 = 0) (hy : mem 1008 = 0) (hdx : mem 2000 = 1 / 2) (hdy : mem 2008 = 1 / 2) :
    (S1.pixelizor : Pixelizor F).ix (sampleCoords libm mem S1.qbore S1.qofs 0 0) = 1 ∧
    (S1.pixelizor : Pixelizor F).iy (sampleCoords libm mem S1.qbore S1.qofs 0 0) = 1 ∧
    (S1.pixelizor : Pixelizor F).InRange (sampleCoords libm mem S1.qbore S1.qofs 0 0) := by
  have hix : (S1.pixelizor : Pixelizor F).ix (sampleCoords libm mem S1.qbore S1.qofs 0 0) = 1 := by
    rw [sampleCoords_eq]
    simp [Pixelizor.ix, S1.pixelizor, Pixelizor.new, Py_buffer.at2, Py_buffer.stride, S1.qbore,
      S1.qofs, hx, hdx]
    norm_num
  have hiy : (S1.pixelizor : Pixelizor F).iy (sampleCoords libm mem S1.qbore S1.qofs 0 0) = 1 := by
    rw [sampleCoords_eq]
    simp [Pixelizor.iy, S1.pixelizor, Pixelizor.new, Py_buffer.at2, Py_buffer.stride, S1.qbore,
      S1.qofs, hy, hdy]
    norm_num
  refine ⟨hix, hiy, ?_⟩
  simp only [Pixelizor.InRange, hix, hiy]
  simp [S1.pixelizor, Pixelizor.new]

/-- The sample of S1 has pixel offset `40` on a map with strides `(_, 32, 8)`. -/
theorem S1_samplePixel (libm : Libm F) (mem : Mem F) (mv : Py_buffer)
    (h1 : mv.stride 1 = 32) (h2 : mv.stride 2 = 8)
    (hx : mem 1000 = 0) (hy : mem 1008 = 0) (hdx : mem 2000 = 1 / 2) (hdy : mem 2008 = 1 / 2) :
    samplePixel libm S1.pixelizor mem mv S1.qbore S1.qofs 0 0 = 40 := by
  obtain ⟨hix, hiy, hin⟩ := S1_ix_iy libm mem hx hy hdx hdy
  have h := GetPixel_of_InRange (S1.pixelizor : Pixelizor F) mv ((0 : Nat) : Int) ((0 : Nat) : Int)
    _ hin
  rw [hix, hiy, h1, h2] at h
  rw [samplePixel, h]
  simp [truncInt]
  rfl

theorem S1_not_PointingCell (a : Int) (h : a < 1000) : ¬ PointingCell S1.qbore S1.qofs a := by
  simp only [S1.qofs, S1.qbore, Py_buffer.shapeAt, Py_buffer.stride, List.getD_cons_zero,
    List.getD_cons_succ, PointingCell]
  rintro (⟨it, hit, h⟩ | ⟨idet, hidet, h⟩) <;> omega

theorem S1_not_SignalCell (a : Int) (h : a < 1000) :
    ¬ SignalCell S1.signalv S1.qbore S1.qofs a := by
  simp only [S1.qofs, S1.qbore, S1.signalv, Py_buffer.shapeAt, Py_buffer.stride,
    List.getD_cons_zero, List.getD_cons_succ, SignalCell, signalAddr]
  rintro ⟨d, t, hd, ht, h⟩
  omega

theorem S1_mem_zero (a : Int) (h0 : 0 ≤ a) (h : a < 1000) : (S1.mem : Mem F) a = 0 := by
  simp only [S1.mem]
  rw [if_neg (by omega), if_neg (by omega), if_neg (by omega), if_neg (by omega)]

theorem S2_mem_zero (a : Int) (h0 : 0 ≤ a) (h : a < 1000) : (S2.mem : Mem F) a = 0 := by
  simp only [S2.mem]
  rw [if_neg (by omega), if_neg (by omega), if_neg (by omega), if_neg (by omega)]

theorem S1_mapv_cell (a : Int) (h : ArrayCell3 S1.mapv a) : 0 ≤ a ∧ a < 1000 := by
  obtain ⟨i, j, k, hi, hj, hk, rfl⟩ := h
  simp only [S1.mapv, Py_buffer.shapeAt, Py_buffer.stride, Py_buffer.at3, List.getD_cons_zero,
    List.getD_cons_succ] at hi hj hk ⊢
  omega

theorem S1_mapv3_cell (a : Int) (h : ArrayCell3 S1.mapv3 a) : 0 ≤ a ∧ a < 1000 := by
  obtain ⟨i, j, k, hi, hj, hk, rfl⟩ := h
  simp only [S1.mapv3, Py_buffer.shapeAt, Py_buffer.stride, Py_buffer.at3, List.getD_cons_zero,
    List.getD_cons_succ] at hi hj hk ⊢
  omega

/-- In the layout of S1 every cell a forward kernel writes lies below address `1000`. -/
theorem S1_ForwardCell_lt (libm : Libm F) (mem : Mem F) (n : Nat) (hn : n ≤ 3) (mv : Py_buffer)
    (hb : mv.buf = 0) (h0 : mv.stride 0 = 128) (h1 : mv.stride 1 = 32) (h2 : mv.stride 2 = 8)
    (hx : mem 1000 = 0) (hy : mem 1008 = 0) (hdx : mem 2000 = 1 / 2) (hdy : mem 2008 = 1 / 2)
    (a : Int) (ha : ForwardCell libm S1.pixelizor mem n mv S1.qbore S1.qofs a) : a < 1000 := by
  obtain ⟨d, t, k, hd, ht, hk, -, rfl⟩ := ha
  have hd0 : d = 0 := by simpa [S1.qofs, Py_buffer.shapeAt] using hd
  have ht0 : t = 0 := by simpa [S1.qbore, Py_buffer.shapeAt] using ht
  subst hd0 ht0
  rw [S1_samplePixel libm mem mv h1 h2 hx hy hdx hdy, hb, h0]
  omega

/-! ## The spin-2 reverse loop -/

theorem Spin2_Reverse_eq (a : AccumulatorSpin2) (m : Mem F) (idet it : Nat) (off : Int)
    (c w : Fin 4 → F) :
    a.Reverse m idet it off c w =
      m + Pi.single (signalAddr a._signalbuf.view idet it)
        (∑ k : Fin 3, m (a._mapbuf.view.buf + a._mapbuf.view.stride 0 * ((k : Nat) : Int) + off)
          * spin2Weights c k) := by
  have h3 : List.finRange 3 = [0, 1, 2] := rfl
  simp only [rnd_exact, AccumulatorSpin2.Reverse, signalAddr, h3, List.foldl_cons, List.foldl_nil,
    update_add_eq, Fin.sum_univ_three, zero_add]

theorem from_map_spin2_ok (libm : Libm F) (z : Pixelizor F) (mem : Mem F)
    (mv qb qo sv : Py_buffer) (hm : mv.ndim = 3) (hm0 : mv.shapeAt 0 = 3) (hqb : qb.ndim = 2)
    (hqo : qo.ndim = 2) (hs : sv.ndim = 3) :
    ProjectionEngine.from_map libm spin2 z mem (.array mv) (.array qb) (.array qo) (.array sv)
      PyObject.none =
    .ok (.array mv, ProjectionEngine.from_map_loop libm spin2 (⟨⟨mv⟩, ⟨sv⟩⟩ : AccumulatorSpin2)
      (z.Init ⟨mv⟩) ((PointerFlat.new : PointerFlat F).Init ⟨qb⟩ ⟨qo⟩)
      (qo.shapeAt 0) (qb.shapeAt 0) mem) := by
  simp [ProjectionEngine.from_map, PyObject_GetBuffer, hm, hm0, hqb, hqo, hs, spin2,
    AccumulatorSpin2.TestInputs, isNone, AccumulatorSpin2.Init]

/-- The spin-2 reverse loop adds `reverseSum2` and leaves the pointing cells and the map
cells it reads as they were, when no signal cell is one of them. -/
theorem from_map_loop_spin2_eq (libm : Libm F) (z : Pixelizor F) (mem : Mem F)
    (mv qb qo sv : Py_buffer)
    (hna : ∀ a, SignalCell sv qb qo a →
      ¬ PointingCell qb qo a ∧ ¬ ForwardCell libm z mem 3 mv qb qo a) :
    ProjectionEngine.from_map_loop libm spin2 (⟨⟨mv⟩, ⟨sv⟩⟩ : AccumulatorSpin2) (z.Init ⟨mv⟩)
      ((PointerFlat.new : PointerFlat F).Init ⟨qb⟩ ⟨qo⟩) (qo.shapeAt 0) (qb.shapeAt 0) mem
      = mem + reverseSum2 libm z mem mv qb qo sv := by
  unfold ProjectionEngine.from_map_loop reverseSum2
  refine (sample_loop_additive libm z mv qb qo
    (AccumulatorSpin2.Reverse (⟨⟨mv⟩, ⟨sv⟩⟩ : AccumulatorSpin2))
    (fun a => PointingCell qb qo a ∨ ForwardCell libm z mem 3 mv qb qo a)
    (fun d t => Pi.single (signalAddr sv d t)
      (∑ k : Fin 3, mem (mv.buf + mv.stride 0 * ((k : Nat) : Int)
          + samplePixel libm z mem mv qb qo d t)
        * spin2Weights (sampleCoords libm mem qb qo d t) k)) mem (fun a ha => Or.inl ha) ?_ ?_).1
  · intro d t hd ht hp m hm
    have hcell : ∀ k : Fin 3, ForwardCell libm z mem 3 mv qb qo
        (mv.buf + mv.stride 0 * ((k : Nat) : Int) + samplePixel libm z mem mv qb qo d t) :=
      fun k => ⟨d, t, k, Int.lt_toNat.mp hd, Int.lt_toNat.mp ht, k.isLt, not_lt.mp hp, rfl⟩
    rw [Spin2_Reverse_eq]
    dsimp only
    rw [Finset.sum_congr rfl (fun k _ => by rw [hm _ (Or.inr (hcell k))])]
  · intro d t hd ht _ a ha
    refine Pi.single_eq_of_ne ?_ _
    rintro rfl
    have hs := hna _ (SignalCell_signalAddr sv qb qo d t hd ht)
    rcases ha with ha | ha
    · exact hs.1 ha
    · exact hs.2 ha

/-- Value of `reverseSum2` at the cell of one signal sample, the signal cells being
pairwise distinct. -/
theorem reverseSum2_at (libm : Libm F) (z : Pixelizor F) (mem : Mem F)
    (mv qb qo sv : Py_buffer)
    (hinj : ∀ d t d' t' : Nat, (d : Int) < qo.shapeAt 0 → (t : Int) < qb.shapeAt 0 →
      (d' : Int) < qo.shapeAt 0 → (t' : Int) < qb.shapeAt 0 →
      signalAddr sv d t = signalAddr sv d' t' → d = d' ∧ t = t')
    (d t : Nat) (hd : (d : Int) < qo.shapeAt 0) (ht : (t : Int) < qb.shapeAt 0) :
    reverseSum2 libm z mem mv qb qo sv (signalAddr sv d t) =
      if samplePixel libm z mem mv qb qo d t < 0 then 0
      else ∑ k : Fin 3, mem (mv.buf + mv.stride 0 * ((k : Nat) : Int)
          + samplePixel libm z mem mv qb qo d t)
        * spin2Weights (sampleCoords libm mem qb qo d t) k := by
  unfold reverseSum2
  rw [Finset.sum_apply, Finset.sum_eq_single d]
  · rw [Finset.sum_apply, Finset.sum_eq_single t]
    · split_ifs
      · rfl
      · simp
    · intro t' ht' hne
      rw [Finset.mem_range] at ht'
      split_ifs
      · rfl
      · refine Pi.single_eq_of_ne ?_ _
        intro e
        exact hne ((hinj d t d t' hd ht hd (Int.lt_toNat.mp ht') e).2).symm
    · intro h
      exact absurd (Finset.mem_range.mpr (Int.lt_toNat.mpr ht)) h
  · intro d' hd' hne
    rw [Finset.mem_range] at hd'
    rw [Finset.sum_apply]
    refine Finset.sum_eq_zero (fun t' ht' => ?_)
    rw [Finset.mem_range] at ht'
    split_ifs
    · rfl
    · refine Pi.single_eq_of_ne ?_ _
      intro e
      exact hne ((hinj d t d' t' hd ht (Int.lt_toNat.mp hd') (Int.lt_toNat.mp ht') e).1).symm
  · intro h
    exact absurd (Finset.mem_range.mpr (Int.lt_toNat.mpr hd)) h

/-! ## Contiguous three-component maps -/

theorem row_major_inj_int (n i j i' j' : Int) (hj0 : 0 ≤ j) (hj : j < n) (hj0' : 0 ≤ j')
    (hj' : j' < n) (h : n * i + j = n * i' + j') : i = i' ∧ j = j' := by
  have h1 : j + n * i = j' + n * i' := by linarith
  have e : j = j' := by
    have := congrArg (fun x => x % n) h1
    simp only [Int.add_mul_emod_self_left] at this
    rwa [Int.emod_eq_of_lt hj0 hj, Int.emod_eq_of_lt hj0' hj'] at this
  have hn : n ≠ 0 := by omega
  have e2 : i = i' := by
    have : n * i = n * i' := by linarith
    exact mul_left_cancel₀ hn this
  exact ⟨e2, e⟩

/-- The elements of a contiguous `(n0, n_y, n_x)` array are pairwise distinct. -/
theorem contiguous3_inj (mv : Py_buffer) (n0 ny nx : Int) (hs : mv.shape = [n0, ny, nx])
    (hc : mv.CContiguous) (k i j k' i' j' : Nat) (hi : (i : Int) < ny) (hj : (j : Int) < nx)
    (hi' : (i' : Int) < ny) (hj' : (j' : Int) < nx)
    (e : mv.at3 k i j = mv.at3 k' i' j') : k = k' ∧ i = i' ∧ j = j' := by
  obtain ⟨h0, h1, h2⟩ := contiguous3_strides mv _ _ _ hs hc
  simp only [Py_buffer.at3, h0, h1, h2] at e
  have e1 : nx * (ny * k + i) + j = nx * (ny * k' + i') + j' := by linarith
  obtain ⟨e2, e3⟩ := row_major_inj_int nx _ _ _ _ (Int.natCast_nonneg j) hj
    (Int.natCast_nonneg j') hj' e1
  obtain ⟨e4, e5⟩ := row_major_inj_int ny _ _ _ _ (Int.natCast_nonneg i) hi
    (Int.natCast_nonneg i') hi' e2
  exact ⟨by exact_mod_cast e4, by exact_mod_cast e5, by exact_mod_cast e3⟩

theorem ForwardCell_three_subset (libm : Libm F) (z : Pixelizor F) (mem : Mem F)
    (mv qb qo : Py_buffer) (hs : mv.shape = [3, z.naxis 0, z.naxis 1]) (hc : mv.CContiguous)
    (a : Int) (ha : ForwardCell libm z mem 3 mv qb qo a) : ArrayCell3 mv a := by
  obtain ⟨d, t, k, -, -, hk, hp, rfl⟩ := ha
  obtain ⟨-, hs0, hs1, hs2⟩ := shape3_ndim mv _ _ _ hs
  obtain ⟨ty, tx, hy, hx, e⟩ := contiguous_map_cell libm z mem mv qb qo 3 hs hc d t hp
  exact ⟨k, ty, tx, by rw [hs0]; exact_mod_cast hk, by rw [hs1]; exact hy,
    by rw [hs2]; exact hx, e k⟩

/-- Pairing a unit increment at one element of a three-dimensional grid with a map: the
sum over the grid picks the value of the map at that element. -/
theorem sum_grid3_single (mv : Py_buffer) (n0 n1 n2 : Nat)
    (hinj : ∀ i j k i' j' k' : Nat, i < n0 → j < n1 → k < n2 → i' < n0 → j' < n1 → k' < n2 →
      mv.at3 i j k = mv.at3 i' j' k' → i = i' ∧ j = j' ∧ k = k')
    (i0 j0 k0 : Nat) (hi : i0 < n0) (hj : j0 < n1) (hk : k0 < n2) (x : F) (M : Mem F) :
    ∑ i in Finset.range n0, ∑ j in Finset.range n1, ∑ k in Finset.range n2,
      (Pi.single (mv.at3 i0 j0 k0) x : Mem F) (mv.at3 i j k) * M (mv.at3 i j k)
    = x * M (mv.at3 i0 j0 k0) := by
  rw [Finset.sum_eq_single i0]
  · rw [Finset.sum_eq_single j0]
    · rw [Finset.sum_eq_single k0]
      · rw [Pi.single_eq_same]
      · intro k hk' hne
        rw [Finset.mem_range] at hk'
        rw [Pi.single_eq_of_ne, zero_mul]
        intro e
        exact hne (hinj _ _ _ _ _ _ hi hj hk' hi hj hk e).2.2
      · intro h
        exact absurd (Finset.mem_range.mpr hk) h
    · intro j hj' hne
      rw [Finset.mem_range] at hj'
      refine Finset.sum_eq_zero (fun k hk' => ?_)
      rw [Finset.mem_range] at hk'
      rw [Pi.single_eq_of_ne, zero_mul]
      intro e
      exact hne (hinj _ _ _ _ _ _ hi hj' hk' hi hj hk e).2.1
    · intro h
      exact absurd (Finset.mem_range.mpr hj) h
  · intro i hi' hne
    rw [Finset.mem_range] at hi'
    refine Finset.sum_eq_zero (fun j hj' => Finset.sum_eq_zero (fun k hk' => ?_))
    rw [Finset.mem_range] at hj' hk'
    rw [Pi.single_eq_of_ne, zero_mul]
    intro e
    exact hne (hinj _ _ _ _ _ _ hi' hj' hk' hi hj hk e).1
  · intro h
    exact absurd (Finset.mem_range.mpr hi) h

theorem gridPairing_apply (mv : Py_buffer) (n0 n1 n2 : Nat) (M f : Mem F) :
    gridPairing mv n0 n1 n2 M f = ∑ i in Finset.range n0, ∑ j in Finset.range n1,
      ∑ k in Finset.range n2, f (mv.at3 i j k) * M (mv.at3 i j k) := rfl

/-- Pairing one spin-2 forward increment with a map `M`: the signal value times the
weighted sum of the three components of `M` at the pixel of the sample. -/
theorem forward2_increment_pairing (libm : Libm F) (z : Pixelizor F) (mem M : Mem F)
    (mv qb qo : Py_buffer) (hs : mv.shape = [3, z.naxis 0, z.naxis 1]) (hc : mv.CContiguous)
    (d t : Nat) (v : F) (wt : Fin 3 → F) :
    gridPairing mv 3 (z.naxis 0).toNat (z.naxis 1).toNat M
      (if samplePixel libm z mem mv qb qo d t < 0 then (0 : Mem F)
        else ∑ k : Fin 3, Pi.single
          (mv.buf + mv.stride 0 * ((k : Nat) : Int) + samplePixel libm z mem mv qb qo d t)
          (v * wt k))
    = v * (if samplePixel libm z mem mv qb qo d t < 0 then 0
        else ∑ k : Fin 3, M (mv.buf + mv.stride 0 * ((k : Nat) : Int)
          + samplePixel libm z mem mv qb qo d t) * wt k) := by
  by_cases hp : samplePixel libm z mem mv qb qo d t < 0
  · simp [hp]
  · simp only [if_neg hp]
    obtain ⟨ty, tx, hy1, hx1, hcell⟩ :=
      contiguous_map_cell libm z mem mv qb qo 3 hs hc d t (not_lt.mp hp)
    have hinj : ∀ i j k i' j' k' : Nat, i < 3 → j < (z.naxis 0).toNat →
        k < (z.naxis 1).toNat → i' < 3 → j' < (z.naxis 0).toNat → k' < (z.naxis 1).toNat →
        mv.at3 i j k = mv.at3 i' j' k' → i = i' ∧ j = j' ∧ k = k' :=
      fun i j k i' j' k' _ hj hk _ hj' hk' e =>
        contiguous3_inj mv _ _ _ hs hc i j k i' j' k' (Int.lt_toNat.mp hj)
          (Int.lt_toNat.mp hk) (Int.lt_toNat.mp hj') (Int.lt_toNat.mp hk') e
    rw [map_sum, Finset.mul_sum]
    refine Finset.sum_congr rfl (fun k _ => ?_)
    rw [hcell k, gridPairing_apply,
      sum_grid3_single mv 3 _ _ hinj k _ _ k.isLt (Int.lt_toNat.mpr hy1) (Int.lt_toNat.mpr hx1)]
    ring

/-! ## The sample of scenario S3 -/

theorem S3_sample (libm : Libm ℝ) (c s : ℝ) :
    (S3.pixelizor : Pixelizor ℝ).InRange (sampleCoords libm (S3.mem c s) S1.qbore S1.qofs 0 0) ∧
    samplePixel libm (S3.pixelizor : Pixelizor ℝ) (S3.mem c s) S3.mapv S1.qbore S1.qofs 0 0 = 0 := by
  have hix : (S3.pixelizor : Pixelizor ℝ).ix
      (sampleCoords libm (S3.mem c s) S1.qbore S1.qofs 0 0) = 1 / 2 := by
    rw [sampleCoords_eq]
    simp [Pixelizor.ix, S3.pixelizor, Pixelizor.new, Py_buffer.at2, Py_buffer.stride, S1.qbore,
      S1.qofs, S3.mem]
  have hiy : (S3.pixelizor : Pixelizor ℝ).iy
      (sampleCoords libm (S3.mem c s) S1.qbore S1.qofs 0 0) = 1 / 2 := by
    rw [sampleCoords_eq]
    simp [Pixelizor.iy, S3.pixelizor, Pixelizor.new, Py_buffer.at2, Py_buffer.stride, S1.qbore,
      S1.qofs, S3.mem]
  have hin : (S3.pixelizor : Pixelizor ℝ).InRange
      (sampleCoords libm (S3.mem c s) S1.qbore S1.qofs 0 0) := by
    simp only [Pixelizor.InRange, hix, hiy]
    simp [S3.pixelizor, Pixelizor.new]
    norm_num
  refine ⟨hin, ?_⟩
  have h := GetPixel_of_InRange (S3.pixelizor : Pixelizor ℝ) S3.mapv ((0 : Nat) : Int)
    ((0 : Nat) : Int) _ hin
  rw [hix, hiy] at h
  rw [samplePixel, h]
  have ht : truncInt ((1 : ℝ) / 2) = 0 := by
    rw [truncInt_of_nonneg _ (by norm_num), Int.floor_eq_zero_iff]
    constructor <;> norm_num
  rw [ht]
  simp [wrapInt32]

/-! ## Validation: what a throwing call and a returning call have passed -/

theorem forwardSum0_frame (libm : Libm F) (z : Pixelizor F) (mem : Mem F)
    (mv qb qo sv : Py_buffer) (a : Int) (ha : ¬ ForwardCell libm z mem 1 mv qb qo a) :
    forwardSum0 libm z mem mv qb qo sv a = 0 := by
  unfold forwardSum0
  rw [Finset.sum_apply]
  refine Finset.sum_eq_zero (fun d hd => ?_)
  rw [Finset.sum_apply]
  refine Finset.sum_eq_zero (fun t ht => ?_)
  rw [Finset.mem_range] at hd ht
  split_ifs with hp
  · rfl
  · refine Pi.single_eq_of_ne ?_ _
    rintro rfl
    exact ha ⟨d, t, 0, Int.lt_toNat.mp hd, Int.lt_toNat.mp ht, Nat.one_pos, not_lt.mp hp,
      by simp⟩

theorem forwardSum2_frame (libm : Libm F) (z : Pixelizor F) (mem : Mem F)
    (mv qb qo sv : Py_buffer) (a : Int) (ha : ¬ ForwardCell libm z mem 3 mv qb qo a) :
    forwardSum2 libm z mem mv qb qo sv a = 0 := by
  unfold forwardSum2
  rw [Finset.sum_apply]
  refine Finset.sum_eq_zero (fun d hd => ?_)
  rw [Finset.sum_apply]
  refine Finset.sum_eq_zero (fun t ht => ?_)
  rw [Finset.mem_range] at hd ht
  split_ifs with hp
  · rfl
  · rw [Finset.sum_apply]
    refine Finset.sum_eq_zero (fun k _ => Pi.single_eq_of_ne ?_ _)
    rintro rfl
    exact ha ⟨d, t, k, Int.lt_toNat.mp hd, Int.lt_toNat.mp ht, k.isLt, not_lt.mp hp, rfl⟩

theorem reverseSum0_frame (libm : Libm F) (z : Pixelizor F) (mem : Mem F)
    (mv qb qo sv : Py_buffer) (a : Int) (ha : ¬ SignalCell sv qb qo a) :
    reverseSum0 libm z mem mv qb qo sv a = 0 := by
  unfold reverseSum0
  rw [Finset.sum_apply]
  refine Finset.sum_eq_zero (fun d hd => ?_)
  rw [Finset.sum_apply]
  refine Finset.sum_eq_zero (fun t ht => ?_)
  rw [Finset.mem_range] at hd ht
  split_ifs with hp
  · rfl
  · refine Pi.single_eq_of_ne ?_ _
    rintro rfl
    exact ha (SignalCell_signalAddr sv qb qo d t hd ht)

theorem reverseSum2_frame (libm : Libm F) (z : Pixelizor F) (mem : Mem F)
    (mv qb qo sv : Py_buffer) (a : Int) (ha : ¬ SignalCell sv qb qo a) :
    reverseSum2 libm z mem mv qb qo sv a = 0 := by
  unfold reverseSum2
  rw [Finset.sum_apply]
  refine Finset.sum_eq_zero (fun d hd => ?_)
  rw [Finset.sum_apply]
  refine Finset.sum_eq_zero (fun t ht => ?_)
  rw [Finset.mem_range] at hd ht
  split_ifs with hp
  · rfl
  · refine Pi.single_eq_of_ne ?_ _
    rintro rfl
    exact ha (SignalCell_signalAddr sv qb qo d t hd ht)

/-! ## Rounding to binary64 -/

theorem binary64_rnd (x : F) : @Rounding.rnd F binary64 x = roundDouble x := rfl

theorem roundDouble_zero : roundDouble (0 : F) = 0 := by simp [roundDouble]

theorem log_of_binade (x : F) (e : Int) (h1 : (2 : F) ^ e ≤ |x|) (h2 : |x| < (2 : F) ^ (e + 1)) :
    Int.log 2 |x| = e := by
  have hpos : 0 < |x| := lt_of_lt_of_le (zpow_pos (by norm_num) e) h1
  have a := (Int.zpow_le_iff_le_log (b := 2) (by norm_num) hpos).mp (by exact_mod_cast h1)
  have b := (Int.lt_zpow_iff_log_lt (b := 2) (by norm_num) hpos).mp (by exact_mod_cast h2)
  omega

theorem roundDouble_of_binade (x : F) (e : Int) (h1 : (2 : F) ^ e ≤ |x|)
    (h2 : |x| < (2 : F) ^ (e + 1)) : roundDouble x = roundToGrid ((2 : F) ^ (e - 52)) x := by
  have hpos : 0 < |x| := lt_of_lt_of_le (zpow_pos (by norm_num) e) h1
  have hx : x ≠ 0 := abs_pos.mp hpos
  rw [roundDouble, if_neg hx, log_of_binade x e h1 h2]

theorem roundToGrid_down (u x : F) (f : Int) (hu : 0 < u) (hlo : (f : F) * u ≤ x)
    (hhi : x < ((f : F) + 1 / 2) * u) : roundToGrid u x = (f : F) * u := by
  have hm1 : (f : F) ≤ x / u := (le_div_iff₀ hu).mpr hlo
  have hm2 : x / u < (f : F) + 1 / 2 := (div_lt_iff₀ hu).mpr hhi
  have hf : Int.floor (x / u) = f := Int.floor_eq_iff.mpr ⟨hm1, by linarith⟩
  simp only [roundToGrid, hf]
  rw [if_pos (by linarith)]

theorem roundToGrid_up (u x : F) (f : Int) (hu : 0 < u) (hlo : ((f : F) + 1 / 2) * u < x)
    (hhi : x < ((f : F) + 1) * u) : roundToGrid u x = ((f : F) + 1) * u := by
  have hm1 : (f : F) + 1 / 2 < x / u := (lt_div_iff₀ hu).mpr hlo
  have hm2 : x / u < (f : F) + 1 := (div_lt_iff₀ hu).mpr hhi
  have hf : Int.floor (x / u) = f := Int.floor_eq_iff.mpr ⟨by linarith, hm2⟩
  simp only [roundToGrid, hf]
  rw [if_neg (by linarith), if_pos (by linarith)]

theorem roundToGrid_tie_even (u x : F) (f : Int) (hu : 0 < u) (hx : x = ((f : F) + 1 / 2) * u)
    (hf2 : f % 2 = 0) : roundToGrid u x = (f : F) * u := by
  have hm : x / u = (f : F) + 1 / 2 := by rw [hx]; field_simp; ring
  have hf : Int.floor (x / u) = f := Int.floor_eq_iff.mpr ⟨by linarith, by linarith⟩
  simp only [roundToGrid, hf]
  rw [if_neg (by linarith), if_neg (by linarith), if_pos hf2]

/-- A value with a 53-bit significand is not changed. -/
theorem roundDouble_exact (x : F) (e m : Int) (h1 : (2 : F) ^ e ≤ |x|)
    (h2 : |x| < (2 : F) ^ (e + 1)) (hm : x = (m : F) * (2 : F) ^ (e - 52)) :
    roundDouble x = x := by
  rw [roundDouble_of_binade x e h1 h2,
    roundToGrid_down _ x m (zpow_pos (by norm_num) _) (le_of_eq hm.symm)]
  · exact hm.symm
  · rw [hm]
    have := zpow_pos (by norm_num : (0 : F) < 2) (e - 52)
    nlinarith

theorem roundDouble_down (x : F) (e f : Int) (h1 : (2 : F) ^ e ≤ |x|)
    (h2 : |x| < (2 : F) ^ (e + 1)) (hlo : (f : F) * (2 : F) ^ (e - 52) ≤ x)
    (hhi : x < ((f : F) + 1 / 2) * (2 : F) ^ (e - 52)) :
    roundDouble x = (f : F) * (2 : F) ^ (e - 52) := by
  rw [roundDouble_of_binade x e h1 h2, roundToGrid_down _ x f (zpow_pos (by norm_num) _) hlo hhi]

theorem roundDouble_up (x : F) (e f : Int) (h1 : (2 : F) ^ e ≤ |x|)
    (h2 : |x| < (2 : F) ^ (e + 1)) (hlo : ((f : F) + 1 / 2) * (2 : F) ^ (e - 52) < x)
    (hhi : x < ((f : F) + 1) * (2 : F) ^ (e - 52)) :
    roundDouble x = ((f : F) + 1) * (2 : F) ^ (e - 52) := by
  rw [roundDouble_of_binade x e h1 h2, roundToGrid_up _ x f (zpow_pos (by norm_num) _) hlo hhi]

theorem roundDouble_tie_even (x : F) (e f : Int) (h1 : (2 : F) ^ e ≤ |x|)
    (h2 : |x| < (2 : F) ^ (e + 1)) (hx : x = ((f : F) + 1 / 2) * (2 : F) ^ (e - 52))
    (hf2 : f % 2 = 0) : roundDouble x = (f : F) * (2 : F) ^ (e - 52) := by
  rw [roundDouble_of_binade x e h1 h2,
    roundToGrid_tie_even _ x f (zpow_pos (by norm_num) _) hx hf2]

theorem rd_one : roundDouble (1 : F) = 1 :=
  roundDouble_exact 1 0 4503599627370496 (by norm_num) (by norm_num) (by norm_num)

theorem rd_half : roundDouble ((2 : F)⁻¹) = 2⁻¹ :=
  roundDouble_exact _ (-1) 4503599627370496 (by rw [abs_of_pos] <;> norm_num)
    (by rw [abs_of_pos] <;> norm_num) (by norm_num)

theorem rd_one_ulp : roundDouble ((1 : F) + 1 / 4503599627370496) = 1 + 1 / 4503599627370496 :=
  roundDouble_exact _ 0 4503599627370497 (by rw [abs_of_pos] <;> norm_num)
    (by rw [abs_of_pos] <;> norm_num) (by norm_num)

theorem rd_two_half_ulp : roundDouble ((2 : F) + 1 / 4503599627370496) = 2 := by
  rw [roundDouble_tie_even _ 1 4503599627370496 (by rw [abs_of_pos] <;> norm_num)
    (by rw [abs_of_pos] <;> norm_num) (by norm_num) (by decide)]
  norm_num


/-! ## The layout of scenario S4 -/

theorem S4_mapv_contiguous : S4.mapv.CContiguous := by decide

/-- The cells of the map of S4 lie above the pointing and signal arrays of S1. -/
theorem S4_mapv_cell (a : Int) (h : ArrayCell3 S4.mapv a) : 10000 ≤ a := by
  obtain ⟨i, j, k, -, -, -, rfl⟩ := h
  simp only [S4.mapv, Py_buffer.at3, Py_buffer.stride, List.getD_cons_zero, List.getD_cons_succ]
  omega

/-- The sample of S4 has `ix = 1` and `iy = y + 1`. -/
theorem S4_ix_iy (libm : Libm F) (mem : Mem F) (y : F)
    (hx : mem 1000 = 0) (hy : mem 1008 = y) (hdx : mem 2000 = 1 / 2) (hdy : mem 2008 = 1 / 2) :
    (S4.pixelizor : Pixelizor F).ix (sampleCoords libm mem S1.qbore S1.qofs 0 0) = 1 ∧
    (S4.pixelizor : Pixelizor F).iy (sampleCoords libm mem S1.qbore S1.qofs 0 0) = y + 1 := by
  constructor
  · rw [sampleCoords_eq]
    simp [Pixelizor.ix, S4.pixelizor, Pixelizor.new, Py_buffer.at2, Py_buffer.stride, S1.qbore,
      S1.qofs, hx, hdx]
    norm_num
  · rw [sampleCoords_eq]
    simp [Pixelizor.iy, S4.pixelizor, Pixelizor.new, Py_buffer.at2, Py_buffer.stride, S1.qbore,
      S1.qofs, hy, hdy]
    ring

/-- The sample of S4 for an integer `y` with `0 <= y + 1 < 21600`: it is in range, its
truncated indices are `(y + 1, 1)`, and its offset is `345600 * (y + 1) + 8` reduced to 32
bits. -/
theorem S4_sample (libm : Libm F) (mem : Mem F) (y : Int) (h0 : 0 ≤ y + 1) (h1 : y + 1 < 21600)
    (hx : mem 1000 = 0) (hy : mem 1008 = (y : F)) (hdx : mem 2000 = 1 / 2)
    (hdy : mem 2008 = 1 / 2) :
    (S4.pixelizor : Pixelizor F).InRange (sampleCoords libm mem S1.qbore S1.qofs 0 0) ∧
    truncInt ((S4.pixelizor : Pixelizor F).ix (sampleCoords libm mem S1.qbore S1.qofs 0 0)) = 1 ∧
    truncInt ((S4.pixelizor : Pixelizor F).iy (sampleCoords libm mem S1.qbore S1.qofs 0 0))
      = y + 1 ∧
    samplePixel libm S4.pixelizor mem S4.mapv S1.qbore S1.qofs 0 0
      = wrapInt32 (345600 * (y + 1) + 8) := by
  obtain ⟨hix, hiy⟩ := S4_ix_iy libm mem (y : F) hx hy hdx hdy
  have hc : ((y : F) + 1) = ((y + 1 : Int) : F) := by push_cast; ring
  have hin : (S4.pixelizor : Pixelizor F).InRange (sampleCoords libm mem S1.qbore S1.qofs 0 0) := by
    simp only [Pixelizor.InRange, hix, hiy, hc]
    refine ⟨by norm_num, ?_, by exact_mod_cast h0, ?_⟩
    · simp [S4.pixelizor, Pixelizor.new]
    · simp only [S4.pixelizor, Pixelizor.new, Matrix.cons_val_zero]
      exact_mod_cast h1
  have tx : truncInt (1 : F) = 1 := by simp [truncInt]
  have ty : truncInt (((y + 1 : Int) : F)) = y + 1 := by
    rw [truncInt_of_nonneg _ (by exact_mod_cast h0), Int.floor_intCast]
  refine ⟨hin, by rw [hix, tx], by rw [hiy, hc, ty], ?_⟩
  have h := GetPixel_of_InRange (S4.pixelizor : Pixelizor F) S4.mapv ((0 : Nat) : Int)
    ((0 : Nat) : Int) _ hin
  rw [hix, hiy, hc, tx, ty] at h
  rw [samplePixel, h]
  simp [S4.mapv, Py_buffer.stride]

/-! ## Scenarios S5 and S3 in binary64 arithmetic -/

/-- One sample of spin-0 `to_map` in scenario S5, in binary64 arithmetic, on a memory that
holds the pointing of S5: both samples have `ix = iy = 1` and add their signal value to
the cell at offset `40`, the sum being rounded. -/
theorem S5_sample (m : Mem ℝ) (t : Nat) (p : PointerFlat ℝ)
    (hp : p = ⟨⟨S5.qbore⟩, ⟨S1.qofs⟩, 1 / 2, 1 / 2, 1, 0⟩)
    (hx : m (1000 + 32 * (t : Int)) = 0) (hy : m (1000 + 32 * (t : Int) + 8) = 0)
    (hc : m (1000 + 32 * (t : Int) + 8 * 2) = 1) (hs : m (1000 + 32 * (t : Int) + 8 * 3) = 0) :
    (if @Pixelizor.GetPixel ℝ _ _ binary64 ((S1.pixelizor : Pixelizor ℝ).Init ⟨S1.mapv⟩) t t
          (@PointerFlat.GetCoords ℝ _ binary64 m p (0 : Nat) t) < 0 then m
      else @AccumulatorSpin0.Forward ℝ _ binary64 (⟨⟨S1.mapv⟩, ⟨S5.signalv⟩⟩ : AccumulatorSpin0)
        m (0 : Nat) t
        (@Pixelizor.GetPixel ℝ _ _ binary64 ((S1.pixelizor : Pixelizor ℝ).Init ⟨S1.mapv⟩) t t
          (@PointerFlat.GetCoords ℝ _ binary64 m p (0 : Nat) t))
        (@PointerFlat.GetCoords ℝ _ binary64 m p (0 : Nat) t) weights0)
      = Function.update m 40 (roundDouble (m 40 + m (3000 + 8 * (t : Int)))) := by
  have r0 : roundDouble (0 : ℝ) = 0 := roundDouble_zero
  have r1 : roundDouble (1 : ℝ) = 1 := rd_one
  have rh : roundDouble ((2 : ℝ)⁻¹) = 2⁻¹ := rd_half
  have rh' : roundDouble ((1 : ℝ) / 2) = 1 / 2 := by rw [one_div]; exact rd_half
  subst hp
  have hcoords : @PointerFlat.GetCoords ℝ _ binary64 m
      ⟨⟨S5.qbore⟩, ⟨S1.qofs⟩, 1 / 2, 1 / 2, 1, 0⟩ (0 : Nat) t = ![1 / 2, 1 / 2, 1, 0] := by
    simp only [PointerFlat.GetCoords, S5.qbore, Py_buffer.stride, List.getD_cons_zero,
      List.getD_cons_succ, binary64_rnd]
    rw [show (1000 : Int) + 32 * ↑t + 8 = 1000 + 32 * ↑t + 8 from rfl, hx, hy, hc, hs]
    norm_num [r0, r1, rh']
  have hpix : @Pixelizor.GetPixel ℝ _ _ binary64 ((S1.pixelizor : Pixelizor ℝ).Init ⟨S1.mapv⟩)
      t t ![1 / 2, 1 / 2, 1, 0] = 40 := by
    norm_num [Pixelizor.GetPixel, wrapInt32, Pixelizor.Init, S1.pixelizor, Pixelizor.new, S1.mapv,
      Py_buffer.stride, binary64_rnd, r0, r1, rh', truncInt]
  rw [hcoords, hpix, if_neg (by norm_num)]
  simp [AccumulatorSpin0.Forward, S1.mapv, S5.signalv, Py_buffer.stride, binary64_rnd]

/-- One call of spin-0 `to_map` in scenario S5, in binary64 arithmetic, on a memory that
holds the pointing of S5: the two signal values are added in turn to the cell at offset
`40`, each sum being rounded. -/
theorem S5_call (m : Mem ℝ) (hdx : m 2000 = 1 / 2) (hdy : m 2008 = 1 / 2) (hphi : m 2016 = 0)
    (hx0 : m 1000 = 0) (hy0 : m 1008 = 0) (hc0 : m 1016 = 1) (hs0 : m 1024 = 0)
    (hx1 : m 1032 = 0) (hy1 : m 1040 = 0) (hc1 : m 1048 = 1) (hs1 : m 1056 = 0) :
    @ProjectionEngine.to_map ℝ _ _ binary64 (⟨Real.cos, Real.sin⟩ : Libm ℝ)
      (@spin0 ℝ _ binary64) S1.pixelizor m
      (.array S1.mapv) (.array S5.qbore) (.array S1.qofs) (.array S5.signalv) PyObject.none
      = .ok (.array S1.mapv,
          Function.update m 40 (roundDouble (roundDouble (m 40 + m 3000) + m 3008))) := by
  have hcall : @ProjectionEngine.to_map ℝ _ _ binary64 (⟨Real.cos, Real.sin⟩ : Libm ℝ)
      (@spin0 ℝ _ binary64) S1.pixelizor m
      (.array S1.mapv) (.array S5.qbore) (.array S1.qofs) (.array S5.signalv) PyObject.none
      = .ok (.array S1.mapv,
        (fun (p : PointerFlat ℝ) (t : Nat) (m' : Mem ℝ) =>
          if @Pixelizor.GetPixel ℝ _ _ binary64 ((S1.pixelizor : Pixelizor ℝ).Init ⟨S1.mapv⟩) t t
              (@PointerFlat.GetCoords ℝ _ binary64 m' p (0 : Nat) t) < 0 then m'
          else @AccumulatorSpin0.Forward ℝ _ binary64
            (⟨⟨S1.mapv⟩, ⟨S5.signalv⟩⟩ : AccumulatorSpin0) m' (0 : Nat) t
            (@Pixelizor.GetPixel ℝ _ _ binary64 ((S1.pixelizor : Pixelizor ℝ).Init ⟨S1.mapv⟩) t t
              (@PointerFlat.GetCoords ℝ _ binary64 m' p (0 : Nat) t))
            (@PointerFlat.GetCoords ℝ _ binary64 m' p (0 : Nat) t) weights0)
          (((PointerFlat.new : PointerFlat ℝ).Init ⟨S5.qbore⟩ ⟨S1.qofs⟩).InitPerDet
            (⟨Real.cos, Real.sin⟩ : Libm ℝ) m (0 : Nat)) 1
          ((fun (p : PointerFlat ℝ) (t : Nat) (m' : Mem ℝ) =>
            if @Pixelizor.GetPixel ℝ _ _ binary64 ((S1.pixelizor : Pixelizor ℝ).Init ⟨S1.mapv⟩) t t
                (@PointerFlat.GetCoords ℝ _ binary64 m' p (0 : Nat) t) < 0 then m'
            else @AccumulatorSpin0.Forward ℝ _ binary64
              (⟨⟨S1.mapv⟩, ⟨S5.signalv⟩⟩ : AccumulatorSpin0) m' (0 : Nat) t
              (@Pixelizor.GetPixel ℝ _ _ binary64 ((S1.pixelizor : Pixelizor ℝ).Init ⟨S1.mapv⟩) t t
                (@PointerFlat.GetCoords ℝ _ binary64 m' p (0 : Nat) t))
              (@PointerFlat.GetCoords ℝ _ binary64 m' p (0 : Nat) t) weights0)
            (((PointerFlat.new : PointerFlat ℝ).Init ⟨S5.qbore⟩ ⟨S1.qofs⟩).InitPerDet
              (⟨Real.cos, Real.sin⟩ : Libm ℝ) m (0 : Nat)) 0 m)) := rfl
  have hP : ((PointerFlat.new : PointerFlat ℝ).Init ⟨S5.qbore⟩ ⟨S1.qofs⟩).InitPerDet
      (⟨Real.cos, Real.sin⟩ : Libm ℝ) m (0 : Nat)
      = ⟨⟨S5.qbore⟩, ⟨S1.qofs⟩, 1 / 2, 1 / 2, 1, 0⟩ := by
    simp [PointerFlat.InitPerDet, PointerFlat.Init, PointerFlat.new, S1.qofs, Py_buffer.stride,
      hdx, hdy, hphi]
  rw [hcall]
  dsimp only
  rw [S5_sample m 0 _ hP (by simpa using hx0) (by simpa using hy0) (by simpa using hc0)
    (by simpa using hs0)]
  rw [S5_sample _ 1 _ hP (by simpa [Function.update] using hx1)
    (by simpa [Function.update] using hy1) (by simpa [Function.update] using hc1)
    (by simpa [Function.update] using hs1)]
  simp [Function.update]

/-- The four parts of the effect of `AccumulatorSpin2::Forward`, in any arithmetic. -/
theorem Spin2_Forward_at [Rounding F] (a : AccumulatorSpin2) (mem : Mem F)
    (idet it pixel_offset : Int) (coords weights : Fin 4 → F)
    (hs0 : a._mapbuf.view.stride 0 ≠ 0) :
    (a.Forward mem idet it pixel_offset coords weights)
        (a._mapbuf.view.buf + a._mapbuf.view.stride 0 * 0 + pixel_offset)
      = rnd (mem (a._mapbuf.view.buf + a._mapbuf.view.stride 0 * 0 + pixel_offset)
        + rnd (mem (a._signalbuf.view.buf + a._signalbuf.view.stride 1 * idet
            + a._signalbuf.view.stride 2 * it) * 1)) ∧
    (a.Forward mem idet it pixel_offset coords weights)
        (a._mapbuf.view.buf + a._mapbuf.view.stride 0 * 1 + pixel_offset)
      = rnd (mem (a._mapbuf.view.buf + a._mapbuf.view.stride 0 * 1 + pixel_offset)
        + rnd (mem (a._signalbuf.view.buf + a._signalbuf.view.stride 1 * idet
            + a._signalbuf.view.stride 2 * it)
          * rnd (rnd (coords 2 * coords 2) - rnd (coords 3 * coords 3)))) ∧
    (a.Forward mem idet it pixel_offset coords weights)
        (a._mapbuf.view.buf + a._mapbuf.view.stride 0 * 2 + pixel_offset)
      = rnd (mem (a._mapbuf.view.buf + a._mapbuf.view.stride 0 * 2 + pixel_offset)
        + rnd (mem (a._signalbuf.view.buf + a._signalbuf.view.stride 1 * idet
            + a._signalbuf.view.stride 2 * it) * rnd (rnd (2 * coords 2) * coords 3))) ∧
    ∀ x : Int,
      x ≠ a._mapbuf.view.buf + a._mapbuf.view.stride 0 * 0 + pixel_offset →
      x ≠ a._mapbuf.view.buf + a._mapbuf.view.stride 0 * 1 + pixel_offset →
      x ≠ a._mapbuf.view.buf + a._mapbuf.view.stride 0 * 2 + pixel_offset →
      (a.Forward mem idet it pixel_offset coords weights) x = mem x := by
  have d01 : a._mapbuf.view.buf + a._mapbuf.view.stride 0 * 0 + pixel_offset ≠
      a._mapbuf.view.buf + a._mapbuf.view.stride 0 * 1 + pixel_offset := by
    intro e; apply hs0; linarith
  have d02 : a._mapbuf.view.buf + a._mapbuf.view.stride 0 * 0 + pixel_offset ≠
      a._mapbuf.view.buf + a._mapbuf.view.stride 0 * 2 + pixel_offset := by
    intro e; apply hs0; linarith
  have d12 : a._mapbuf.view.buf + a._mapbuf.view.stride 0 * 1 + pixel_offset ≠
      a._mapbuf.view.buf + a._mapbuf.view.stride 0 * 2 + pixel_offset := by
    intro e; apply hs0; linarith
  have hF : a.Forward mem idet it pixel_offset coords weights =
      (fun (m0 : Mem F) =>
        (fun (m1 : Mem F) =>
          (fun (m2 : Mem F) =>
            Function.update m2
              (a._mapbuf.view.buf + a._mapbuf.view.stride 0 * 2 + pixel_offset)
              (rnd (m2 (a._mapbuf.view.buf + a._mapbuf.view.stride 0 * 2 + pixel_offset)
                + rnd (mem (a._signalbuf.view.buf + a._signalbuf.view.stride 1 * idet
                  + a._signalbuf.view.stride 2 * it) * rnd (rnd (2 * coords 2) * coords 3)))))
          (Function.update m1
            (a._mapbuf.view.buf + a._mapbuf.view.stride 0 * 1 + pixel_offset)
            (rnd (m1 (a._mapbuf.view.buf + a._mapbuf.view.stride 0 * 1 + pixel_offset)
              + rnd (mem (a._signalbuf.view.buf + a._signalbuf.view.stride 1 * idet
                + a._signalbuf.view.stride 2 * it)
                * rnd (rnd (coords 2 * coords 2) - rnd (coords 3 * coords 3)))))))
        (Function.update m0
          (a._mapbuf.view.buf + a._mapbuf.view.stride 0 * 0 + pixel_offset)
          (rnd (m0 (a._mapbuf.view.buf + a._mapbuf.view.stride 0 * 0 + pixel_offset)
            + rnd (mem (a._signalbuf.view.buf + a._signalbuf.view.stride 1 * idet
              + a._signalbuf.view.stride 2 * it) * 1))))) mem := rfl
  rw [hF]
  dsimp only
  refine ⟨?_, ?_, ?_, ?_⟩
  · rw [Function.update_noteq d02, Function.update_noteq d01, Function.update_same]
  · rw [Function.update_noteq d12, Function.update_same, Function.update_noteq d01.symm]
  · rw [Function.update_same, Function.update_noteq d12.symm, Function.update_noteq d02.symm]
  · intro x h0 h1 h2
    rw [Function.update_noteq h2, Function.update_noteq h1, Function.update_noteq h0]

/-- The call of spin-2 `to_map` in scenario S3, in binary64 arithmetic, for a boresight pair
`(c, s)` of doubles: the one sample has `ix = iy = 1/2`, offset `0` and coordinates
`(0, 0, c, s)`. -/
theorem S3_call_binary64 (c s : ℝ) (hc : roundDouble c = c) (hs : roundDouble s = s) :
    @ProjectionEngine.to_map ℝ _ _ binary64 (⟨Real.cos, Real.sin⟩ : Libm ℝ)
      (@spin2 ℝ _ binary64) S3.pixelizor (S3.mem c s)
      (.array S3.mapv) (.array S1.qbore) (.array S1.qofs) (.array S1.signalv) PyObject.none
      = .ok (.array S3.mapv,
          @AccumulatorSpin2.Forward ℝ _ binary64 (⟨⟨S3.mapv⟩, ⟨S1.signalv⟩⟩ : AccumulatorSpin2)
            (S3.mem c s) (0 : Nat) (0 : Nat) 0 ![0, 0, c, s] weights0) := by
  have r0 : roundDouble (0 : ℝ) = 0 := roundDouble_zero
  have rh' : roundDouble ((1 : ℝ) / 2) = 1 / 2 := by rw [one_div]; exact rd_half
  have hcall : @ProjectionEngine.to_map ℝ _ _ binary64 (⟨Real.cos, Real.sin⟩ : Libm ℝ)
      (@spin2 ℝ _ binary64) S3.pixelizor (S3.mem c s)
      (.array S3.mapv) (.array S1.qbore) (.array S1.qofs) (.array S1.signalv) PyObject.none
      = .ok (.array S3.mapv,
        (fun (p : PointerFlat ℝ) =>
          if @Pixelizor.GetPixel ℝ _ _ binary64 ((S3.pixelizor : Pixelizor ℝ).Init ⟨S3.mapv⟩)
              (0 : Nat) (0 : Nat) (@PointerFlat.GetCoords ℝ _ binary64 (S3.mem c s) p (0 : Nat)
                (0 : Nat)) < 0 then S3.mem c s
          else @AccumulatorSpin2.Forward ℝ _ binary64
            (⟨⟨S3.mapv⟩, ⟨S1.signalv⟩⟩ : AccumulatorSpin2) (S3.mem c s) (0 : Nat) (0 : Nat)
            (@Pixelizor.GetPixel ℝ _ _ binary64 ((S3.pixelizor : Pixelizor ℝ).Init ⟨S3.mapv⟩)
              (0 : Nat) (0 : Nat) (@PointerFlat.GetCoords ℝ _ binary64 (S3.mem c s) p (0 : Nat)
                (0 : Nat)))
            (@PointerFlat.GetCoords ℝ _ binary64 (S3.mem c s) p (0 : Nat) (0 : Nat)) weights0)
          (((PointerFlat.new : PointerFlat ℝ).Init ⟨S1.qbore⟩ ⟨S1.qofs⟩).InitPerDet
            (⟨Real.cos, Real.sin⟩ : Libm ℝ) (S3.mem c s) (0 : Nat))) := rfl
  have hP : ((PointerFlat.new : PointerFlat ℝ).Init ⟨S1.qbore⟩ ⟨S1.qofs⟩).InitPerDet
      (⟨Real.cos, Real.sin⟩ : Libm ℝ) (S3.mem c s) (0 : Nat)
      = ⟨⟨S1.qbore⟩, ⟨S1.qofs⟩, 0, 0, 1, 0⟩ := by
    simp [PointerFlat.InitPerDet, PointerFlat.Init, PointerFlat.new, S1.qofs, Py_buffer.stride,
      S3.mem]
  have hcoords : @PointerFlat.GetCoords ℝ _ binary64 (S3.mem c s)
      ⟨⟨S1.qbore⟩, ⟨S1.qofs⟩, 0, 0, 1, 0⟩ (0 : Nat) (0 : Nat) = ![0, 0, c, s] := by
    simp [PointerFlat.GetCoords, S1.qbore, Py_buffer.stride, binary64_rnd, S3.mem, r0, hc, hs]
  have hpix : @Pixelizor.GetPixel ℝ _ _ binary64 ((S3.pixelizor : Pixelizor ℝ).Init ⟨S3.mapv⟩)
      (0 : Nat) (0 : Nat) ![0, 0, c, s] = 0 := by
    have ht : truncInt ((1 : ℝ) / 2) = 0 := by
      rw [truncInt_of_nonneg _ (by norm_num), Int.floor_eq_zero_iff]
      constructor <;> norm_num
    norm_num [Pixelizor.GetPixel, wrapInt32, Pixelizor.Init, S3.pixelizor, Pixelizor.new,
      S3.mapv, Py_buffer.stride, binary64_rnd, r0, rh', ht]
  rw [hcall]
  dsimp only
  rw [hP, hcoords, hpix, if_neg (by norm_num)]

end LoopLemmas

/-! ## The claims -/

section GetPixelRule

/-- C1 (the code at a failing input). On the contiguous `(1, 21600, 43200)` map of S4, at
the sky position `(1/2, 14001/2)`: `ix = 1` and `iy = 7001` pass the four bounds checks and
the rule of the spec gives the offset `345600 * 7001 + 8 * 1 = 2419545608`, but `GetPixel`
returns `-1875421688`, that value reduced to a 32-bit `int`. -/
theorem GetPixel_narrows_offset :
    (S4.pixelizor : Pixelizor ℚ).ix ![1 / 2, 14001 / 2, 1, 0] = 1 ∧
    (S4.pixelizor : Pixelizor ℚ).iy ![1 / 2, 14001 / 2, 1, 0] = 7001 ∧
    (S4.pixelizor : Pixelizor ℚ).InRange ![1 / 2, 14001 / 2, 1, 0] ∧
    S4.mapv.stride 1 * truncInt ((S4.pixelizor : Pixelizor ℚ).iy ![1 / 2, 14001 / 2, 1, 0])
      + S4.mapv.stride 2 * truncInt ((S4.pixelizor : Pixelizor ℚ).ix ![1 / 2, 14001 / 2, 1, 0])
      = 2419545608 ∧
    ((S4.pixelizor : Pixelizor ℚ).Init ⟨S4.mapv⟩).GetPixel 0 0 ![1 / 2, 14001 / 2, 1, 0]
      = -1875421688 := by
  have hix : (S4.pixelizor : Pixelizor ℚ).ix ![1 / 2, 14001 / 2, 1, 0] = 1 := by
    simp [Pixelizor.ix, S4.pixelizor, Pixelizor.new]
    norm_num
  have hiy : (S4.pixelizor : Pixelizor ℚ).iy ![1 / 2, 14001 / 2, 1, 0] = 7001 := by
    simp [Pixelizor.iy, S4.pixelizor, Pixelizor.new]
    norm_num
  have hin : (S4.pixelizor : Pixelizor ℚ).InRange ![1 / 2, 14001 / 2, 1, 0] := by
    simp only [Pixelizor.InRange, hix, hiy]
    simp [S4.pixelizor, Pixelizor.new]
    norm_num
  have tx : truncInt (1 : ℚ) = 1 := by simp [truncInt]
  have ty : truncInt (7001 : ℚ) = 7001 := by
    rw [truncInt_of_nonneg _ (by norm_num)]
    exact_mod_cast Int.floor_intCast (7001 : Int)
  refine ⟨hix, hiy, hin, ?_, ?_⟩
  · rw [hix, hiy, tx, ty]; rfl
  · rw [GetPixel_of_InRange _ _ _ _ _ hin, hix, hiy, tx, ty]; rfl

end GetPixelRule

section ScenarioS1

variable {F : Type} [LinearOrderedField F] [FloorRing F]

/-- C2 (as amended). Scenario S1: with `cos 0 = 1` and `sin 0 = 0`, spin-0 `to_map`
returns and leaves `map[0, 1, 1] == 7` and every other entry of the `(1, 4, 4)`
map equal to `0`. -/
theorem S1_to_map_pixel_1_1 (libm : Libm F) (hc : libm.cos 0 = 1) (hs : libm.sin 0 = 0) :
    ∃ m, ProjectionEngine.to_map libm spin0 S1.pixelizor S1.mem (.array S1.mapv)
        (.array S1.qbore) (.array S1.qofs) (.array S1.signalv) PyObject.none
        = .ok (.array S1.mapv, m) ∧
      ∀ iy ix : Fin 4, m (S1.mapv.at3 0 (iy : Nat) (ix : Nat)) =
        if iy = 1 ∧ ix = 1 then 7 else 0 := by
  refine ⟨_, to_map_spin0_ok libm _ _ _ _ _ _ rfl rfl rfl rfl rfl, ?_⟩
  intro iy ix
  simp [ProjectionEngine.to_map_loop, List.range_succ, PointerFlat.InitPerDet, PointerFlat.Init,
    PointerFlat.new, PointerFlat.GetCoords, Pixelizor.GetPixel, wrapInt32, Pixelizor.Init, Pixelizor.new,
    Py_buffer.stride, Py_buffer.shapeAt, S1.mem, S1.mapv, S1.qbore, S1.qofs, S1.signalv,
    S1.pixelizor, Py_buffer.at3, hc, hs, spin0, AccumulatorSpin0.Forward, truncInt]
  norm_num
  fin_cases iy <;> fin_cases ix <;> simp [Function.update, S1.mem]

/-- Witness for `S1_to_map_pixel_1_1`: the real cosine and sine. -/
theorem S1_to_map_pixel_1_1_witness :
    ∃ m, ProjectionEngine.to_map (⟨Real.cos, Real.sin⟩ : Libm ℝ) spin0 S1.pixelizor S1.mem
        (.array S1.mapv) (.array S1.qbore) (.array S1.qofs) (.array S1.signalv) PyObject.none
        = .ok (.array S1.mapv, m) ∧
      ∀ iy ix : Fin 4, m (S1.mapv.at3 0 (iy : Nat) (ix : Nat)) =
        if iy = 1 ∧ ix = 1 then 7 else 0 :=
  S1_to_map_pixel_1_1 ⟨Real.cos, Real.sin⟩ Real.cos_zero Real.sin_zero

/-- C2 (counterexample). In scenario S1, with the real cosine and sine, spin-0 `to_map`
returns with `map[0, 0, 1] = 0` (not `7`) and `map[0, 1, 1] = 7` (not `0`). -/
theorem S1_to_map_not_pixel_0_1 :
    ∃ m, ProjectionEngine.to_map (⟨Real.cos, Real.sin⟩ : Libm ℝ) spin0 S1.pixelizor S1.mem
        (.array S1.mapv) (.array S1.qbore) (.array S1.qofs) (.array S1.signalv) PyObject.none
        = .ok (.array S1.mapv, m) ∧
      m (S1.mapv.at3 0 0 1) ≠ 7 ∧ m (S1.mapv.at3 0 1 1) ≠ 0 := by
  refine ⟨_, to_map_spin0_ok _ _ _ _ _ _ _ rfl rfl rfl rfl rfl, ?_⟩
  simp [ProjectionEngine.to_map_loop, List.range_succ, PointerFlat.InitPerDet, PointerFlat.Init,
    PointerFlat.new, PointerFlat.GetCoords, Pixelizor.GetPixel, wrapInt32, Pixelizor.Init, Pixelizor.new,
    Py_buffer.stride, Py_buffer.shapeAt, S1.mem, S1.mapv, S1.qbore, S1.qofs, S1.signalv,
    S1.pixelizor, Py_buffer.at3, spin0, AccumulatorSpin0.Forward, truncInt]
  norm_num [Function.update, S1.mem]

end ScenarioS1

section PixelizorZeros

/-- C3 (the code at a failing input). For the pixelizor built with `n_x = 2`, `n_y = 3`,
`zeros(1)` has dimensions `(1, 2, 3)`, that is `(n_prefix, n_x, n_y)`, and `zeros(-1)`
has dimensions `(2, 3)`, that is `(n_x, n_y)`: the x axis comes first, not the y axis. -/
theorem zeros_dims_x_first :
    ((Pixelizor.new 2 3 (1 : ℚ) 1 0 0 0 0).zeros 1).map NdArray.dims = some [1, 2, 3] ∧
    ((Pixelizor.new 2 3 (1 : ℚ) 1 0 0 0 0).zeros (-1)).map NdArray.dims = some [2, 3] ∧
    ((Pixelizor.new 2 3 (1 : ℚ) 1 0 0 0 0).zeros 1).map NdArray.dims ≠ some [1, 3, 2] ∧
    ((Pixelizor.new 2 3 (1 : ℚ) 1 0 0 0 0).zeros (-1)).map NdArray.dims ≠ some [3, 2] := by
  simp [Pixelizor.zeros, Pixelizor.new]

end PixelizorZeros

section Pointing

variable {F : Type} [LinearOrderedField F] [FloorRing F]

/-- C4. After `InitPerDet(i_det)`, `GetCoords` for sample `i_t` yields
`out[0] = dx_d + x_t`, `out[1] = dy_d + y_t`, `out[2] = cos(phi_d)*c_t - sin(phi_d)*s_t`,
`out[3] = cos(phi_d)*s_t + sin(phi_d)*c_t`, where `(dx_d, dy_d, phi_d)` is row `i_det`
of the offsets array and `(x_t, y_t, c_t, s_t)` is row `i_t` of the boresight array,
both read through the strides of their views. -/
theorem GetCoords_after_InitPerDet (libm : Libm F) (mem : Mem F) (p : PointerFlat F)
    (i_det i_t : Int) :
    (p.InitPerDet libm mem i_det).GetCoords mem i_det i_t =
      ![mem (p._qofsbuf.view.at2 i_det 0) + mem (p._qborebuf.view.at2 i_t 0),
        mem (p._qofsbuf.view.at2 i_det 1) + mem (p._qborebuf.view.at2 i_t 1),
        libm.cos (mem (p._qofsbuf.view.at2 i_det 2)) * mem (p._qborebuf.view.at2 i_t 2)
          - libm.sin (mem (p._qofsbuf.view.at2 i_det 2)) * mem (p._qborebuf.view.at2 i_t 3),
        libm.cos (mem (p._qofsbuf.view.at2 i_det 2)) * mem (p._qborebuf.view.at2 i_t 3)
          + libm.sin (mem (p._qofsbuf.view.at2 i_det 2)) * mem (p._qborebuf.view.at2 i_t 2)] := by
  simp [PointerFlat.GetCoords, PointerFlat.InitPerDet, Py_buffer.at2]

end Pointing

section OutOfRange

variable {F : Type} [LinearOrderedField F] [FloorRing F]

/-- C6. Out-of-range safety of `to_map`: if the point `(ix, iy)` of every sample
`(i_det, i_t)` lies outside `[0, n_x) x [0, n_y)`, then `to_map` returns, for the
spin-0 engine (map of first axis 1) and for the spin-2 engine (map of first axis 3),
with the memory it started from: every element of the map has its value from before
the call. -/
theorem to_map_out_of_range_unchanged (libm : Libm F) (z : Pixelizor F) (mem : Mem F)
    (mv qb qo sv : Py_buffer) (hmv : mv.ndim = 3) (hqb : qb.ndim = 2) (hqo : qo.ndim = 2)
    (hsv : sv.ndim = 3)
    (hout : ∀ d t : Nat, (d : Int) < qo.shapeAt 0 → (t : Int) < qb.shapeAt 0 →
      ¬ z.InRange (sampleCoords libm mem qb qo d t)) :
    (mv.shapeAt 0 = 1 →
      ProjectionEngine.to_map libm spin0 z mem (.array mv) (.array qb) (.array qo) (.array sv)
        PyObject.none = .ok (.array mv, mem)) ∧
    (mv.shapeAt 0 = 3 →
      ProjectionEngine.to_map libm spin2 z mem (.array mv) (.array qb) (.array qo) (.array sv)
        PyObject.none = .ok (.array mv, mem)) := by
  constructor
  · intro h0
    rw [to_map_spin0_ok libm z mem mv qb qo sv hmv h0 hqb hqo hsv,
      to_map_loop_out_of_range libm spin0 _ z mem mv qb qo hout]
  · intro h0
    rw [to_map_spin2_ok libm z mem mv qb qo sv hmv h0 hqb hqo hsv,
      to_map_loop_out_of_range libm spin2 _ z mem mv qb qo hout]

/-- Witness for `to_map_out_of_range_unchanged`, scenario S2 (S1 with offsets
`[[5, 5, 0]]`, real cosine and sine): spin-0 `to_map` returns and the `(1, 4, 4)` map
is all zeros; so does spin-2 `to_map` on a `(3, 4, 4)` map. -/
theorem S2_to_map_all_zeros :
    (∃ m, ProjectionEngine.to_map (⟨Real.cos, Real.sin⟩ : Libm ℝ) spin0 S1.pixelizor S2.mem
        (.array S1.mapv) (.array S1.qbore) (.array S1.qofs) (.array S1.signalv) PyObject.none
        = .ok (.array S1.mapv, m) ∧
      ∀ iy ix : Fin 4, m (S1.mapv.at3 0 (iy : Nat) (ix : Nat)) = 0) ∧
    (∃ m, ProjectionEngine.to_map (⟨Real.cos, Real.sin⟩ : Libm ℝ) spin2 S1.pixelizor S2.mem
        (.array S1.mapv3) (.array S1.qbore) (.array S1.qofs) (.array S1.signalv) PyObject.none
        = .ok (.array S1.mapv3, m) ∧
      ∀ (k : Fin 3) (iy ix : Fin 4), m (S1.mapv3.at3 (k : Nat) (iy : Nat) (ix : Nat)) = 0) := by
  have hout : ∀ d t : Nat, (d : Int) < S1.qofs.shapeAt 0 → (t : Int) < S1.qbore.shapeAt 0 →
      ¬ (S1.pixelizor : Pixelizor ℝ).InRange
        (sampleCoords (⟨Real.cos, Real.sin⟩ : Libm ℝ) S2.mem S1.qbore S1.qofs d t) := by
    intro d t hd ht
    have hd0 : d = 0 := by simpa [S1.qofs, Py_buffer.shapeAt] using hd
    have ht0 : t = 0 := by simpa [S1.qbore, Py_buffer.shapeAt] using ht
    subst hd0 ht0
    rw [sampleCoords_eq]
    simp only [rnd_exact, Pixelizor.InRange, Pixelizor.ix, Pixelizor.iy, S1.pixelizor, Pixelizor.new,
      S2.mem, S1.qofs, S1.qbore, Py_buffer.at2, Py_buffer.stride]
    norm_num
  refine ⟨⟨_, (to_map_out_of_range_unchanged (⟨Real.cos, Real.sin⟩ : Libm ℝ) S1.pixelizor S2.mem
    S1.mapv S1.qbore S1.qofs S1.signalv rfl rfl rfl rfl hout).1 rfl, ?_⟩,
    ⟨_, (to_map_out_of_range_unchanged (⟨Real.cos, Real.sin⟩ : Libm ℝ) S1.pixelizor S2.mem
    S1.mapv3 S1.qbore S1.qofs S1.signalv rfl rfl rfl rfl hout).2 rfl, ?_⟩⟩
  · intro iy ix
    have h := S1_mapv_cell (S1.mapv.at3 0 (iy : Nat) (ix : Nat))
      ⟨0, iy, ix, by decide, by simp [S1.mapv, Py_buffer.shapeAt],
        by simp [S1.mapv, Py_buffer.shapeAt], by simp⟩
    exact S2_mem_zero _ h.1 h.2
  · intro k iy ix
    have h := S1_mapv3_cell (S1.mapv3.at3 (k : Nat) (iy : Nat) (ix : Nat))
      ⟨k, iy, ix, by simp [S1.mapv3, Py_buffer.shapeAt],
        by simp [S1.mapv3, Py_buffer.shapeAt],
        by simp [S1.mapv3, Py_buffer.shapeAt], rfl⟩
    exact S2_mem_zero _ h.1 h.2

end OutOfRange

section ReverseSpin0

/-- C7 (the code at a failing input). On the contiguous `(1, 21600, 43200)` map of S4,
with the value `3` in `map[0, 7001, 1]`, the one sample is in range with truncated indices
`(7001, 1)`; its offset `2419545608` becomes `-1875421688` as an `int`, so spin-0
`from_map` skips the sample: it returns with the memory it started from, and
`signal[0, 0, 0]` is still `7` instead of `7 + 3`.  The map and the signal are contiguous,
and the map starts at address `10000`, above the boresight, offsets and signal arrays. -/
theorem from_map_skips_wrapped_offset :
    S4.mapv.CContiguous ∧ S1.signalv.CContiguous ∧
    (∀ a, ArrayCell3 S4.mapv a → 10000 ≤ a) ∧
    (S4.pixelizor : Pixelizor ℝ).InRange
      (sampleCoords (⟨Real.cos, Real.sin⟩ : Libm ℝ) S4.memM S1.qbore S1.qofs 0 0) ∧
    truncInt ((S4.pixelizor : Pixelizor ℝ).iy
      (sampleCoords (⟨Real.cos, Real.sin⟩ : Libm ℝ) S4.memM S1.qbore S1.qofs 0 0)) = 7001 ∧
    truncInt ((S4.pixelizor : Pixelizor ℝ).ix
      (sampleCoords (⟨Real.cos, Real.sin⟩ : Libm ℝ) S4.memM S1.qbore S1.qofs 0 0)) = 1 ∧
    (S4.memM : Mem ℝ) (S4.mapv.at3 0 7001 1) = 3 ∧
    (S4.memM : Mem ℝ) (S1.signalv.at3 0 0 0) = 7 ∧
    ProjectionEngine.from_map (⟨Real.cos, Real.sin⟩ : Libm ℝ) spin0 S4.pixelizor S4.memM
      (.array S4.mapv) (.array S1.qbore) (.array S1.qofs) (.array S1.signalv) PyObject.none
      = .ok (.array S4.mapv, S4.memM) := by
  obtain ⟨hin, tx, ty, hp⟩ := S4_sample (⟨Real.cos, Real.sin⟩ : Libm ℝ) S4.memM 7000
    (by norm_num) (by norm_num) (by simp [S4.memM, S4.mem]) (by simp [S4.memM, S4.mem])
    (by simp [S4.memM, S4.mem]) (by simp [S4.memM, S4.mem])
  have hp' : samplePixel (⟨Real.cos, Real.sin⟩ : Libm ℝ) S4.pixelizor S4.memM S4.mapv S1.qbore
      S1.qofs 0 0 = -1875421688 := by rw [hp]; rfl
  refine ⟨by decide, by decide, S4_mapv_cell, hin, ty, tx, ?_, ?_, ?_⟩
  · simp [S4.memM, S4.mapv, Py_buffer.at3, Py_buffer.stride]
  · simp [S4.memM, S4.mem, S1.signalv, Py_buffer.at3, Py_buffer.stride]
  · rw [from_map_spin0_ok (⟨Real.cos, Real.sin⟩ : Libm ℝ) S4.pixelizor S4.memM S4.mapv S1.qbore
      S1.qofs S1.signalv rfl rfl rfl rfl rfl]
    have hloop : ProjectionEngine.from_map_loop (⟨Real.cos, Real.sin⟩ : Libm ℝ) spin0
        (⟨⟨S4.mapv⟩, ⟨S1.signalv⟩⟩ : AccumulatorSpin0)
        ((S4.pixelizor : Pixelizor ℝ).Init ⟨S4.mapv⟩)
        ((PointerFlat.new : PointerFlat ℝ).Init ⟨S1.qbore⟩ ⟨S1.qofs⟩) (S1.qofs.shapeAt 0)
        (S1.qbore.shapeAt 0) S4.memM
        = (if samplePixel (⟨Real.cos, Real.sin⟩ : Libm ℝ) (S4.pixelizor : Pixelizor ℝ)
              S4.memM S4.mapv S1.qbore S1.qofs 0 0 < 0
            then S4.memM
            else AccumulatorSpin0.Reverse (⟨⟨S4.mapv⟩, ⟨S1.signalv⟩⟩ : AccumulatorSpin0)
              S4.memM ((0 : Nat) : Int) ((0 : Nat) : Int)
              (samplePixel (⟨Real.cos, Real.sin⟩ : Libm ℝ) (S4.pixelizor : Pixelizor ℝ)
                S4.memM S4.mapv S1.qbore S1.qofs 0 0)
              (sampleCoords (⟨Real.cos, Real.sin⟩ : Libm ℝ) S4.memM S1.qbore S1.qofs 0 0)
              weights0) := rfl
    rw [hloop, hp', if_pos (by norm_num)]

end ReverseSpin0

section Pixels

variable {F : Type} [LinearOrderedField F] [FloorRing F]

end Pixels

section Accumulation

variable {F : Type} [LinearOrderedField F] [FloorRing F]

/-- C9 (as amended). Accumulation semantics, in exact arithmetic: for a map whose written
cells are neither pointing nor signal cells, `to_map` called twice on a zeroed map yields,
at every element of the map, exactly twice the value a single call yields; for the spin-0
engine (map of first axis 1) and for the spin-2 engine (map of first axis 3). -/
theorem to_map_twice_doubles (libm : Libm F) (z : Pixelizor F) (mem : Mem F)
    (mv qb qo sv : Py_buffer) (hmv : mv.ndim = 3) (hqb : qb.ndim = 2) (hqo : qo.ndim = 2)
    (hsv : sv.ndim = 3) (hzero : ∀ a, ArrayCell3 mv a → mem a = 0) :
    (mv.shapeAt 0 = 1 →
      (∀ a, ForwardCell libm z mem 1 mv qb qo a →
        ¬ PointingCell qb qo a ∧ ¬ SignalCell sv qb qo a) →
      ∃ m1 m2,
        ProjectionEngine.to_map libm spin0 z mem (.array mv) (.array qb) (.array qo)
          (.array sv) PyObject.none = .ok (.array mv, m1) ∧
        ProjectionEngine.to_map libm spin0 z m1 (.array mv) (.array qb) (.array qo)
          (.array sv) PyObject.none = .ok (.array mv, m2) ∧
        ∀ a, ArrayCell3 mv a → m2 a = 2 * m1 a) ∧
    (mv.shapeAt 0 = 3 →
      (∀ a, ForwardCell libm z mem 3 mv qb qo a →
        ¬ PointingCell qb qo a ∧ ¬ SignalCell sv qb qo a) →
      ∃ m1 m2,
        ProjectionEngine.to_map libm spin2 z mem (.array mv) (.array qb) (.array qo)
          (.array sv) PyObject.none = .ok (.array mv, m1) ∧
        ProjectionEngine.to_map libm spin2 z m1 (.array mv) (.array qb) (.array qo)
          (.array sv) PyObject.none = .ok (.array mv, m2) ∧
        ∀ a, ArrayCell3 mv a → m2 a = 2 * m1 a) := by
  constructor
  · intro h0 hna
    obtain ⟨e1, ag1⟩ := to_map_loop_spin0_eq libm z mem mv qb qo sv hna
    have hna1 : ∀ a, ForwardCell libm z
        (ProjectionEngine.to_map_loop libm spin0 (⟨⟨mv⟩, ⟨sv⟩⟩ : AccumulatorSpin0) (z.Init ⟨mv⟩)
          ((PointerFlat.new : PointerFlat F).Init ⟨qb⟩ ⟨qo⟩) (qo.shapeAt 0) (qb.shapeAt 0) mem)
        1 mv qb qo a → ¬ PointingCell qb qo a ∧ ¬ SignalCell sv qb qo a :=
      fun a ha => hna a (ForwardCell_congr libm z _ mem 1 mv qb qo
        (ag1.mono (fun a ha => Or.inl ha)) a ha)
    obtain ⟨e2, -⟩ := to_map_loop_spin0_eq libm z _ mv qb qo sv hna1
    refine ⟨_, _, to_map_spin0_ok libm z mem mv qb qo sv hmv h0 hqb hqo hsv,
      to_map_spin0_ok libm z _ mv qb qo sv hmv h0 hqb hqo hsv, ?_⟩
    intro a ha
    rw [e2, forwardSum0_congr libm z _ mem mv qb qo sv ag1, e1]
    simp only [Pi.add_apply, hzero a ha]
    ring
  · intro h0 hna
    obtain ⟨e1, ag1⟩ := to_map_loop_spin2_eq libm z mem mv qb qo sv hna
    have hna1 : ∀ a, ForwardCell libm z
        (ProjectionEngine.to_map_loop libm spin2 (⟨⟨mv⟩, ⟨sv⟩⟩ : AccumulatorSpin2) (z.Init ⟨mv⟩)
          ((PointerFlat.new : PointerFlat F).Init ⟨qb⟩ ⟨qo⟩) (qo.shapeAt 0) (qb.shapeAt 0) mem)
        3 mv qb qo a → ¬ PointingCell qb qo a ∧ ¬ SignalCell sv qb qo a :=
      fun a ha => hna a (ForwardCell_congr libm z _ mem 3 mv qb qo
        (ag1.mono (fun a ha => Or.inl ha)) a ha)
    obtain ⟨e2, -⟩ := to_map_loop_spin2_eq libm z _ mv qb qo sv hna1
    refine ⟨_, _, to_map_spin2_ok libm z mem mv qb qo sv hmv h0 hqb hqo hsv,
      to_map_spin2_ok libm z _ mv qb qo sv hmv h0 hqb hqo hsv, ?_⟩
    intro a ha
    rw [e2, forwardSum2_congr libm z _ mem mv qb qo sv ag1, e1]
    simp only [Pi.add_apply, hzero a ha]
    ring

/-- Witness for `to_map_twice_doubles`: scenario S1 with the real cosine and sine, for
the spin-0 engine on the `(1, 4, 4)` map and for the spin-2 engine on a `(3, 4, 4)` map. -/
theorem to_map_twice_doubles_witness :
    (∃ m1 m2,
      ProjectionEngine.to_map (⟨Real.cos, Real.sin⟩ : Libm ℝ) spin0 S1.pixelizor S1.mem
        (.array S1.mapv) (.array S1.qbore) (.array S1.qofs) (.array S1.signalv) PyObject.none
        = .ok (.array S1.mapv, m1) ∧
      ProjectionEngine.to_map (⟨Real.cos, Real.sin⟩ : Libm ℝ) spin0 S1.pixelizor m1
        (.array S1.mapv) (.array S1.qbore) (.array S1.qofs) (.array S1.signalv) PyObject.none
        = .ok (.array S1.mapv, m2) ∧
      ∀ a, ArrayCell3 S1.mapv a → m2 a = 2 * m1 a) ∧
    (∃ m1 m2,
      ProjectionEngine.to_map (⟨Real.cos, Real.sin⟩ : Libm ℝ) spin2 S1.pixelizor S1.mem
        (.array S1.mapv3) (.array S1.qbore) (.array S1.qofs) (.array S1.signalv) PyObject.none
        = .ok (.array S1.mapv3, m1) ∧
      ProjectionEngine.to_map (⟨Real.cos, Real.sin⟩ : Libm ℝ) spin2 S1.pixelizor m1
        (.array S1.mapv3) (.array S1.qbore) (.array S1.qofs) (.array S1.signalv) PyObject.none
        = .ok (.array S1.mapv3, m2) ∧
      ∀ a, ArrayCell3 S1.mapv3 a → m2 a = 2 * m1 a) :=
  ⟨(to_map_twice_doubles (⟨Real.cos, Real.sin⟩ : Libm ℝ) S1.pixelizor S1.mem S1.mapv S1.qbore
      S1.qofs S1.signalv rfl rfl rfl rfl
      (fun a ha => S1_mem_zero a (S1_mapv_cell a ha).1 (S1_mapv_cell a ha).2)).1 rfl
      (fun a ha =>
        have hlt := S1_ForwardCell_lt (⟨Real.cos, Real.sin⟩ : Libm ℝ) S1.mem 1 (by decide) S1.mapv
          rfl rfl rfl rfl (by simp [S1.mem]) (by simp [S1.mem]) (by simp [S1.mem])
          (by simp [S1.mem]) a ha
        ⟨S1_not_PointingCell a hlt, S1_not_SignalCell a hlt⟩),
   (to_map_twice_doubles (⟨Real.cos, Real.sin⟩ : Libm ℝ) S1.pixelizor S1.mem S1.mapv3 S1.qbore
      S1.qofs S1.signalv rfl rfl rfl rfl
      (fun a ha => S1_mem_zero a (S1_mapv3_cell a ha).1 (S1_mapv3_cell a ha).2)).2 rfl
      (fun a ha =>
        have hlt := S1_ForwardCell_lt (⟨Real.cos, Real.sin⟩ : Libm ℝ) S1.mem 3 (by decide) S1.mapv3
          rfl rfl rfl rfl (by simp [S1.mem]) (by simp [S1.mem]) (by simp [S1.mem])
          (by simp [S1.mem]) a ha
        ⟨S1_not_PointingCell a hlt, S1_not_SignalCell a hlt⟩)⟩

/-- C9 (counterexample). In binary64 arithmetic (round to nearest, ties to even), with two
samples of signal `1` and `2^-52` on the pixel `[1, 1]` of a zeroed `(1, 4, 4)` map: one call
of spin-0 `to_map` leaves `map[0, 1, 1] = 1 + 2^-52`, a second call leaves
`map[0, 1, 1] = 2`, which is not `2 * (1 + 2^-52)`. -/
theorem to_map_twice_rounded :
    (∀ iy ix : Fin 4, (S5.mem : Mem ℝ) (S1.mapv.at3 0 (iy : Nat) (ix : Nat)) = 0) ∧
    ∃ m1 m2,
      @ProjectionEngine.to_map ℝ _ _ binary64 (⟨Real.cos, Real.sin⟩ : Libm ℝ)
        (@spin0 ℝ _ binary64) S1.pixelizor S5.mem
        (.array S1.mapv) (.array S5.qbore) (.array S1.qofs) (.array S5.signalv) PyObject.none
        = .ok (.array S1.mapv, m1) ∧
      @ProjectionEngine.to_map ℝ _ _ binary64 (⟨Real.cos, Real.sin⟩ : Libm ℝ)
        (@spin0 ℝ _ binary64) S1.pixelizor m1
        (.array S1.mapv) (.array S5.qbore) (.array S1.qofs) (.array S5.signalv) PyObject.none
        = .ok (.array S1.mapv, m2) ∧
      m1 (S1.mapv.at3 0 1 1) = 1 + 1 / 4503599627370496 ∧
      m2 (S1.mapv.at3 0 1 1) = 2 ∧
      m2 (S1.mapv.at3 0 1 1) ≠ 2 * m1 (S1.mapv.at3 0 1 1) := by
  have r1 : roundDouble (1 : ℝ) = 1 := rd_one
  have ru : roundDouble ((1 : ℝ) + 1 / 4503599627370496) = 1 + 1 / 4503599627370496 := rd_one_ulp
  have rt : roundDouble ((2 : ℝ) + 1 / 4503599627370496) = 2 := rd_two_half_ulp
  have e40 : S1.mapv.at3 0 1 1 = 40 := rfl
  have h1 := S5_call S5.mem (by simp [S5.mem]) (by simp [S5.mem]) (by simp [S5.mem])
    (by simp [S5.mem]) (by simp [S5.mem]) (by simp [S5.mem]) (by simp [S5.mem])
    (by simp [S5.mem]) (by simp [S5.mem]) (by simp [S5.mem]) (by simp [S5.mem])
  have v1 : roundDouble (roundDouble ((S5.mem : Mem ℝ) 40 + S5.mem 3000) + S5.mem 3008)
      = 1 + 1 / 4503599627370496 := by
    have a : (S5.mem : Mem ℝ) 40 = 0 := by simp [S5.mem]
    have b : (S5.mem : Mem ℝ) 3000 = 1 := by simp [S5.mem]
    have c : (S5.mem : Mem ℝ) 3008 = 1 / 4503599627370496 := by simp [S5.mem]
    rw [a, b, c, zero_add, r1, ru]
  rw [v1] at h1
  have h2 := S5_call (Function.update S5.mem 40 (1 + 1 / 4503599627370496))
    (by simp [S5.mem, Function.update]) (by simp [S5.mem, Function.update])
    (by simp [S5.mem, Function.update]) (by simp [S5.mem, Function.update])
    (by simp [S5.mem, Function.update]) (by simp [S5.mem, Function.update])
    (by simp [S5.mem, Function.update]) (by simp [S5.mem, Function.update])
    (by simp [S5.mem, Function.update]) (by simp [S5.mem, Function.update])
    (by simp [S5.mem, Function.update])
  have v2 : roundDouble (roundDouble
      ((Function.update (S5.mem : Mem ℝ) 40 (1 + 1 / 4503599627370496)) 40
        + (Function.update (S5.mem : Mem ℝ) 40 (1 + 1 / 4503599627370496)) 3000)
      + (Function.update (S5.mem : Mem ℝ) 40 (1 + 1 / 4503599627370496)) 3008) = 2 := by
    have a : (Function.update (S5.mem : Mem ℝ) 40 (1 + 1 / 4503599627370496)) 40
        = 1 + 1 / 4503599627370496 := by simp
    have b : (Function.update (S5.mem : Mem ℝ) 40 (1 + 1 / 4503599627370496)) 3000 = 1 := by
      simp [S5.mem, Function.update]
    have c : (Function.update (S5.mem : Mem ℝ) 40 (1 + 1 / 4503599627370496)) 3008
        = 1 / 4503599627370496 := by simp [S5.mem, Function.update]
    rw [a, b, c, show (1 : ℝ) + 1 / 4503599627370496 + 1 = 2 + 1 / 4503599627370496 by ring,
      rt, rt]
  rw [v2] at h2
  refine ⟨?_, _, _, h1, h2, ?_, ?_, ?_⟩
  · intro iy ix
    fin_cases iy <;> fin_cases ix <;>
      simp [S5.mem, S1.mapv, Py_buffer.at3, Py_buffer.stride]
  · rw [e40]; simp
  · rw [e40]; simp
  · rw [e40]; simp

end Accumulation

section Adjointness

variable {F : Type} [LinearOrderedField F] [FloorRing F]

/-- C10. Spin-0 forward/reverse adjointness, in exact arithmetic: for a contiguous map of
shape `(1, n_y, n_x)` (the grid of the pixelizor) and a contiguous signal of shape
`(1, n_det, n_time)`, map, signal and pointing arrays pairwise non-overlapping, let `memS`
hold the signal `s` and a zero map, and `memM` hold the map `M`, a zero signal and the
same pointing.  Then `to_map` on `memS` and `from_map` on `memM` both return, and the sum
over pixels of `to_map(0, s) * M` equals the sum over samples of `s * from_map(M, 0)`. -/
theorem spin0_forward_reverse_adjoint (libm : Libm F) (z : Pixelizor F) (memS memM : Mem F)
    (mv qb qo sv : Py_buffer) (hms : mv.shape = [1, z.naxis 0, z.naxis 1])
    (hmc : mv.CContiguous) (hqb : qb.ndim = 2) (hqo : qo.ndim = 2)
    (hss : sv.shape = [1, qo.shapeAt 0, qb.shapeAt 0]) (hsc : sv.CContiguous)
    (hna_ms : ∀ a, ArrayCell3 mv a → ¬ SignalCell sv qb qo a)
    (hna_mp : ∀ a, ArrayCell3 mv a → ¬ PointingCell qb qo a)
    (hna_sp : ∀ a, SignalCell sv qb qo a → ¬ PointingCell qb qo a)
    (hpoint : AgreeOn (PointingCell qb qo) memS memM)
    (hzeroM : ∀ a, ArrayCell3 mv a → memS a = 0)
    (hzeroS : ∀ a, SignalCell sv qb qo a → memM a = 0) :
    ∃ mA mB,
      ProjectionEngine.to_map libm spin0 z memS (.array mv) (.array qb) (.array qo) (.array sv)
        PyObject.none = .ok (.array mv, mA) ∧
      ProjectionEngine.from_map libm spin0 z memM (.array mv) (.array qb) (.array qo)
        (.array sv) PyObject.none = .ok (.array mv, mB) ∧
      ∑ iy in Finset.range (z.naxis 0).toNat, ∑ ix in Finset.range (z.naxis 1).toNat,
          mA (mv.at3 0 iy ix) * memM (mv.at3 0 iy ix)
        = ∑ d in Finset.range (qo.shapeAt 0).toNat, ∑ t in Finset.range (qb.shapeAt 0).toNat,
          memS (sv.at3 0 d t) * mB (sv.at3 0 d t) := by
  obtain ⟨hmn, hm0, hm1, hm2⟩ := shape3_ndim mv _ _ _ hms
  obtain ⟨hsn, -, -, -⟩ := shape3_ndim sv _ _ _ hss
  have hA := (to_map_loop_spin0_eq libm z memS mv qb qo sv (fun a ha =>
    ⟨hna_mp a (ForwardCell_one_subset libm z memS mv qb qo hms hmc a ha),
      hna_ms a (ForwardCell_one_subset libm z memS mv qb qo hms hmc a ha)⟩)).1
  have hB := from_map_loop_spin0_eq libm z memM mv qb qo sv (fun a ha =>
    ⟨hna_sp a ha, fun hf =>
      hna_ms a (ForwardCell_one_subset libm z memM mv qb qo hms hmc a hf) ha⟩)
  refine ⟨_, _, to_map_spin0_ok libm z memS mv qb qo sv hmn hm0 hqb hqo hsn,
    from_map_spin0_ok libm z memM mv qb qo sv hmn hm0 hqb hqo hsn, ?_⟩
  rw [hA, hB]
  have hL : ∑ iy in Finset.range (z.naxis 0).toNat, ∑ ix in Finset.range (z.naxis 1).toNat,
      (memS + forwardSum0 libm z memS mv qb qo sv) (mv.at3 0 iy ix) * memM (mv.at3 0 iy ix)
      = ∑ d in Finset.range (qo.shapeAt 0).toNat, ∑ t in Finset.range (qb.shapeAt 0).toNat,
        memS (signalAddr sv d t) *
          (if samplePixel libm z memS mv qb qo d t < 0 then 0
            else memM (mv.buf + samplePixel libm z memS mv qb qo d t)) := by
    have h1 : ∀ iy ∈ Finset.range (z.naxis 0).toNat, ∀ ix ∈ Finset.range (z.naxis 1).toNat,
        (memS + forwardSum0 libm z memS mv qb qo sv) (mv.at3 0 iy ix) * memM (mv.at3 0 iy ix)
        = ∑ d in Finset.range (qo.shapeAt 0).toNat, ∑ t in Finset.range (qb.shapeAt 0).toNat,
          (if samplePixel libm z memS mv qb qo d t < 0 then (0 : Mem F)
            else Pi.single (mv.buf + samplePixel libm z memS mv qb qo d t)
              (memS (signalAddr sv d t))) (mv.at3 0 iy ix) * memM (mv.at3 0 iy ix) := by
      intro iy hiy ix hix
      rw [Finset.mem_range] at hiy hix
      have hcell : ArrayCell3 mv (mv.at3 0 iy ix) :=
        ⟨0, iy, ix, by rw [hm0]; norm_num, by rw [hm1]; exact Int.lt_toNat.mp hiy,
          by rw [hm2]; exact Int.lt_toNat.mp hix, by simp⟩
      rw [Pi.add_apply, hzeroM _ hcell, zero_add, forwardSum0, Finset.sum_apply, Finset.sum_mul]
      refine Finset.sum_congr rfl (fun d _ => ?_)
      rw [Finset.sum_apply, Finset.sum_mul]
    rw [Finset.sum_congr rfl (fun iy hiy => Finset.sum_congr rfl (fun ix hix => h1 iy hiy ix hix)),
      sum_comm4]
    refine Finset.sum_congr rfl (fun d _ => Finset.sum_congr rfl (fun t _ => ?_))
    exact forward_increment_pairing libm z memS memM mv qb qo hms hmc d t _
  rw [hL]
  refine Finset.sum_congr rfl (fun d hd => Finset.sum_congr rfl (fun t ht => ?_))
  rw [Finset.mem_range] at hd ht
  rw [← signalAddr_eq_at3, Pi.add_apply,
    hzeroS _ (SignalCell_signalAddr sv qb qo d t hd ht), zero_add,
    reverseSum0_at libm z memM mv qb qo sv (signal_contiguous_inj sv qb qo hss hsc) d t
      (Int.lt_toNat.mp hd) (Int.lt_toNat.mp ht),
    samplePixel_congr libm z mv qb qo memS memM hpoint d t hd ht]

/-- Witness for `spin0_forward_reverse_adjoint`: scenario S1 with the real cosine and
sine; the forward call starts from the signal `7` and a zero map, the reverse call from
`map[0, 1, 1] = 3` and a zero signal. -/
theorem spin0_forward_reverse_adjoint_witness :
    ∃ mA mB,
      ProjectionEngine.to_map (⟨Real.cos, Real.sin⟩ : Libm ℝ) spin0 S1.pixelizor S1.mem
        (.array S1.mapv) (.array S1.qbore) (.array S1.qofs) (.array S1.signalv) PyObject.none
        = .ok (.array S1.mapv, mA) ∧
      ProjectionEngine.from_map (⟨Real.cos, Real.sin⟩ : Libm ℝ) spin0 S1.pixelizor S1.memM0
        (.array S1.mapv) (.array S1.qbore) (.array S1.qofs) (.array S1.signalv) PyObject.none
        = .ok (.array S1.mapv, mB) ∧
      ∑ iy in Finset.range ((S1.pixelizor : Pixelizor ℝ).naxis 0).toNat,
        ∑ ix in Finset.range ((S1.pixelizor : Pixelizor ℝ).naxis 1).toNat,
          mA (S1.mapv.at3 0 iy ix) * S1.memM0 (S1.mapv.at3 0 iy ix)
        = ∑ d in Finset.range (S1.qofs.shapeAt 0).toNat,
          ∑ t in Finset.range (S1.qbore.shapeAt 0).toNat,
            S1.mem (S1.signalv.at3 0 d t) * mB (S1.signalv.at3 0 d t) :=
  spin0_forward_reverse_adjoint (⟨Real.cos, Real.sin⟩ : Libm ℝ) S1.pixelizor S1.mem S1.memM0
    S1.mapv S1.qbore S1.qofs S1.signalv rfl (by decide) rfl rfl rfl (by decide)
    (fun a ha => S1_not_SignalCell a (S1_mapv_cell a ha).2)
    (fun a ha => S1_not_PointingCell a (S1_mapv_cell a ha).2)
    (fun a ha => by
      obtain ⟨d, t, hd, ht, rfl⟩ := ha
      simp only [S1.qofs, S1.qbore, S1.signalv, Py_buffer.shapeAt, Py_buffer.stride,
        List.getD_cons_zero, List.getD_cons_succ, signalAddr, PointingCell] at hd ht ⊢
      rintro (⟨it, hit, h⟩ | ⟨idet, hidet, h⟩) <;> omega)
    (fun a ha => by
      have hr : 1000 ≤ a ∧ a ≤ 2016 := by
        simp only [S1.qofs, S1.qbore, Py_buffer.shapeAt, Py_buffer.stride, List.getD_cons_zero,
          List.getD_cons_succ, PointingCell] at ha
        rcases ha with ⟨it, hit, h⟩ | ⟨idet, hidet, h⟩ <;> omega
      simp only [S1.mem, S1.memM0]
      rw [if_neg (show ¬ a = 40 by omega), if_neg (show ¬ a = 3000 by omega)])
    (fun a ha => S1_mem_zero a (S1_mapv_cell a ha).1 (S1_mapv_cell a ha).2)
    (fun a ha => by
      obtain ⟨d, t, hd, ht, rfl⟩ := ha
      simp only [S1.qofs, S1.qbore, S1.signalv, Py_buffer.shapeAt, Py_buffer.stride,
        List.getD_cons_zero, List.getD_cons_succ, signalAddr] at hd ht ⊢
      have hd0 : d = 0 := by omega
      have ht0 : t = 0 := by omega
      subst hd0 ht0
      simp [S1.memM0])

end Adjointness

section AdjointnessSpin2

variable {F : Type} [LinearOrderedField F] [FloorRing F]

/-- C11. Spin-2 forward/reverse adjointness, in exact arithmetic: for a contiguous map of
shape `(3, n_y, n_x)` (the grid of the pixelizor) and a contiguous signal of shape
`(1, n_det, n_time)`, map, signal and pointing arrays pairwise non-overlapping, let `memS`
hold the signal `s` and a zero map, and `memM` hold the map `M`, a zero signal and the
same pointing.  Then `to_map` on `memS` and `from_map` on `memM` both return, and the
three-component sum over pixels of `to_map(0, s) * M` equals the sum over samples of
`s * from_map(M, 0)`. -/
theorem spin2_forward_reverse_adjoint (libm : Libm F) (z : Pixelizor F) (memS memM : Mem F)
    (mv qb qo sv : Py_buffer) (hms : mv.shape = [3, z.naxis 0, z.naxis 1])
    (hmc : mv.CContiguous) (hqb : qb.ndim = 2) (hqo : qo.ndim = 2)
    (hss : sv.shape = [1, qo.shapeAt 0, qb.shapeAt 0]) (hsc : sv.CContiguous)
    (hna_ms : ∀ a, ArrayCell3 mv a → ¬ SignalCell sv qb qo a)
    (hna_mp : ∀ a, ArrayCell3 mv a → ¬ PointingCell qb qo a)
    (hna_sp : ∀ a, SignalCell sv qb qo a → ¬ PointingCell qb qo a)
    (hpoint : AgreeOn (PointingCell qb qo) memS memM)
    (hzeroM : ∀ a, ArrayCell3 mv a → memS a = 0)
    (hzeroS : ∀ a, SignalCell sv qb qo a → memM a = 0) :
    ∃ mA mB,
      ProjectionEngine.to_map libm spin2 z memS (.array mv) (.array qb) (.array qo) (.array sv)
        PyObject.none = .ok (.array mv, mA) ∧
      ProjectionEngine.from_map libm spin2 z memM (.array mv) (.array qb) (.array qo)
        (.array sv) PyObject.none = .ok (.array mv, mB) ∧
      ∑ k in Finset.range 3, ∑ iy in Finset.range (z.naxis 0).toNat,
        ∑ ix in Finset.range (z.naxis 1).toNat,
          mA (mv.at3 k iy ix) * memM (mv.at3 k iy ix)
        = ∑ d in Finset.range (qo.shapeAt 0).toNat, ∑ t in Finset.range (qb.shapeAt 0).toNat,
          memS (sv.at3 0 d t) * mB (sv.at3 0 d t) := by
  obtain ⟨hmn, hm0, hm1, hm2⟩ := shape3_ndim mv _ _ _ hms
  obtain ⟨hsn, -, -, -⟩ := shape3_ndim sv _ _ _ hss
  have hA := (to_map_loop_spin2_eq libm z memS mv qb qo sv (fun a ha =>
    ⟨hna_mp a (ForwardCell_three_subset libm z memS mv qb qo hms hmc a ha),
      hna_ms a (ForwardCell_three_subset libm z memS mv qb qo hms hmc a ha)⟩)).1
  have hB := from_map_loop_spin2_eq libm z memM mv qb qo sv (fun a ha =>
    ⟨hna_sp a ha, fun hf =>
      hna_ms a (ForwardCell_three_subset libm z memM mv qb qo hms hmc a hf) ha⟩)
  refine ⟨_, _, to_map_spin2_ok libm z memS mv qb qo sv hmn hm0 hqb hqo hsn,
    from_map_spin2_ok libm z memM mv qb qo sv hmn hm0 hqb hqo hsn, ?_⟩
  rw [hA, hB]
  have hL : ∑ k in Finset.range 3, ∑ iy in Finset.range (z.naxis 0).toNat,
      ∑ ix in Finset.range (z.naxis 1).toNat,
        (memS + forwardSum2 libm z memS mv qb qo sv) (mv.at3 k iy ix) * memM (mv.at3 k iy ix)
      = gridPairing mv 3 (z.naxis 0).toNat (z.naxis 1).toNat memM
          (forwardSum2 libm z memS mv qb qo sv) := by
    rw [gridPairing_apply]
    refine Finset.sum_congr rfl (fun k hk => Finset.sum_congr rfl (fun iy hiy =>
      Finset.sum_congr rfl (fun ix hix => ?_)))
    rw [Finset.mem_range] at hk hiy hix
    have hcell : ArrayCell3 mv (mv.at3 k iy ix) :=
      ⟨k, iy, ix, by rw [hm0]; exact_mod_cast hk, by rw [hm1]; exact Int.lt_toNat.mp hiy,
        by rw [hm2]; exact Int.lt_toNat.mp hix, rfl⟩
    rw [Pi.add_apply, hzeroM _ hcell, zero_add]
  rw [hL, forwardSum2, map_sum]
  refine Finset.sum_congr rfl (fun d hd => ?_)
  rw [map_sum]
  refine Finset.sum_congr rfl (fun t ht => ?_)
  rw [Finset.mem_range] at hd ht
  rw [forward2_increment_pairing libm z memS memM mv qb qo hms hmc d t,
    ← signalAddr_eq_at3, Pi.add_apply,
    hzeroS _ (SignalCell_signalAddr sv qb qo d t hd ht), zero_add,
    reverseSum2_at libm z memM mv qb qo sv (signal_contiguous_inj sv qb qo hss hsc) d t
      (Int.lt_toNat.mp hd) (Int.lt_toNat.mp ht),
    samplePixel_congr libm z mv qb qo memS memM hpoint d t hd ht,
    sampleCoords_congr libm qb qo memS memM hpoint d t hd ht]


/-- Witness for `spin2_forward_reverse_adjoint`: the pointing of scenario S1 with the real
cosine and sine and a contiguous `(3, 4, 4)` map; the forward call starts from the signal
`7` and a zero map, the reverse call from `map[0, 1, 1] = 3` and a zero signal. -/
theorem spin2_forward_reverse_adjoint_witness :
    ∃ mA mB,
      ProjectionEngine.to_map (⟨Real.cos, Real.sin⟩ : Libm ℝ) spin2 S1.pixelizor S1.mem
        (.array S1.mapv3) (.array S1.qbore) (.array S1.qofs) (.array S1.signalv) PyObject.none
        = .ok (.array S1.mapv3, mA) ∧
      ProjectionEngine.from_map (⟨Real.cos, Real.sin⟩ : Libm ℝ) spin2 S1.pixelizor S1.memM0
        (.array S1.mapv3) (.array S1.qbore) (.array S1.qofs) (.array S1.signalv) PyObject.none
        = .ok (.array S1.mapv3, mB) ∧
      ∑ k in Finset.range 3,
        ∑ iy in Finset.range ((S1.pixelizor : Pixelizor ℝ).naxis 0).toNat,
        ∑ ix in Finset.range ((S1.pixelizor : Pixelizor ℝ).naxis 1).toNat,
          mA (S1.mapv3.at3 k iy ix) * S1.memM0 (S1.mapv3.at3 k iy ix)
        = ∑ d in Finset.range (S1.qofs.shapeAt 0).toNat,
          ∑ t in Finset.range (S1.qbore.shapeAt 0).toNat,
            S1.mem (S1.signalv.at3 0 d t) * mB (S1.signalv.at3 0 d t) :=
  spin2_forward_reverse_adjoint (⟨Real.cos, Real.sin⟩ : Libm ℝ) S1.pixelizor S1.mem S1.memM0
    S1.mapv3 S1.qbore S1.qofs S1.signalv rfl (by decide) rfl rfl rfl (by decide)
    (fun a ha => S1_not_SignalCell a (S1_mapv3_cell a ha).2)
    (fun a ha => S1_not_PointingCell a (S1_mapv3_cell a ha).2)
    (fun a ha => by
      obtain ⟨d, t, hd, ht, rfl⟩ := ha
      simp only [S1.qofs, S1.qbore, S1.signalv, Py_buffer.shapeAt, Py_buffer.stride,
        List.getD_cons_zero, List.getD_cons_succ, signalAddr, PointingCell] at hd ht ⊢
      rintro (⟨it, hit, h⟩ | ⟨idet, hidet, h⟩) <;> omega)
    (fun a ha => by
      have hr : 1000 ≤ a ∧ a ≤ 2016 := by
        simp only [S1.qofs, S1.qbore, Py_buffer.shapeAt, Py_buffer.stride, List.getD_cons_zero,
          List.getD_cons_succ, PointingCell] at ha
        rcases ha with ⟨it, hit, h⟩ | ⟨idet, hidet, h⟩ <;> omega
      simp only [S1.mem, S1.memM0]
      rw [if_neg (show ¬ a = 40 by omega), if_neg (show ¬ a = 3000 by omega)])
    (fun a ha => S1_mem_zero a (S1_mapv3_cell a ha).1 (S1_mapv3_cell a ha).2)
    (fun a ha => by
      obtain ⟨d, t, hd, ht, rfl⟩ := ha
      simp only [S1.qofs, S1.qbore, S1.signalv, Py_buffer.shapeAt, Py_buffer.stride,
        List.getD_cons_zero, List.getD_cons_succ, signalAddr] at hd ht ⊢
      have hd0 : d = 0 := by omega
      have ht0 : t = 0 := by omega
      subst hd0 ht0
      simp [S1.memM0])

end AdjointnessSpin2

section ForwardSpin2

variable {F : Type} [LinearOrderedField F] [FloorRing F]

/-- C12 (as amended). Spin-2 forward kernel, in any arithmetic: with `v` the signal value
of the sample and `c = coords[2]`, `s = coords[3]`, `AccumulatorSpin2::Forward` adds `v*1`,
`v*(c*c - s*s)` and `v*(2*c*s)`, as the code computes them (each operation rounded), to
the map cells at byte offsets `strides[0]*k + pix_off`, `k = 0, 1, 2` (components T, Q,
U), and changes no other cell; the component stride is not zero, so the three cells are
distinct. -/
theorem Spin2_Forward_adds_TQU [Rounding F] (a : AccumulatorSpin2) (mem : Mem F)
    (idet it pixel_offset : Int) (coords weights : Fin 4 → F)
    (hs0 : a._mapbuf.view.stride 0 ≠ 0) :
    (a.Forward mem idet it pixel_offset coords weights)
        (a._mapbuf.view.buf + a._mapbuf.view.stride 0 * 0 + pixel_offset)
      = rnd (mem (a._mapbuf.view.buf + a._mapbuf.view.stride 0 * 0 + pixel_offset)
        + rnd (mem (a._signalbuf.view.buf + a._signalbuf.view.stride 1 * idet
            + a._signalbuf.view.stride 2 * it) * 1)) ∧
    (a.Forward mem idet it pixel_offset coords weights)
        (a._mapbuf.view.buf + a._mapbuf.view.stride 0 * 1 + pixel_offset)
      = rnd (mem (a._mapbuf.view.buf + a._mapbuf.view.stride 0 * 1 + pixel_offset)
        + rnd (mem (a._signalbuf.view.buf + a._signalbuf.view.stride 1 * idet
            + a._signalbuf.view.stride 2 * it)
          * rnd (rnd (coords 2 * coords 2) - rnd (coords 3 * coords 3)))) ∧
    (a.Forward mem idet it pixel_offset coords weights)
        (a._mapbuf.view.buf + a._mapbuf.view.stride 0 * 2 + pixel_offset)
      = rnd (mem (a._mapbuf.view.buf + a._mapbuf.view.stride 0 * 2 + pixel_offset)
        + rnd (mem (a._signalbuf.view.buf + a._signalbuf.view.stride 1 * idet
            + a._signalbuf.view.stride 2 * it) * rnd (rnd (2 * coords 2) * coords 3))) ∧
    ∀ x : Int,
      x ≠ a._mapbuf.view.buf + a._mapbuf.view.stride 0 * 0 + pixel_offset →
      x ≠ a._mapbuf.view.buf + a._mapbuf.view.stride 0 * 1 + pixel_offset →
      x ≠ a._mapbuf.view.buf + a._mapbuf.view.stride 0 * 2 + pixel_offset →
      (a.Forward mem idet it pixel_offset coords weights) x = mem x := by
  exact Spin2_Forward_at a mem idet it pixel_offset coords weights hs0

/-- Witness for `Spin2_Forward_adds_TQU`, scenario S3 in exact arithmetic
(`c = s = cos(pi/4)`, signal `1`, zero `(3, 1, 1)` map, real cosine and sine): `to_map`
returns with `map[0,0,0] = 1`, `map[1,0,0] = 0` and `map[2,0,0] = 1`. -/
theorem S3_to_map_TQU :
    ∃ m, ProjectionEngine.to_map (⟨Real.cos, Real.sin⟩ : Libm ℝ) spin2 S3.pixelizor
        (S3.mem (Real.cos (Real.pi / 4)) (Real.sin (Real.pi / 4)))
        (.array S3.mapv) (.array S1.qbore) (.array S1.qofs) (.array S1.signalv) PyObject.none
        = .ok (.array S3.mapv, m) ∧
      m (S3.mapv.at3 0 0 0) = 1 ∧ m (S3.mapv.at3 1 0 0) = 0 ∧ m (S3.mapv.at3 2 0 0) = 1 := by
  refine ⟨_, to_map_spin2_ok _ _ _ _ _ _ _ rfl rfl rfl rfl rfl, ?_⟩
  obtain ⟨-, hp⟩ := S3_sample (⟨Real.cos, Real.sin⟩ : Libm ℝ) (Real.cos (Real.pi / 4))
    (Real.sin (Real.pi / 4))
  have hloop : ProjectionEngine.to_map_loop (⟨Real.cos, Real.sin⟩ : Libm ℝ) spin2
      (⟨⟨S3.mapv⟩, ⟨S1.signalv⟩⟩ : AccumulatorSpin2) ((S3.pixelizor : Pixelizor ℝ).Init ⟨S3.mapv⟩)
      ((PointerFlat.new : PointerFlat ℝ).Init ⟨S1.qbore⟩ ⟨S1.qofs⟩) (S1.qofs.shapeAt 0)
      (S1.qbore.shapeAt 0) (S3.mem (Real.cos (Real.pi / 4)) (Real.sin (Real.pi / 4)))
      = (if samplePixel (⟨Real.cos, Real.sin⟩ : Libm ℝ) (S3.pixelizor : Pixelizor ℝ)
            (S3.mem (Real.cos (Real.pi / 4)) (Real.sin (Real.pi / 4))) S3.mapv S1.qbore S1.qofs
            0 0 < 0
          then S3.mem (Real.cos (Real.pi / 4)) (Real.sin (Real.pi / 4))
          else AccumulatorSpin2.Forward (⟨⟨S3.mapv⟩, ⟨S1.signalv⟩⟩ : AccumulatorSpin2)
            (S3.mem (Real.cos (Real.pi / 4)) (Real.sin (Real.pi / 4))) ((0 : Nat) : Int)
            ((0 : Nat) : Int)
            (samplePixel (⟨Real.cos, Real.sin⟩ : Libm ℝ) (S3.pixelizor : Pixelizor ℝ)
              (S3.mem (Real.cos (Real.pi / 4)) (Real.sin (Real.pi / 4))) S3.mapv S1.qbore S1.qofs
              0 0)
            (sampleCoords (⟨Real.cos, Real.sin⟩ : Libm ℝ)
              (S3.mem (Real.cos (Real.pi / 4)) (Real.sin (Real.pi / 4))) S1.qbore S1.qofs 0 0)
            weights0) := rfl
  rw [hloop, hp, if_neg (by norm_num)]
  obtain ⟨h0, h1, h2, -⟩ := Spin2_Forward_adds_TQU (⟨⟨S3.mapv⟩, ⟨S1.signalv⟩⟩ : AccumulatorSpin2)
    (S3.mem (Real.cos (Real.pi / 4)) (Real.sin (Real.pi / 4))) ((0 : Nat) : Int) ((0 : Nat) : Int)
    0 (sampleCoords (⟨Real.cos, Real.sin⟩ : Libm ℝ)
      (S3.mem (Real.cos (Real.pi / 4)) (Real.sin (Real.pi / 4))) S1.qbore S1.qofs 0 0) weights0
    (by decide)
  have hc2 : sampleCoords (⟨Real.cos, Real.sin⟩ : Libm ℝ)
      (S3.mem (Real.cos (Real.pi / 4)) (Real.sin (Real.pi / 4))) S1.qbore S1.qofs 0 0 2
      = Real.sqrt 2 / 2 := by
    rw [sampleCoords_eq]
    simp [Py_buffer.at2, Py_buffer.stride, S1.qbore, S1.qofs, S3.mem]
  have hc3 : sampleCoords (⟨Real.cos, Real.sin⟩ : Libm ℝ)
      (S3.mem (Real.cos (Real.pi / 4)) (Real.sin (Real.pi / 4))) S1.qbore S1.qofs 0 0 3
      = Real.sqrt 2 / 2 := by
    rw [sampleCoords_eq]
    simp [Py_buffer.at2, Py_buffer.stride, S1.qbore, S1.qofs, S3.mem]
  have hsq : Real.sqrt 2 * Real.sqrt 2 = 2 := Real.mul_self_sqrt (by norm_num)
  rw [hc2, hc3] at h1 h2
  refine ⟨?_, ?_, ?_⟩
  · have e : S3.mapv.at3 0 0 0 = (⟨⟨S3.mapv⟩, ⟨S1.signalv⟩⟩ : AccumulatorSpin2)._mapbuf.view.buf
        + (⟨⟨S3.mapv⟩, ⟨S1.signalv⟩⟩ : AccumulatorSpin2)._mapbuf.view.stride 0 * 0 + 0 := by
      simp [Py_buffer.at3]
    rw [e, h0]
    simp [S3.mem, S3.mapv, S1.signalv, Py_buffer.stride]
  · have e : S3.mapv.at3 1 0 0 = (⟨⟨S3.mapv⟩, ⟨S1.signalv⟩⟩ : AccumulatorSpin2)._mapbuf.view.buf
        + (⟨⟨S3.mapv⟩, ⟨S1.signalv⟩⟩ : AccumulatorSpin2)._mapbuf.view.stride 0 * 1 + 0 := by
      simp [Py_buffer.at3]
    rw [e, h1]
    simp [S3.mem, S3.mapv, S1.signalv, Py_buffer.stride]
  · have e : S3.mapv.at3 2 0 0 = (⟨⟨S3.mapv⟩, ⟨S1.signalv⟩⟩ : AccumulatorSpin2)._mapbuf.view.buf
        + (⟨⟨S3.mapv⟩, ⟨S1.signalv⟩⟩ : AccumulatorSpin2)._mapbuf.view.stride 0 * 2 + 0 := by
      simp [Py_buffer.at3]
    rw [e, h2]
    simp [S3.mem, S3.mapv, S1.signalv, Py_buffer.stride]
    nlinarith [hsq]


/-- C12 (counterexample). Scenario S3 in binary64 arithmetic. With the boresight pair that
`cos` and `sin` give at the double nearest to `pi/4` (`c = 0x3FE6A09E667F3BCD`,
`s = 0x3FE6A09E667F3BCC`), spin-2 `to_map` leaves `map[1,0,0] = 2^-52`, not `0`. With
`c = s`, both the double nearest to `cos(pi/4)`, it leaves `map[2,0,0] = 1 + 2^-52`, not
`1`. -/
theorem S3_to_map_rounded :
    (∃ m, @ProjectionEngine.to_map ℝ _ _ binary64 (⟨Real.cos, Real.sin⟩ : Libm ℝ)
        (@spin2 ℝ _ binary64) S3.pixelizor (S3.mem S3.cosDouble S3.sinDouble)
        (.array S3.mapv) (.array S1.qbore) (.array S1.qofs) (.array S1.signalv) PyObject.none
        = .ok (.array S3.mapv, m) ∧
      m (S3.mapv.at3 0 0 0) = 1 ∧ m (S3.mapv.at3 1 0 0) = 1 / 4503599627370496 ∧
      m (S3.mapv.at3 2 0 0) = 1) ∧
    (∃ m, @ProjectionEngine.to_map ℝ _ _ binary64 (⟨Real.cos, Real.sin⟩ : Libm ℝ)
        (@spin2 ℝ _ binary64) S3.pixelizor (S3.mem S3.cosDouble S3.cosDouble)
        (.array S3.mapv) (.array S1.qbore) (.array S1.qofs) (.array S1.signalv) PyObject.none
        = .ok (.array S3.mapv, m) ∧
      m (S3.mapv.at3 0 0 0) = 1 ∧ m (S3.mapv.at3 1 0 0) = 0 ∧
      m (S3.mapv.at3 2 0 0) = 1 + 1 / 4503599627370496) := by
  have r0 : roundDouble (0 : ℝ) = 0 := roundDouble_zero
  have r1 : roundDouble (1 : ℝ) = 1 := rd_one
  have rc : roundDouble (S3.cosDouble : ℝ) = S3.cosDouble :=
    roundDouble_exact _ (-1) 6369051672525773 (by rw [abs_of_pos] <;> norm_num [S3.cosDouble])
      (by rw [abs_of_pos] <;> norm_num [S3.cosDouble]) (by norm_num [S3.cosDouble])
  have rs : roundDouble (S3.sinDouble : ℝ) = S3.sinDouble :=
    roundDouble_exact _ (-1) 6369051672525772 (by rw [abs_of_pos] <;> norm_num [S3.sinDouble])
      (by rw [abs_of_pos] <;> norm_num [S3.sinDouble]) (by norm_num [S3.sinDouble])
  have rcc : roundDouble ((S3.cosDouble : ℝ) * S3.cosDouble)
      = 4503599627370497 / 9007199254740992 := by
    rw [roundDouble_up _ (-1) 4503599627370496
      (by rw [abs_of_pos] <;> norm_num [S3.cosDouble])
      (by rw [abs_of_pos] <;> norm_num [S3.cosDouble]) (by norm_num [S3.cosDouble])
      (by norm_num [S3.cosDouble])]
    norm_num
  have rss : roundDouble ((S3.sinDouble : ℝ) * S3.sinDouble)
      = 4503599627370495 / 9007199254740992 := by
    rw [roundDouble_down _ (-2) 9007199254740990
      (by rw [abs_of_pos] <;> norm_num [S3.sinDouble])
      (by rw [abs_of_pos] <;> norm_num [S3.sinDouble]) (by norm_num [S3.sinDouble])
      (by norm_num [S3.sinDouble])]
    norm_num
  have rq : roundDouble ((4503599627370497 : ℝ) / 9007199254740992
      - 4503599627370495 / 9007199254740992) = 1 / 4503599627370496 := by
    rw [roundDouble_exact _ (-52) 4503599627370496 (by rw [abs_of_pos] <;> norm_num)
      (by rw [abs_of_pos] <;> norm_num) (by norm_num)]
    norm_num
  have ru : roundDouble ((1 : ℝ) / 4503599627370496) = 1 / 4503599627370496 :=
    roundDouble_exact _ (-52) 4503599627370496 (by rw [abs_of_pos] <;> norm_num)
      (by rw [abs_of_pos] <;> norm_num) (by norm_num)
  have r2c : roundDouble (2 * (S3.cosDouble : ℝ)) = 2 * S3.cosDouble :=
    roundDouble_exact _ 0 6369051672525773 (by rw [abs_of_pos] <;> norm_num [S3.cosDouble])
      (by rw [abs_of_pos] <;> norm_num [S3.cosDouble]) (by norm_num [S3.cosDouble])
  have rcs : roundDouble (2 * (S3.cosDouble : ℝ) * S3.sinDouble) = 1 := by
    rw [roundDouble_up _ (-1) 9007199254740991
      (by rw [abs_of_pos] <;> norm_num [S3.cosDouble, S3.sinDouble])
      (by rw [abs_of_pos] <;> norm_num [S3.cosDouble, S3.sinDouble])
      (by norm_num [S3.cosDouble, S3.sinDouble]) (by norm_num [S3.cosDouble, S3.sinDouble])]
    norm_num
  have rcc2 : roundDouble (2 * (S3.cosDouble : ℝ) * S3.cosDouble)
      = 1 + 1 / 4503599627370496 := by
    rw [roundDouble_up _ 0 4503599627370496
      (by rw [abs_of_pos] <;> norm_num [S3.cosDouble])
      (by rw [abs_of_pos] <;> norm_num [S3.cosDouble]) (by norm_num [S3.cosDouble])
      (by norm_num [S3.cosDouble])]
    norm_num
  have r1u : roundDouble ((1 : ℝ) + 1 / 4503599627370496) = 1 + 1 / 4503599627370496 :=
    rd_one_ulp
  have ru' : roundDouble ((4503599627370496 : ℝ)⁻¹) = 4503599627370496⁻¹ := by
    rw [← one_div]; exact ru
  have r1u' : roundDouble ((1 : ℝ) + 4503599627370496⁻¹) = 1 + 4503599627370496⁻¹ := by
    rw [← one_div]; exact r1u
  have hs0 : (⟨⟨S3.mapv⟩, ⟨S1.signalv⟩⟩ : AccumulatorSpin2)._mapbuf.view.stride 0 ≠ 0 := by
    decide
  have e0 : S3.mapv.at3 0 0 0 = (⟨⟨S3.mapv⟩, ⟨S1.signalv⟩⟩ : AccumulatorSpin2)._mapbuf.view.buf
      + (⟨⟨S3.mapv⟩, ⟨S1.signalv⟩⟩ : AccumulatorSpin2)._mapbuf.view.stride 0 * 0 + 0 := by
    simp [Py_buffer.at3]
  have e1 : S3.mapv.at3 1 0 0 = (⟨⟨S3.mapv⟩, ⟨S1.signalv⟩⟩ : AccumulatorSpin2)._mapbuf.view.buf
      + (⟨⟨S3.mapv⟩, ⟨S1.signalv⟩⟩ : AccumulatorSpin2)._mapbuf.view.stride 0 * 1 + 0 := by
    simp [Py_buffer.at3]
  have e2 : S3.mapv.at3 2 0 0 = (⟨⟨S3.mapv⟩, ⟨S1.signalv⟩⟩ : AccumulatorSpin2)._mapbuf.view.buf
      + (⟨⟨S3.mapv⟩, ⟨S1.signalv⟩⟩ : AccumulatorSpin2)._mapbuf.view.stride 0 * 2 + 0 := by
    simp [Py_buffer.at3]
  constructor
  · refine ⟨_, S3_call_binary64 _ _ rc rs, ?_, ?_, ?_⟩
    · obtain ⟨h0, -, -, -⟩ := @Spin2_Forward_at ℝ _ _ binary64
        (⟨⟨S3.mapv⟩, ⟨S1.signalv⟩⟩ : AccumulatorSpin2) (S3.mem S3.cosDouble S3.sinDouble)
        ((0 : Nat) : Int) ((0 : Nat) : Int) 0 ![0, 0, S3.cosDouble, S3.sinDouble] weights0 hs0
      rw [e0, h0]
      simp [S3.mem, S3.mapv, S1.signalv, Py_buffer.stride, binary64_rnd, r1]
    · obtain ⟨-, h1, -, -⟩ := @Spin2_Forward_at ℝ _ _ binary64
        (⟨⟨S3.mapv⟩, ⟨S1.signalv⟩⟩ : AccumulatorSpin2) (S3.mem S3.cosDouble S3.sinDouble)
        ((0 : Nat) : Int) ((0 : Nat) : Int) 0 ![0, 0, S3.cosDouble, S3.sinDouble] weights0 hs0
      rw [e1, h1]
      simp [S3.mem, S3.mapv, S1.signalv, Py_buffer.stride, binary64_rnd, rcc, rss, rq, ru, ru']
    · obtain ⟨-, -, h2, -⟩ := @Spin2_Forward_at ℝ _ _ binary64
        (⟨⟨S3.mapv⟩, ⟨S1.signalv⟩⟩ : AccumulatorSpin2) (S3.mem S3.cosDouble S3.sinDouble)
        ((0 : Nat) : Int) ((0 : Nat) : Int) 0 ![0, 0, S3.cosDouble, S3.sinDouble] weights0 hs0
      rw [e2, h2]
      simp [S3.mem, S3.mapv, S1.signalv, Py_buffer.stride, binary64_rnd, r2c, rcs, r1]
  · refine ⟨_, S3_call_binary64 _ _ rc rc, ?_, ?_, ?_⟩
    · obtain ⟨h0, -, -, -⟩ := @Spin2_Forward_at ℝ _ _ binary64
        (⟨⟨S3.mapv⟩, ⟨S1.signalv⟩⟩ : AccumulatorSpin2) (S3.mem S3.cosDouble S3.cosDouble)
        ((0 : Nat) : Int) ((0 : Nat) : Int) 0 ![0, 0, S3.cosDouble, S3.cosDouble] weights0 hs0
      rw [e0, h0]
      simp [S3.mem, S3.mapv, S1.signalv, Py_buffer.stride, binary64_rnd, r1]
    · obtain ⟨-, h1, -, -⟩ := @Spin2_Forward_at ℝ _ _ binary64
        (⟨⟨S3.mapv⟩, ⟨S1.signalv⟩⟩ : AccumulatorSpin2) (S3.mem S3.cosDouble S3.cosDouble)
        ((0 : Nat) : Int) ((0 : Nat) : Int) 0 ![0, 0, S3.cosDouble, S3.cosDouble] weights0 hs0
      rw [e1, h1]
      simp [S3.mem, S3.mapv, S1.signalv, Py_buffer.stride, binary64_rnd, rcc, r0]
    · obtain ⟨-, -, h2, -⟩ := @Spin2_Forward_at ℝ _ _ binary64
        (⟨⟨S3.mapv⟩, ⟨S1.signalv⟩⟩ : AccumulatorSpin2) (S3.mem S3.cosDouble S3.cosDouble)
        ((0 : Nat) : Int) ((0 : Nat) : Int) 0 ![0, 0, S3.cosDouble, S3.cosDouble] weights0 hs0
      rw [e2, h2]
      simp [S3.mem, S3.mapv, S1.signalv, Py_buffer.stride, binary64_rnd, r2c, rcc2, r1u, r1u']

end ForwardSpin2

section AngleComposition

end AngleComposition

section SignalAxis

/-- C14 (the code at a failing input). With a signal of shape `(2, 1, 1)` and all other
arguments those of scenario S1, spin-0 `to_map` does not throw: it returns and has added
the signal to `map[0, 1, 1]` (from `0` to `7`); spin-0 `from_map` does not throw either:
it returns and has added `map[0, 1, 1] = 3` to the signal sample (from `7` to `10`). -/
theorem to_map_from_map_accept_nsig_two :
    (∃ m, ProjectionEngine.to_map (⟨Real.cos, Real.sin⟩ : Libm ℝ) spin0 S1.pixelizor S1.mem
        (.array S1.mapv) (.array S1.qbore) (.array S1.qofs) (.array S1.signalv2) PyObject.none
        = .ok (.array S1.mapv, m) ∧
      S1.signalv2.shapeAt 0 = 2 ∧
      (S1.mem : Mem ℝ) (S1.mapv.at3 0 1 1) = 0 ∧ m (S1.mapv.at3 0 1 1) = 7) ∧
    (∃ m, ProjectionEngine.from_map (⟨Real.cos, Real.sin⟩ : Libm ℝ) spin0 S1.pixelizor S1.memM
        (.array S1.mapv) (.array S1.qbore) (.array S1.qofs) (.array S1.signalv2) PyObject.none
        = .ok (.array S1.mapv, m) ∧
      (S1.memM : Mem ℝ) (S1.signalv2.at3 0 0 0) = 7 ∧ m (S1.signalv2.at3 0 0 0) = 10) := by
  constructor
  · refine ⟨_, to_map_spin0_ok _ _ _ _ _ _ _ rfl rfl rfl rfl rfl, rfl, ?_, ?_⟩
    · simp [S1.mem, S1.mapv, Py_buffer.at3, Py_buffer.stride]
    · simp [ProjectionEngine.to_map_loop, List.range_succ, PointerFlat.InitPerDet,
        PointerFlat.Init, PointerFlat.new, PointerFlat.GetCoords, Pixelizor.GetPixel, wrapInt32,
        Pixelizor.Init, Pixelizor.new, Py_buffer.stride, Py_buffer.shapeAt, S1.mem, S1.mapv,
        S1.qbore, S1.qofs, S1.signalv2, S1.pixelizor, Py_buffer.at3, spin0,
        AccumulatorSpin0.Forward, truncInt]
      norm_num [Function.update, S1.mem]
  · refine ⟨_, from_map_spin0_ok _ _ _ _ _ _ _ rfl rfl rfl rfl rfl, ?_, ?_⟩
    · simp [S1.memM, S1.signalv2, Py_buffer.at3, Py_buffer.stride]
    · simp [ProjectionEngine.from_map_loop, List.range_succ, PointerFlat.InitPerDet,
        PointerFlat.Init, PointerFlat.new, PointerFlat.GetCoords, Pixelizor.GetPixel, wrapInt32,
        Pixelizor.Init, Pixelizor.new, Py_buffer.stride, Py_buffer.shapeAt, S1.memM, S1.mapv,
        S1.qbore, S1.qofs, S1.signalv2, S1.pixelizor, Py_buffer.at3, spin0,
        AccumulatorSpin0.Reverse, truncInt]
      norm_num [Function.update, S1.memM]

end SignalAxis

section Validation

variable {F : Type} [LinearOrderedField F] [FloorRing F]

/-- C15 (the code at a failing input). A boresight array of shape `(1, 2)`, with two
coordinates per row instead of four, is accepted: with the other arguments of scenario
S1, spin-0 `to_map` does not throw; it runs the loop, which reads `coords[2]` and
`coords[3]` at the addresses `1016` and `1024`, past the end of the 16-byte row at
`1000`, and adds the signal `7` to `map[0, 1, 1]`. -/
theorem to_map_accepts_two_coordinates :
    S1.qbore2.shape = [1, 2] ∧
    S1.qbore2.at2 0 2 = 1016 ∧ S1.qbore2.at2 0 3 = 1024 ∧
    ∃ m, ProjectionEngine.to_map (⟨Real.cos, Real.sin⟩ : Libm ℝ) spin0 S1.pixelizor S1.mem
        (.array S1.mapv) (.array S1.qbore2) (.array S1.qofs) (.array S1.signalv) PyObject.none
        = .ok (.array S1.mapv, m) ∧
      (S1.mem : Mem ℝ) (S1.mapv.at3 0 1 1) = 0 ∧ m (S1.mapv.at3 0 1 1) = 7 := by
  refine ⟨rfl, rfl, rfl, _, to_map_spin0_ok _ _ _ _ _ _ _ rfl rfl rfl rfl rfl, ?_, ?_⟩
  · simp [S1.mem, S1.mapv, Py_buffer.at3, Py_buffer.stride]
  · simp [ProjectionEngine.to_map_loop, List.range_succ, PointerFlat.InitPerDet,
      PointerFlat.Init, PointerFlat.new, PointerFlat.GetCoords, Pixelizor.GetPixel, wrapInt32,
      Pixelizor.Init, Pixelizor.new, Py_buffer.stride, Py_buffer.shapeAt, S1.mem, S1.mapv,
      S1.qbore2, S1.qofs, S1.signalv, S1.pixelizor, Py_buffer.at3, spin0,
      AccumulatorSpin0.Forward, truncInt]
    norm_num [Function.update, S1.mem]

/-- C17 (the code at a failing input). `pixels` called with a rank-3 map whose first axis
is 2, the other arguments those of scenario S1, does not throw: it returns and has stored
the offset `40` into the output cell, which held `0`. -/
theorem pixels_accepts_two_component_map :
    S1.mapv2.shapeAt 0 = 2 ∧
    ∃ im, ProjectionEngine.pixels (⟨Real.cos, Real.sin⟩ : Libm ℝ) S1.pixelizor S1.mem
        (fun _ => 0) (.array S1.mapv2) (.array S1.qbore) (.array S1.qofs) (.array S1.pixelv)
        = .ok (.array S1.pixelv, im) ∧
      im (S1.pixelv.at2 0 0) = 40 := by
  refine ⟨rfl, _, pixels_ok _ _ _ _ _ _ _ _ rfl rfl rfl rfl, ?_⟩
  simp [ProjectionEngine.pixels_loop, List.range_succ, PointerFlat.InitPerDet,
    PointerFlat.Init, PointerFlat.new, PointerFlat.GetCoords, Pixelizor.GetPixel, wrapInt32,
    Pixelizor.Init, Pixelizor.new, Py_buffer.stride, Py_buffer.shapeAt, S1.mem, S1.mapv2,
    S1.qbore, S1.qofs, S1.pixelv, S1.pixelizor, Py_buffer.at2, truncInt]
  norm_num

end Validation

section NegativeStrides

/-- C18 (the code at a failing input). On the `(1, 4, 4)` map of S1 viewed with its rows in
reverse order (y-stride `-32`), the sample of S1 is in range, with `trunc(iy) = trunc(ix)
= 1`, but its offset `-32 + 8 = -24` is negative: spin-0 `to_map` returns with the memory
it started from, and `map[0, 1, 1]` is still `0` instead of `7`. -/
theorem to_map_skips_negative_offset :
    (S1.pixelizor : Pixelizor ℝ).InRange
      (sampleCoords (⟨Real.cos, Real.sin⟩ : Libm ℝ) S1.mem S1.qbore S1.qofs 0 0) ∧
    samplePixel (⟨Real.cos, Real.sin⟩ : Libm ℝ) S1.pixelizor S1.mem S1.mapvFlip S1.qbore
      S1.qofs 0 0 = -24 ∧
    ProjectionEngine.to_map (⟨Real.cos, Real.sin⟩ : Libm ℝ) spin0 S1.pixelizor S1.mem
      (.array S1.mapvFlip) (.array S1.qbore) (.array S1.qofs) (.array S1.signalv) PyObject.none
      = .ok (.array S1.mapvFlip, S1.mem) ∧
    (S1.mem : Mem ℝ) (S1.mapvFlip.at3 0 1 1) = 0 := by
  obtain ⟨hix, hiy, hin⟩ := S1_ix_iy (⟨Real.cos, Real.sin⟩ : Libm ℝ) S1.mem
    (by simp [S1.mem]) (by simp [S1.mem]) (by simp [S1.mem]) (by simp [S1.mem])
  have hp : samplePixel (⟨Real.cos, Real.sin⟩ : Libm ℝ) S1.pixelizor S1.mem S1.mapvFlip
      S1.qbore S1.qofs 0 0 = -24 := by
    have h := GetPixel_of_InRange (S1.pixelizor : Pixelizor ℝ) S1.mapvFlip ((0 : Nat) : Int)
      ((0 : Nat) : Int) _ hin
    rw [hix, hiy] at h
    rw [samplePixel, h]
    simp [truncInt, S1.mapvFlip, Py_buffer.stride, wrapInt32]
  refine ⟨hin, hp, ?_, ?_⟩
  · rw [to_map_spin0_ok (⟨Real.cos, Real.sin⟩ : Libm ℝ) S1.pixelizor S1.mem S1.mapvFlip S1.qbore
      S1.qofs S1.signalv rfl rfl rfl rfl rfl]
    have hloop : ProjectionEngine.to_map_loop (⟨Real.cos, Real.sin⟩ : Libm ℝ) spin0
        (⟨⟨S1.mapvFlip⟩, ⟨S1.signalv⟩⟩ : AccumulatorSpin0)
        ((S1.pixelizor : Pixelizor ℝ).Init ⟨S1.mapvFlip⟩)
        ((PointerFlat.new : PointerFlat ℝ).Init ⟨S1.qbore⟩ ⟨S1.qofs⟩) (S1.qofs.shapeAt 0)
        (S1.qbore.shapeAt 0) S1.mem
        = (if samplePixel (⟨Real.cos, Real.sin⟩ : Libm ℝ) (S1.pixelizor : Pixelizor ℝ)
              S1.mem S1.mapvFlip S1.qbore S1.qofs 0 0 < 0
            then S1.mem
            else AccumulatorSpin0.Forward (⟨⟨S1.mapvFlip⟩, ⟨S1.signalv⟩⟩ : AccumulatorSpin0)
              S1.mem ((0 : Nat) : Int) ((0 : Nat) : Int)
              (samplePixel (⟨Real.cos, Real.sin⟩ : Libm ℝ) (S1.pixelizor : Pixelizor ℝ)
                S1.mem S1.mapvFlip S1.qbore S1.qofs 0 0)
              (sampleCoords (⟨Real.cos, Real.sin⟩ : Libm ℝ) S1.mem S1.qbore S1.qofs 0 0)
              weights0) := rfl
    rw [hloop, hp, if_pos (by norm_num)]
  · simp [S1.mem, S1.mapvFlip, Py_buffer.at3, Py_buffer.stride]

end NegativeStrides

section TruncationBounds

/-- C19 (the code at a failing input). On the contiguous `(1, 21600, 43200)` map of S4, at
the sky position `(1/2, 14001/2)`, `GetPixel` passes its bounds checks, and the truncated
indices are the floors `1` and `7001`, inside the grid; but the offset it returns is
negative and is not the offset of the element `[0, 7001, 1]` nor of any other element of
the map. -/
theorem GetPixel_offset_outside_plane :
    (S4.pixelizor : Pixelizor ℚ).InRange ![1 / 2, 14001 / 2, 1, 0] ∧
    truncInt ((S4.pixelizor : Pixelizor ℚ).ix ![1 / 2, 14001 / 2, 1, 0])
      = Int.floor ((S4.pixelizor : Pixelizor ℚ).ix ![1 / 2, 14001 / 2, 1, 0]) ∧
    truncInt ((S4.pixelizor : Pixelizor ℚ).iy ![1 / 2, 14001 / 2, 1, 0])
      = Int.floor ((S4.pixelizor : Pixelizor ℚ).iy ![1 / 2, 14001 / 2, 1, 0]) ∧
    truncInt ((S4.pixelizor : Pixelizor ℚ).ix ![1 / 2, 14001 / 2, 1, 0]) = 1 ∧
    truncInt ((S4.pixelizor : Pixelizor ℚ).iy ![1 / 2, 14001 / 2, 1, 0]) = 7001 ∧
    ((S4.pixelizor : Pixelizor ℚ).Init ⟨S4.mapv⟩).GetPixel 0 0 ![1 / 2, 14001 / 2, 1, 0] < 0 ∧
    S4.mapv.buf + ((S4.pixelizor : Pixelizor ℚ).Init ⟨S4.mapv⟩).GetPixel 0 0
      ![1 / 2, 14001 / 2, 1, 0] ≠ S4.mapv.at3 0 7001 1 ∧
    ¬ ArrayCell3 S4.mapv (S4.mapv.buf + ((S4.pixelizor : Pixelizor ℚ).Init ⟨S4.mapv⟩).GetPixel
      0 0 ![1 / 2, 14001 / 2, 1, 0]) := by
  have hix : (S4.pixelizor : Pixelizor ℚ).ix ![1 / 2, 14001 / 2, 1, 0] = 1 := by
    simp [Pixelizor.ix, S4.pixelizor, Pixelizor.new]
    norm_num
  have hiy : (S4.pixelizor : Pixelizor ℚ).iy ![1 / 2, 14001 / 2, 1, 0] = 7001 := by
    simp [Pixelizor.iy, S4.pixelizor, Pixelizor.new]
    norm_num
  have hin : (S4.pixelizor : Pixelizor ℚ).InRange ![1 / 2, 14001 / 2, 1, 0] := by
    simp only [Pixelizor.InRange, hix, hiy]
    simp [S4.pixelizor, Pixelizor.new]
    norm_num
  have tx : truncInt (1 : ℚ) = 1 := by simp [truncInt]
  have ty : truncInt (7001 : ℚ) = 7001 := by
    rw [truncInt_of_nonneg _ (by norm_num)]
    exact_mod_cast Int.floor_intCast (7001 : Int)
  have hg : ((S4.pixelizor : Pixelizor ℚ).Init ⟨S4.mapv⟩).GetPixel 0 0
      ![1 / 2, 14001 / 2, 1, 0] = -1875421688 := by
    rw [GetPixel_of_InRange _ _ _ _ _ hin, hix, hiy, tx, ty]; rfl
  refine ⟨hin, ?_, ?_, ?_, ?_, ?_, ?_, ?_⟩
  · rw [hix, truncInt_of_nonneg _ (by norm_num)]
  · rw [hiy, truncInt_of_nonneg _ (by norm_num)]
  · rw [hix, tx]
  · rw [hiy, ty]
  · rw [hg]; norm_num
  · rw [hg]; decide
  · rw [hg]
    rintro ⟨i, j, k, -, -, -, h⟩
    simp only [S4.mapv, Py_buffer.at3, Py_buffer.stride, List.getD_cons_zero,
      List.getD_cons_succ] at h
    omega

end TruncationBounds

section Frame

/-- C20 (the code at a failing input). On the contiguous `(1, 21600, 43200)` map of S4,
all zeros, with the boresight at `y = 12428`: the one sample is in range, with truncated
indices `(12429, 1)`; its offset `345600 * 12429 + 8 = 4295462408` becomes `495112` as
an `int`, and spin-0 `to_map` adds the signal `7` to `map[0, 1, 18689]`, a pixel that no
sample hits, and leaves `map[0, 12429, 1]` at `0`.  The map is contiguous and starts at
address `10000`, above the boresight, offsets and signal arrays. -/
theorem to_map_writes_unhit_pixel :
    S4.mapv.CContiguous ∧ (∀ a, ArrayCell3 S4.mapv a → 10000 ≤ a) ∧
    S1.qofs.shapeAt 0 = 1 ∧ S1.qbore.shapeAt 0 = 1 ∧
    (S4.pixelizor : Pixelizor ℝ).InRange
      (sampleCoords (⟨Real.cos, Real.sin⟩ : Libm ℝ) (S4.mem 12428) S1.qbore S1.qofs 0 0) ∧
    truncInt ((S4.pixelizor : Pixelizor ℝ).iy
      (sampleCoords (⟨Real.cos, Real.sin⟩ : Libm ℝ) (S4.mem 12428) S1.qbore S1.qofs 0 0))
      = 12429 ∧
    truncInt ((S4.pixelizor : Pixelizor ℝ).ix
      (sampleCoords (⟨Real.cos, Real.sin⟩ : Libm ℝ) (S4.mem 12428) S1.qbore S1.qofs 0 0)) = 1 ∧
    ∃ m, ProjectionEngine.to_map (⟨Real.cos, Real.sin⟩ : Libm ℝ) spin0 S4.pixelizor
        (S4.mem 12428) (.array S4.mapv) (.array S1.qbore) (.array S1.qofs) (.array S1.signalv)
        PyObject.none = .ok (.array S4.mapv, m) ∧
      (S4.mem 12428 : Mem ℝ) (S4.mapv.at3 0 1 18689) = 0 ∧
      m (S4.mapv.at3 0 1 18689) = 7 ∧
      m (S4.mapv.at3 0 12429 1) = 0 := by
  obtain ⟨hin, tx, ty, hp⟩ := S4_sample (⟨Real.cos, Real.sin⟩ : Libm ℝ) (S4.mem 12428) 12428
    (by norm_num) (by norm_num) (by simp [S4.mem]) (by simp [S4.mem])
    (by simp [S4.mem]) (by simp [S4.mem])
  have hp' : samplePixel (⟨Real.cos, Real.sin⟩ : Libm ℝ) S4.pixelizor (S4.mem 12428) S4.mapv
      S1.qbore S1.qofs 0 0 = 495112 := by rw [hp]; rfl
  refine ⟨by decide, S4_mapv_cell, rfl, rfl, hin, ty, tx, _,
    to_map_spin0_ok (⟨Real.cos, Real.sin⟩ : Libm ℝ) S4.pixelizor (S4.mem 12428) S4.mapv
      S1.qbore S1.qofs S1.signalv rfl rfl rfl rfl rfl, ?_, ?_, ?_⟩
  · simp [S4.mem, S4.mapv, Py_buffer.at3, Py_buffer.stride]
  all_goals
    have hloop : ProjectionEngine.to_map_loop (⟨Real.cos, Real.sin⟩ : Libm ℝ) spin0
        (⟨⟨S4.mapv⟩, ⟨S1.signalv⟩⟩ : AccumulatorSpin0)
        ((S4.pixelizor : Pixelizor ℝ).Init ⟨S4.mapv⟩)
        ((PointerFlat.new : PointerFlat ℝ).Init ⟨S1.qbore⟩ ⟨S1.qofs⟩) (S1.qofs.shapeAt 0)
        (S1.qbore.shapeAt 0) (S4.mem 12428)
        = (if samplePixel (⟨Real.cos, Real.sin⟩ : Libm ℝ) (S4.pixelizor : Pixelizor ℝ)
              (S4.mem 12428) S4.mapv S1.qbore S1.qofs 0 0 < 0
            then S4.mem 12428
            else AccumulatorSpin0.Forward (⟨⟨S4.mapv⟩, ⟨S1.signalv⟩⟩ : AccumulatorSpin0)
              (S4.mem 12428) ((0 : Nat) : Int) ((0 : Nat) : Int)
              (samplePixel (⟨Real.cos, Real.sin⟩ : Libm ℝ) (S4.pixelizor : Pixelizor ℝ)
                (S4.mem 12428) S4.mapv S1.qbore S1.qofs 0 0)
              (sampleCoords (⟨Real.cos, Real.sin⟩ : Libm ℝ) (S4.mem 12428) S1.qbore S1.qofs 0 0)
              weights0) := rfl
    rw [hloop, hp', if_neg (by norm_num)]
    simp [AccumulatorSpin0.Forward, S4.mem, S4.mapv, S1.signalv, Py_buffer.at3,
      Py_buffer.stride, Function.update]

end Frame

section NormPreservation

end NormPreservation

end So3g
